import Mathlib

/-!
# osup: decoding of `.osu` beatmap text (`osup_beatmap.c`)

A shallow embedding of the beatmap decoder of `src/osup/osup_beatmap.c`.

* The input text is a list of characters; a `const char*` cursor is an offset
  into it.  Reading at or past the end of the list yields the NUL terminator.
* The parse context `osup_bm_ctx` and the result model `osup_bm` are passed
  explicitly; every decoder returns its status together with the updated
  state and cursor.
* The helper routines declared in the library's common header
  (`osup_parse_int`, `osup_split_string_line_terminated`, ...) are not part of
  `osup_beatmap.c`; the decoders are parameterised by an environment `Env`
  that supplies them, and `specEnv` is a concrete environment written from
  the specification.
-/

namespace Osup

/-! ## Text buffer and character classes -/

/-- The text of a NUL-terminated buffer, without the terminator. -/
abbrev Buf := List Char

/-- The NUL character that terminates a C string. -/
def NUL : Char := Char.ofNat 0

/-- The character at offset `pos`; offsets at or past the end read as NUL. -/
def charAt (buf : Buf) (pos : Nat) : Char := buf.getD pos NUL

/-- The C library `isblank` in the C locale: space or horizontal tab. -/
def isblank (c : Char) : Bool := c == ' ' || c == '\t'

/-- The C library `isdigit`. -/
def isdigit (c : Char) : Bool := decide ('0'.toNat ≤ c.toNat ∧ c.toNat ≤ '9'.toNat)

/-- Modelled from the spec: `osup_is_line_terminator` is declared outside
`osup_beatmap.c`; per the edge case policy "a line terminator is any of `\r`,
`\n`, or end-of-input" (and the source comment "one of '\0', '\r' and '\n'"). -/
def osup_is_line_terminator (c : Char) : Bool := c == NUL || c == '\r' || c == '\n'

/-! ## Line cursor -/

/-- Source `osup_check_prefix_and_advance`: when the text at `pos` starts with
`pfx` the cursor moves past it, otherwise the cursor is left alone. -/
def osup_check_prefix_and_advance (buf : Buf) : List Char → Nat → Option Nat
  | [], pos => some pos
  | p :: ps, pos =>
    if charAt buf pos != p then none
    else osup_check_prefix_and_advance buf ps (pos + 1)

/-- The loop of `osup_advance_to_next_line`, bounded by the number of
characters left in the buffer. -/
def osup_advance_to_next_line_loop (buf : Buf) (checkForNonBlankChar : Bool) :
    Nat → Nat → Bool × Nat
  | 0, line => (true, line)
  | fuel + 1, line =>
    if charAt buf line == NUL then (true, line)
    else if charAt buf line == '\r' || charAt buf line == '\n' then (true, line + 1)
    else if checkForNonBlankChar && !isblank (charAt buf line) then (false, line)
    else osup_advance_to_next_line_loop buf checkForNonBlankChar fuel (line + 1)

/-- Source `osup_advance_to_next_line`: returns the status and the new cursor. -/
def osup_advance_to_next_line (buf : Buf) (line : Nat) (checkForNonBlankChar : Bool) :
    Bool × Nat :=
  osup_advance_to_next_line_loop buf checkForNonBlankChar (buf.length - line) line

/-- The loop of `osup_advance_to_last_nonblank_char`: `it` scans, `line` is
the position after the last non-blank character seen so far. -/
def osup_advance_to_last_nonblank_char_loop (buf : Buf) : Nat → Nat → Nat → Nat × Nat
  | 0, it, line => (it, line)
  | fuel + 1, it, line =>
    if osup_is_line_terminator (charAt buf it) then (it, line)
    else if isblank (charAt buf it) then
      osup_advance_to_last_nonblank_char_loop buf fuel (it + 1) line
    else osup_advance_to_last_nonblank_char_loop buf fuel (it + 1) (it + 1)

/-- Source `osup_advance_to_last_nonblank_char`: returns the position of the
line terminator and the updated `*line` (just after the last non-blank). -/
def osup_advance_to_last_nonblank_char (buf : Buf) (line : Nat) : Nat × Nat :=
  osup_advance_to_last_nonblank_char_loop buf (buf.length - line) line line

/-! ## Result model (`osup_bm`) -/

/-- Modelled from the spec: the fixed-point decimal produced by
`parseDecimal`; its C type is declared outside `osup_beatmap.c`.  The value is
`mantissa / 10 ^ scale`. -/
structure osup_decimal where
  mantissa : Int := 0
  scale : Nat := 0
deriving DecidableEq, Repr

/-- An RGB triplet (`osup_rgb`). -/
structure osup_rgb where
  r : Nat := 0
  g : Nat := 0
  b : Nat := 0
deriving DecidableEq, Repr

/-- Modelled from the spec: the integer values of the enums that the decoder
compares against; the enum declarations live in the library header. -/
def OSUP_COUNTDOWN_SPEED_NONE : Int := 0
/-- Modelled from the spec: last value of the countdown enum. -/
def OSUP_COUNTDOWN_SPEED_DOUBLE : Int := 3
/-- Modelled from the spec: first value of the game-mode enum. -/
def OSUP_MODE_OSU : Int := 0
/-- Modelled from the spec: last value of the game-mode enum. -/
def OSUP_MODE_MANIA : Int := 3
/-- Modelled from the spec: sample set enum (default/normal/soft/drum). -/
def OSUP_SAMPLESET_DEFAULT : Int := 0
/-- Modelled from the spec: sample set enum (default/normal/soft/drum). -/
def OSUP_SAMPLESET_NORMAL : Int := 1
/-- Modelled from the spec: sample set enum (default/normal/soft/drum). -/
def OSUP_SAMPLESET_SOFT : Int := 2
/-- Modelled from the spec: sample set enum (default/normal/soft/drum). -/
def OSUP_SAMPLESET_DRUM : Int := 3
/-- Modelled from the spec: overlay position enum. -/
def OSUP_OVERLAYPOS_NOCHANGE : Int := 0
/-- Modelled from the spec: overlay position enum. -/
def OSUP_OVERLAYPOS_BELOW : Int := 1
/-- Modelled from the spec: overlay position enum. -/
def OSUP_OVERLAYPOS_ABOVE : Int := 2

/-- The `general` member of `osup_bm`: the fields written by
`osup_bm_parse_general_line`. -/
structure osup_bm_general where
  audioFilename : List Char := []
  audioLeadIn : Int := 0
  audioHash : List Char := []
  previewTime : Int := 0
  countdown : Int := 0
  stackLeniency : osup_decimal := {}
  mode : Int := 0
  letterboxInBreaks : Bool := false
  storyFireInFront : Bool := false
  useSkinSprites : Bool := false
  alwaysShowPlayfield : Bool := false
  skinPreference : List Char := []
  epilepsyWarning : Bool := false
  countdownOffset : Int := 0
  specialStyle : Bool := false
  widescreenStoryboard : Bool := false
  samplesMatchPlaybackRate : Bool := false
  sampleSet : Int := 0
  overlayPosition : Int := 0
deriving DecidableEq, Repr

/-- The `editor` member of `osup_bm`.  A bookmark slot that was allocated but
never written is `none`. -/
structure osup_bm_editor where
  distanceSpacing : osup_decimal := {}
  beatDivisor : osup_decimal := {}
  timelineZoom : osup_decimal := {}
  gridSize : Int := 0
  bookmarks : List (Option Int) := []
deriving DecidableEq, Repr

/-- The `metadata` member of `osup_bm`. -/
structure osup_bm_metadata where
  title : List Char := []
  titleUnicode : List Char := []
  artist : List Char := []
  artistUnicode : List Char := []
  creator : List Char := []
  version : List Char := []
  source : List Char := []
  beatmapID : Int := 0
  beatmapSetID : Int := 0
  tags : List (List Char) := []
deriving DecidableEq, Repr

/-- The `difficulty` member of `osup_bm`. -/
structure osup_bm_difficulty where
  hpDrainRate : osup_decimal := {}
  circleSize : osup_decimal := {}
  overallDifficulty : osup_decimal := {}
  approachRate : osup_decimal := {}
  sliderMultiplier : osup_decimal := {}
  sliderTickRate : osup_decimal := {}
deriving DecidableEq, Repr

/-- The `colors` member of `osup_bm`.  `combos` is the fixed-size slot array;
a slot holding an indeterminate value (copied from an uninitialised local) is
`none`. -/
structure osup_bm_colors where
  sliderTrackOverride : osup_rgb := {}
  sliderBorder : osup_rgb := {}
  combos : List (Option osup_rgb) := []
deriving DecidableEq, Repr

/-- The event kinds set by `osup_bm_parse_events_line`. -/
inductive osup_event_type where
  | OSUP_EVENT_TYPE_BACKGROUND
  | OSUP_EVENT_TYPE_VIDEO
  | OSUP_EVENT_TYPE_BREAK
deriving DecidableEq, Repr

/-- The union payload of an event: `bg` (background and video) or `brk`. -/
inductive osup_event_params where
  | bg (filename : List Char) (xOffset yOffset : Int)
  | brk (endTime : Int)
deriving DecidableEq, Repr

/-- One decoded `[Events]` row. -/
structure osup_event where
  eventType : osup_event_type
  startTime : Int
  params : osup_event_params
deriving DecidableEq, Repr

/-- One decoded `[TimingPoints]` row. -/
structure osup_timingpoint where
  time : Int
  beatLength : osup_decimal
  meter : Int
  sampleSet : Int
  sampleIndex : Int
  volume : Int
  uninherited : Bool
  effects : Nat
deriving DecidableEq, Repr

/-- Slider curve kinds, selected by the one-letter code. -/
inductive osup_curve_type where
  | OSUP_CURVE_BEZIER
  | OSUP_CURVE_CENTRIPETAL_CATMULL_ROM
  | OSUP_CURVE_LINEAR
  | OSUP_CURVE_PERFECT_CIRCLE
deriving DecidableEq, Repr

/-- The `slider` payload of a hit object. -/
structure osup_slider where
  curveType : osup_curve_type
  curvePoints : List (Int × Int)
  slides : Int
  length : osup_decimal
  edgeSounds : List Int
  edgeSets : List (Int × Int)
deriving DecidableEq, Repr

/-- The union payload of a hit object: nothing for a circle, `slider`, or
`spinner.endTime` (which the source also uses for mania holds). -/
inductive osup_hitobject_params where
  | circle
  | slider (s : osup_slider)
  | spinner (endTime : Int)
deriving DecidableEq, Repr

/-- The trailing hit sample of a hit object. -/
structure osup_hitsample where
  normalSet : Int
  additionSet : Int
  index : Int
  volume : Int
  filename : List Char
deriving DecidableEq, Repr

/-- One decoded `[HitObjects]` row. -/
structure osup_hitobject where
  x : Int
  y : Int
  time : Int
  type : Nat
  hitSound : Nat
  params : osup_hitobject_params
  hitSample : osup_hitsample
deriving DecidableEq, Repr

/-- The result model `osup_bm`.  Each growable list holds its first `count`
elements, so `count` is the length of the list. -/
structure osup_bm where
  general : osup_bm_general := {}
  editor : osup_bm_editor := {}
  metadata : osup_bm_metadata := {}
  difficulty : osup_bm_difficulty := {}
  colors : osup_bm_colors := {}
  events : List osup_event := []
  timingPoints : List osup_timingpoint := []
  hitObjects : List osup_hitobject := []
deriving DecidableEq, Repr

/-! ## Parse context -/

/-- Source enum `osup_bm_section`, in declaration order (so `GENERAL` is the
value 0). -/
inductive osup_bm_section where
  | OSUP_BM_SECTION_GENERAL
  | OSUP_BM_SECTION_EDITOR
  | OSUP_BM_SECTION_METADATA
  | OSUP_BM_SECTION_DIFFICULTY
  | OSUP_BM_SECTION_COLORS
  | OSUP_BM_SECTION_EVENTS
  | OSUP_BM_SECTION_TIMING_POINTS
  | OSUP_BM_SECTION_HIT_OBJECTS
deriving DecidableEq, Repr

open osup_bm_section osup_event_type osup_curve_type

/-- Source struct `osup_bm_ctx`; `map` is the pointed-to result model. -/
structure osup_bm_ctx where
  version : List Char
  «section» : osup_bm_section
  map : osup_bm
  eventCapacity : Nat
  timingpointCapacity : Nat
  colorComboCapacity : Nat
  hitObjectCapacity : Nat
deriving DecidableEq, Repr

/-- The context built by `osup_bm_ctx ctx = {}; ctx.map = map;`: every member
is zero, so the section is the enum's value 0. -/
def osup_bm_ctx.init (map : osup_bm) : osup_bm_ctx :=
  { version := [], «section» := OSUP_BM_SECTION_GENERAL, map := map,
    eventCapacity := 0, timingpointCapacity := 0, colorComboCapacity := 0,
    hitObjectCapacity := 0 }

/-! ## Collaborator primitives -/

/-- The routines and allocator that `osup_beatmap.c` calls but does not
define.  Ranges are `[begin, end)` offsets into the buffer.  A primitive that
fails (`none`) stores nothing.

The three splitters receive the caller's `elementBegin` (`none` is the initial
`NULL`) and the offset `elementEnd + 1` at which the next token starts (the
source initialises `elementEnd` to `*line - 1`), and return the new
`(elementBegin, elementEnd)`.  `malloc` and `realloc` tell whether a request
for the given number of elements is satisfied. -/
structure Env where
  osup_parse_int : Buf → Nat → Nat → Option Int
  osup_parse_ubyte : Buf → Nat → Nat → Option Nat
  osup_parse_bool : Buf → Nat → Nat → Option Bool
  osup_parse_decimal : Buf → Nat → Nat → Option osup_decimal
  osup_parse_rgb : Buf → Nat → Nat → Option osup_rgb
  osup_strdup : Buf → Nat → Nat → Option (List Char)
  osup_parse_int_until_nondigit_char : Buf → Nat → Option (Int × Nat)
  osup_split_string : Buf → Char → Option Nat → Nat → Nat → Option (Nat × Nat)
  osup_split_string_line_terminated : Buf → Char → Option Nat → Nat → Option (Nat × Nat)
  osup_split_string_line_terminated_quoted :
    Buf → Char → Option Nat → Nat → Option (Nat × Nat)
  malloc : Nat → Bool
  realloc : Nat → Bool

/-- What a key-value decoder hands back: the returned `osup_bool`, the result
model and the cursor `*line` as the call left them. -/
structure Res where
  ok : Bool
  map : osup_bm
  line : Nat
deriving DecidableEq, Repr

/-- The range set up by the macro `OSUP_BM_KV_GET_VALUE`. -/
structure KvValue where
  valueBegin : Nat
  valueEnd : Nat
  line : Nat
deriving DecidableEq, Repr

/-- Source macro `OSUP_BM_KV_GET_VALUE`: `valueBegin` is the cursor, `valueEnd`
is right-trimmed, and `*line` becomes the line terminator's position. -/
def OSUP_BM_KV_GET_VALUE (buf : Buf) (line : Nat) : KvValue :=
  let r := osup_advance_to_last_nonblank_char buf line
  { valueBegin := line, valueEnd := r.2, line := r.1 }

/-- The common shape of the `OSUP_BM_KV_PARSE_*` macros: on a matching prefix
decode the value with `parse` and store it with `set`; otherwise fall through
to the next statement `next`. -/
def kvParse {α : Type} (parse : Buf → Nat → Nat → Option α) (buf : Buf) (map : osup_bm)
    (line : Nat) (pfx : String) (set : osup_bm → α → osup_bm) (next : Res) : Res :=
  match osup_check_prefix_and_advance buf pfx.toList line with
  | some l =>
    let v := OSUP_BM_KV_GET_VALUE buf l
    match parse buf v.valueBegin v.valueEnd with
    | some a => { ok := true, map := set map a, line := v.line }
    | none => { ok := false, map := map, line := v.line }
  | none => next

/-- Source macro `OSUP_BM_KV_PARSE_STRING`. -/
def OSUP_BM_KV_PARSE_STRING (env : Env) := @kvParse (List Char) env.osup_strdup

/-- Source macro `OSUP_BM_KV_PARSE_INT`. -/
def OSUP_BM_KV_PARSE_INT (env : Env) := @kvParse Int env.osup_parse_int

/-- Source macro `OSUP_BM_KV_PARSE_BOOL`. -/
def OSUP_BM_KV_PARSE_BOOL (env : Env) := @kvParse Bool env.osup_parse_bool

/-- Source macro `OSUP_BM_KV_PARSE_DECIMAL`. -/
def OSUP_BM_KV_PARSE_DECIMAL (env : Env) := @kvParse osup_decimal env.osup_parse_decimal

/-- Source macro `OSUP_BM_KV_PARSE_RGB`. -/
def OSUP_BM_KV_PARSE_RGB (env : Env) := @kvParse osup_rgb env.osup_parse_rgb

/-- Source macro `OSUP_BM_KV_PARSE_INT_ENUM`: an integer that must lie in
`[minEnum, maxEnum]`. -/
def OSUP_BM_KV_PARSE_INT_ENUM (env : Env) (buf : Buf) (map : osup_bm) (line : Nat)
    (pfx : String) (set : osup_bm → Int → osup_bm) (minEnum maxEnum : Int) (next : Res) :
    Res :=
  match osup_check_prefix_and_advance buf pfx.toList line with
  | some l =>
    let v := OSUP_BM_KV_GET_VALUE buf l
    match env.osup_parse_int buf v.valueBegin v.valueEnd with
    | some enumValue =>
      if enumValue < minEnum || enumValue > maxEnum then
        { ok := false, map := map, line := v.line }
      else { ok := true, map := set map enumValue, line := v.line }
    | none => { ok := false, map := map, line := v.line }
  | none => next

/-- The C library `memcmp(buf + pos, s, strlen s) == 0`. -/
def memeq (buf : Buf) : Nat → List Char → Bool
  | _, [] => true
  | pos, c :: cs => charAt buf pos == c && memeq buf (pos + 1) cs

/-- Source macro `OSUP_BM_KV_CHECK_STRING_ENUM`: when the value is exactly
`enumString`, store `value` and return true; otherwise go on with `next`. -/
def OSUP_BM_KV_CHECK_STRING_ENUM (buf : Buf) (map : osup_bm) (v : KvValue)
    (set : osup_bm → Int → osup_bm) (enumString : String) (value : Int) (next : Res) : Res :=
  if v.valueEnd - v.valueBegin == enumString.toList.length
      && memeq buf v.valueBegin enumString.toList then
    { ok := true, map := set map value, line := v.line }
  else next

/-! ## Key-value section decoders -/

/-- Source `osup_bm_parse_general_line`. -/
def osup_bm_parse_general_line (env : Env) (buf : Buf) (map : osup_bm) (line : Nat) : Res :=
  let g (f : osup_bm_general → osup_bm_general) (m : osup_bm) : osup_bm :=
    { m with general := f m.general }
  OSUP_BM_KV_PARSE_STRING env buf map line "AudioFilename: "
    (fun m a => g (fun x => { x with audioFilename := a }) m) <|
  OSUP_BM_KV_PARSE_INT env buf map line "AudioLeadIn: "
    (fun m a => g (fun x => { x with audioLeadIn := a }) m) <|
  OSUP_BM_KV_PARSE_STRING env buf map line "AudioHash: "
    (fun m a => g (fun x => { x with audioHash := a }) m) <|
  OSUP_BM_KV_PARSE_INT env buf map line "PreviewTime: "
    (fun m a => g (fun x => { x with previewTime := a }) m) <|
  OSUP_BM_KV_PARSE_INT_ENUM env buf map line "Countdown"
    (fun m a => g (fun x => { x with countdown := a }) m)
    OSUP_COUNTDOWN_SPEED_NONE OSUP_COUNTDOWN_SPEED_DOUBLE <|
  OSUP_BM_KV_PARSE_DECIMAL env buf map line "StackLeniency: "
    (fun m a => g (fun x => { x with stackLeniency := a }) m) <|
  OSUP_BM_KV_PARSE_INT_ENUM env buf map line "Mode: "
    (fun m a => g (fun x => { x with mode := a }) m) OSUP_MODE_OSU OSUP_MODE_MANIA <|
  OSUP_BM_KV_PARSE_BOOL env buf map line "LetterboxInBreaks: "
    (fun m a => g (fun x => { x with letterboxInBreaks := a }) m) <|
  OSUP_BM_KV_PARSE_BOOL env buf map line "StoryFireInFront: "
    (fun m a => g (fun x => { x with storyFireInFront := a }) m) <|
  OSUP_BM_KV_PARSE_BOOL env buf map line "UseSkinSprites: "
    (fun m a => g (fun x => { x with useSkinSprites := a }) m) <|
  OSUP_BM_KV_PARSE_BOOL env buf map line "AlwaysShowPlayfield: "
    (fun m a => g (fun x => { x with alwaysShowPlayfield := a }) m) <|
  OSUP_BM_KV_PARSE_STRING env buf map line "SkinPreference: "
    (fun m a => g (fun x => { x with skinPreference := a }) m) <|
  OSUP_BM_KV_PARSE_BOOL env buf map line "EpilepsyWarning: "
    (fun m a => g (fun x => { x with epilepsyWarning := a }) m) <|
  OSUP_BM_KV_PARSE_INT env buf map line "CountdownOffset: "
    (fun m a => g (fun x => { x with countdownOffset := a }) m) <|
  OSUP_BM_KV_PARSE_BOOL env buf map line "SpecialStyle: "
    (fun m a => g (fun x => { x with specialStyle := a }) m) <|
  OSUP_BM_KV_PARSE_BOOL env buf map line "WidescreenStoryboard: "
    (fun m a => g (fun x => { x with widescreenStoryboard := a }) m) <|
  OSUP_BM_KV_PARSE_BOOL env buf map line "SamplesMatchPlaybackRate"
    (fun m a => g (fun x => { x with samplesMatchPlaybackRate := a }) m) <|
  match osup_check_prefix_and_advance buf "SampleSet: ".toList line with
  | some l =>
    let v := OSUP_BM_KV_GET_VALUE buf l
    let set := fun (m : osup_bm) (a : Int) => g (fun x => { x with sampleSet := a }) m
    OSUP_BM_KV_CHECK_STRING_ENUM buf map v set "Normal" OSUP_SAMPLESET_NORMAL <|
    OSUP_BM_KV_CHECK_STRING_ENUM buf map v set "Soft" OSUP_SAMPLESET_SOFT <|
    OSUP_BM_KV_CHECK_STRING_ENUM buf map v set "Drum" OSUP_SAMPLESET_DRUM <|
    { ok := false, map := map, line := v.line }
  | none =>
  match osup_check_prefix_and_advance buf "OverlayPosition: ".toList line with
  | some l =>
    let v := OSUP_BM_KV_GET_VALUE buf l
    let set := fun (m : osup_bm) (a : Int) => g (fun x => { x with overlayPosition := a }) m
    OSUP_BM_KV_CHECK_STRING_ENUM buf map v set "NoChange" OSUP_OVERLAYPOS_NOCHANGE <|
    OSUP_BM_KV_CHECK_STRING_ENUM buf map v set "Below" OSUP_OVERLAYPOS_BELOW <|
    OSUP_BM_KV_CHECK_STRING_ENUM buf map v set "Above" OSUP_OVERLAYPOS_ABOVE <|
    { ok := false, map := map, line := v.line }
  | none => { ok := false, map := map, line := line }

/-- The element-counting loop of the `Bookmarks: ` branch: one more than the
number of `,` in `[it, valueEnd)`. -/
def countDelims (buf : Buf) (delim : Char) (valueEnd : Nat) : Nat → Nat → Nat → Nat
  | 0, _, n => n
  | fuel + 1, it, n =>
    if it < valueEnd then
      countDelims buf delim valueEnd fuel (it + 1) (if charAt buf it == delim then n + 1 else n)
    else n

/-- The `while (osup_split_string(...))` loop of the `Bookmarks: ` branch.
The source never increments `index`, so every decoded integer is stored in
element 0.  The loop is cut off (as a failure) after `fuel` tokens. -/
def bookmarksLoop (env : Env) (buf : Buf) (valueEnd : Nat) :
    Nat → Option Nat → Nat → List (Option Int) → Bool × List (Option Int)
  | 0, _, _, elements => (false, elements)
  | fuel + 1, elementBegin, scanFrom, elements =>
    match env.osup_split_string buf ',' elementBegin scanFrom valueEnd with
    | none => (true, elements)
    | some (b, e) =>
      match env.osup_parse_int buf b e with
      | none => (false, elements)
      | some x => bookmarksLoop env buf valueEnd fuel (some b) (e + 1) (elements.set 0 (some x))

/-- Source `osup_bm_parse_editor_line`.  The `malloc` of the bookmark array is
not tested by the source; the model takes it to have succeeded. -/
def osup_bm_parse_editor_line (env : Env) (buf : Buf) (map : osup_bm) (line : Nat) : Res :=
  let g (f : osup_bm_editor → osup_bm_editor) (m : osup_bm) : osup_bm :=
    { m with editor := f m.editor }
  OSUP_BM_KV_PARSE_DECIMAL env buf map line "DistanceSpacing: "
    (fun m a => g (fun x => { x with distanceSpacing := a }) m) <|
  OSUP_BM_KV_PARSE_DECIMAL env buf map line "BeatDivisor: "
    (fun m a => g (fun x => { x with beatDivisor := a }) m) <|
  OSUP_BM_KV_PARSE_DECIMAL env buf map line "TimelineZoom: "
    (fun m a => g (fun x => { x with timelineZoom := a }) m) <|
  OSUP_BM_KV_PARSE_INT env buf map line "GridSize: "
    (fun m a => g (fun x => { x with gridSize := a }) m) <|
  match osup_check_prefix_and_advance buf "Bookmarks: ".toList line with
  | some l =>
    let v := OSUP_BM_KV_GET_VALUE buf l
    let elementCount :=
      countDelims buf ',' v.valueEnd (v.valueEnd - v.valueBegin) v.valueBegin 1
    let r := bookmarksLoop env buf v.valueEnd (buf.length + 2) none v.valueBegin
      (List.replicate elementCount none)
    { ok := r.1, map := g (fun x => { x with bookmarks := r.2 }) map, line := v.line }
  | none => { ok := false, map := map, line := line }

/-- The text of a C string held in `s`: everything before the first NUL. -/
def cstr (s : List Char) : List Char := s.takeWhile (fun c => c != NUL)

/-- The two tag loops of `osup_bm_parse_metadata_line` taken together: every
space of the copied value becomes a terminator and each resulting piece is one
element (so there is one more element than there are spaces). -/
def splitTags : List Char → List (List Char)
  | [] => [[]]
  | c :: cs =>
    if c == ' ' then [] :: splitTags cs
    else
      match splitTags cs with
      | t :: ts => (c :: t) :: ts
      | [] => [[c]]

/-- Source `osup_bm_parse_metadata_line`.  When the `malloc` of the tag array
fails the source has already stored the count; the model leaves the tag list
without elements. -/
def osup_bm_parse_metadata_line (env : Env) (buf : Buf) (map : osup_bm) (line : Nat) : Res :=
  let g (f : osup_bm_metadata → osup_bm_metadata) (m : osup_bm) : osup_bm :=
    { m with metadata := f m.metadata }
  OSUP_BM_KV_PARSE_STRING env buf map line "Title:"
    (fun m a => g (fun x => { x with title := a }) m) <|
  OSUP_BM_KV_PARSE_STRING env buf map line "TitleUnicode:"
    (fun m a => g (fun x => { x with titleUnicode := a }) m) <|
  OSUP_BM_KV_PARSE_STRING env buf map line "Artist:"
    (fun m a => g (fun x => { x with artist := a }) m) <|
  OSUP_BM_KV_PARSE_STRING env buf map line "ArtistUnicode:"
    (fun m a => g (fun x => { x with artistUnicode := a }) m) <|
  OSUP_BM_KV_PARSE_STRING env buf map line "Creator:"
    (fun m a => g (fun x => { x with creator := a }) m) <|
  OSUP_BM_KV_PARSE_STRING env buf map line "Version:"
    (fun m a => g (fun x => { x with version := a }) m) <|
  OSUP_BM_KV_PARSE_STRING env buf map line "Source:"
    (fun m a => g (fun x => { x with source := a }) m) <|
  OSUP_BM_KV_PARSE_STRING env buf map line "Title:"
    (fun m a => g (fun x => { x with title := a }) m) <|
  OSUP_BM_KV_PARSE_INT env buf map line "BeatmapID:"
    (fun m a => g (fun x => { x with beatmapID := a }) m) <|
  OSUP_BM_KV_PARSE_INT env buf map line "BeatmapSetID:"
    (fun m a => g (fun x => { x with beatmapSetID := a }) m) <|
  match osup_check_prefix_and_advance buf "Tags:".toList line with
  | some l =>
    let v := OSUP_BM_KV_GET_VALUE buf l
    match env.osup_strdup buf v.valueBegin v.valueEnd with
    | none => { ok := false, map := map, line := v.line }
    | some tags =>
      let elements := splitTags (cstr tags)
      if env.malloc elements.length then
        { ok := true, map := g (fun x => { x with tags := elements }) map, line := v.line }
      else { ok := false, map := g (fun x => { x with tags := [] }) map, line := v.line }
  | none => { ok := false, map := map, line := line }

/-- Source `osup_bm_parse_difficulty_line`. -/
def osup_bm_parse_difficulty_line (env : Env) (buf : Buf) (map : osup_bm) (line : Nat) : Res :=
  let g (f : osup_bm_difficulty → osup_bm_difficulty) (m : osup_bm) : osup_bm :=
    { m with difficulty := f m.difficulty }
  OSUP_BM_KV_PARSE_DECIMAL env buf map line "HPDrainRate:"
    (fun m a => g (fun x => { x with hpDrainRate := a }) m) <|
  OSUP_BM_KV_PARSE_DECIMAL env buf map line "CircleSize:"
    (fun m a => g (fun x => { x with circleSize := a }) m) <|
  OSUP_BM_KV_PARSE_DECIMAL env buf map line "OverallDifficulty:"
    (fun m a => g (fun x => { x with overallDifficulty := a }) m) <|
  OSUP_BM_KV_PARSE_DECIMAL env buf map line "ApproachRate:"
    (fun m a => g (fun x => { x with approachRate := a }) m) <|
  OSUP_BM_KV_PARSE_DECIMAL env buf map line "SliderMultiplier:"
    (fun m a => g (fun x => { x with sliderMultiplier := a }) m) <|
  OSUP_BM_KV_PARSE_DECIMAL env buf map line "SliderTickRate:"
    (fun m a => g (fun x => { x with sliderTickRate := a }) m) <|
  { ok := false, map := map, line := line }

/-- The digit loop of the `Combo` branch: `combo = combo * 10 + digit` in
`size_t` arithmetic (64-bit), advancing the cursor over the digits. -/
def comboDigits (buf : Buf) : Nat → Nat → Nat → Nat × Nat
  | 0, line, combo => (combo, line)
  | fuel + 1, line, combo =>
    if isdigit (charAt buf line) then
      comboDigits buf fuel (line + 1)
        ((combo * 10 + ((charAt buf line).toNat - '0'.toNat)) % 2 ^ 64)
    else (combo, line)

/-- Source `osup_bm_parse_colors_line`.  The slot count
`sizeof(combos) / sizeof(osup_rgb)` is the length of `combos`.  The result of
`osup_parse_rgb` is not tested by the source: when it fails, the slot receives
the uninitialised local `value`, recorded as `none`. -/
def osup_bm_parse_colors_line (env : Env) (buf : Buf) (map : osup_bm) (line : Nat) : Res :=
  let g (f : osup_bm_colors → osup_bm_colors) (m : osup_bm) : osup_bm :=
    { m with colors := f m.colors }
  OSUP_BM_KV_PARSE_RGB env buf map line "SliderTrackOverride : "
    (fun m a => g (fun x => { x with sliderTrackOverride := a }) m) <|
  OSUP_BM_KV_PARSE_RGB env buf map line "SliderBorder : "
    (fun m a => g (fun x => { x with sliderBorder := a }) m) <|
  match osup_check_prefix_and_advance buf "Combo".toList line with
  | some l =>
    if !isdigit (charAt buf l) then { ok := false, map := map, line := l }
    else
      let d := comboDigits buf (buf.length - l) l 0
      let combo := d.1
      if combo > map.colors.combos.length || combo == 0 then
        { ok := false, map := map, line := d.2 }
      else
        match osup_check_prefix_and_advance buf " : ".toList d.2 with
        | none => { ok := false, map := map, line := d.2 }
        | some l2 =>
          let v := OSUP_BM_KV_GET_VALUE buf l2
          let value := env.osup_parse_rgb buf v.valueBegin v.valueEnd
          { ok := true,
            map := g (fun x => { x with combos := x.combos.set (combo - 1) value }) map,
            line := v.line }
  | none => { ok := false, map := map, line := line }

/-! ## CSV-row section decoders -/

/-- What a row decoder hands back: the decoded record when it returned true,
and the cursor `*line` as the call left it. -/
structure RowRes (α : Type) where
  value : Option α
  line : Nat
deriving DecidableEq, Repr

/-- The first `switch` of `osup_bm_parse_events_line`: the event kind named by
the first token `[b, e)`. -/
def eventTypeOfToken (buf : Buf) (b e : Nat) : Option osup_event_type :=
  if e - b == 1 then
    if charAt buf b == '0' then some OSUP_EVENT_TYPE_BACKGROUND
    else if charAt buf b == '1' then some OSUP_EVENT_TYPE_VIDEO
    else if charAt buf b == '2' then some OSUP_EVENT_TYPE_BREAK
    else none
  else if e - b == 5 then
    if memeq buf b "Video".toList then some OSUP_EVENT_TYPE_VIDEO
    else if memeq buf b "Break".toList then some OSUP_EVENT_TYPE_BREAK
    else none
  else none

/-- One positional field of a CSV row: a call of
`osup_split_string_line_terminated` (or of its quoted variant) followed by the
field's decoder; either failing fails the row.  `k` is the rest of the row,
entered with the decoded value and the token `[elementBegin, elementEnd)`. -/
def csvField {α β : Type} (split : Option Nat → Nat → Option (Nat × Nat))
    (parse : Nat → Nat → Option α) (elementBegin : Option Nat) (scanFrom : Nat)
    (k : α → Nat → Nat → Option β) : Option β :=
  match split elementBegin scanFrom with
  | none => none
  | some t =>
    match parse t.1 t.2 with
    | none => none
    | some a => k a t.1 t.2

/-- The field decoding of `osup_bm_parse_events_line`, up to the statement
`*line = elementEnd`: the event and the final `elementEnd`. -/
def eventsFields (env : Env) (buf : Buf) (line : Nat) : Option (osup_event × Nat) :=
  let split := env.osup_split_string_line_terminated buf ','
  let splitQuoted := env.osup_split_string_line_terminated_quoted buf ','
  csvField split (eventTypeOfToken buf) none line fun eventType b e =>
  csvField split (env.osup_parse_int buf) (some b) (e + 1) fun startTime b e =>
  match eventType with
  | OSUP_EVENT_TYPE_BREAK =>
    csvField split (env.osup_parse_int buf) (some b) (e + 1) fun endTime _ e =>
    some ({ eventType := eventType, startTime := startTime, params := .brk endTime }, e)
  | _ =>
    csvField splitQuoted (env.osup_strdup buf) (some b) (e + 1) fun filename b e =>
    csvField split (env.osup_parse_int buf) (some b) (e + 1) fun xOffset b e =>
    csvField split (env.osup_parse_int buf) (some b) (e + 1) fun yOffset _ e =>
    some ({ eventType := eventType, startTime := startTime,
            params := .bg filename xOffset yOffset }, e)

/-- Source `osup_bm_parse_events_line`: the cursor only moves once every field
has decoded; leftover tokens then fail the line. -/
def osup_bm_parse_events_line (env : Env) (buf : Buf) (line : Nat) : RowRes osup_event :=
  match eventsFields env buf line with
  | none => { value := none, line := line }
  | some (event, elementEnd) =>
    let r := osup_advance_to_next_line buf elementEnd true
    { value := if r.1 then some event else none, line := r.2 }

/-- The field decoding of `osup_bm_parse_timing_points_line`, up to the
statement `*line = elementEnd`. -/
def timingPointsFields (env : Env) (buf : Buf) (line : Nat) :
    Option (osup_timingpoint × Nat) :=
  let split := env.osup_split_string_line_terminated buf ','
  csvField split (env.osup_parse_int buf) none line fun time b e =>
  csvField split (env.osup_parse_decimal buf) (some b) (e + 1) fun beatLength b e =>
  csvField split (env.osup_parse_int buf) (some b) (e + 1) fun meter b e =>
  csvField split (env.osup_parse_int buf) (some b) (e + 1) fun sampleSetValue b e =>
  if !(sampleSetValue ≥ OSUP_SAMPLESET_DEFAULT && sampleSetValue ≤ OSUP_SAMPLESET_DRUM) then
    none
  else
  csvField split (env.osup_parse_int buf) (some b) (e + 1) fun sampleIndex b e =>
  csvField split (env.osup_parse_int buf) (some b) (e + 1) fun volume b e =>
  csvField split (env.osup_parse_bool buf) (some b) (e + 1) fun uninherited b e =>
  csvField split (env.osup_parse_ubyte buf) (some b) (e + 1) fun effects _ e =>
  some ({ time := time, beatLength := beatLength, meter := meter,
          sampleSet := sampleSetValue, sampleIndex := sampleIndex, volume := volume,
          uninherited := uninherited, effects := effects }, e)

/-- Source `osup_bm_parse_timing_points_line`. -/
def osup_bm_parse_timing_points_line (env : Env) (buf : Buf) (line : Nat) :
    RowRes osup_timingpoint :=
  match timingPointsFields env buf line with
  | none => { value := none, line := line }
  | some (timingpoint, elementEnd) =>
    let r := osup_advance_to_next_line buf elementEnd true
    { value := if r.1 then some timingpoint else none, line := r.2 }

/-- Modelled from the spec: the macro `OSUP_IS_SLIDER` is declared in the
library header; the slider flag is bit 1 of the type byte. -/
def OSUP_IS_SLIDER (type : Nat) : Bool := type &&& 2 != 0

/-- Modelled from the spec: the macro `OSUP_IS_SPINNER`; the spinner flag is
bit 3 of the type byte. -/
def OSUP_IS_SPINNER (type : Nat) : Bool := type &&& 8 != 0

/-- Modelled from the spec: the macro `OSUP_IS_MANIA_HOLD`; the hold flag is
bit 7 of the type byte. -/
def OSUP_IS_MANIA_HOLD (type : Nat) : Bool := type &&& 128 != 0

/-- The sum tested by `osup_bm_parse_hit_objects_line`:
`(type >> 0 & 1) + (type >> 1 & 1) + (type >> 3 & 1) + (type >> 7 & 1)`. -/
def typeBitSum (type : Nat) : Nat :=
  (type >>> 0 &&& 1) + (type >>> 1 &&& 1) + (type >>> 3 &&& 1) + (type >>> 7 &&& 1)

/-- The statement `if (*((*line)++) != c) return osup_false;`: the cursor
moves on whether or not the character matches. -/
def expectChar {β : Type} (buf : Buf) (c : Char) (line : Nat) (k : Nat → RowRes β) :
    RowRes β :=
  if charAt buf line != c then { value := none, line := line + 1 } else k (line + 1)

/-- A call of `osup_parse_int_until_nondigit_char(line, &x)` whose failure
fails the row. -/
def intUntil {β : Type} (env : Env) (buf : Buf) (line : Nat) (k : Int → Nat → RowRes β) :
    RowRes β :=
  match env.osup_parse_int_until_nondigit_char buf line with
  | none => { value := none, line := line }
  | some r => k r.1 r.2

/-- The statements `if (**line != ',' && **line != '|') return osup_false;
++(*line);` that close one list element. -/
def listSeparator {β : Type} (buf : Buf) (line : Nat) (k : Nat → RowRes β) : RowRes β :=
  if charAt buf line != ',' && charAt buf line != '|' then { value := none, line := line }
  else k (line + 1)

/-- The counting loop of the curve-point list: adds one per `|` until a `,`
or a line terminator. -/
def countCurvePoints (buf : Buf) : Nat → Nat → Nat → Nat
  | 0, _, n => n
  | fuel + 1, it, n =>
    if charAt buf it != ',' && !osup_is_line_terminator (charAt buf it) then
      countCurvePoints buf fuel (it + 1) (if charAt buf it == '|' then n + 1 else n)
    else n

/-- The counting loops of the edge-sound and edge-set lists: adds one per `|`
until a `,`; a line terminator before the `,` fails the row. -/
def countEdges (buf : Buf) : Nat → Nat → Nat → Option Nat
  | 0, _, _ => none
  | fuel + 1, it, n =>
    if charAt buf it != ',' then
      if charAt buf it == '|' then countEdges buf fuel (it + 1) (n + 1)
      else if osup_is_line_terminator (charAt buf it) then none
      else countEdges buf fuel (it + 1) n
    else some n

/-- The scan `while (*valueEnd != ',')` before the slider length: the position
of the next `,`, failing on a line terminator. -/
def findComma (buf : Buf) : Nat → Nat → Option Nat
  | 0, _ => none
  | fuel + 1, valueEnd =>
    if charAt buf valueEnd != ',' then
      if osup_is_line_terminator (charAt buf valueEnd) then none
      else findComma buf fuel (valueEnd + 1)
    else some valueEnd

/-- The loop filling a list of `x:y` pairs (curve points, edge sets): `n`
elements are still to be read. -/
def pairsLoop (env : Env) (buf : Buf) : Nat → Nat → RowRes (List (Int × Int))
  | 0, line => { value := some [], line := line }
  | n + 1, line =>
    intUntil env buf line fun x line =>
    expectChar buf ':' line fun line =>
    intUntil env buf line fun y line =>
    listSeparator buf line fun line =>
    let r := pairsLoop env buf n line
    { value := r.value.map (fun rest => (x, y) :: rest), line := r.line }

/-- The loop filling the edge-sound list: `n` elements are still to be read. -/
def intsLoop (env : Env) (buf : Buf) : Nat → Nat → RowRes (List Int)
  | 0, line => { value := some [], line := line }
  | n + 1, line =>
    intUntil env buf line fun x line =>
    listSeparator buf line fun line =>
    let r := intsLoop env buf n line
    { value := r.value.map (fun rest => x :: rest), line := r.line }

/-- The `switch (curveTypeChar)` of the slider branch. -/
def curveTypeOfChar (c : Char) : Option osup_curve_type :=
  if c == 'B' then some OSUP_CURVE_BEZIER
  else if c == 'C' then some OSUP_CURVE_CENTRIPETAL_CATMULL_ROM
  else if c == 'L' then some OSUP_CURVE_LINEAR
  else if c == 'P' then some OSUP_CURVE_PERFECT_CIRCLE
  else none

/-- Run `k` on the value of a finished sub-decoder, or pass its failure on. -/
def RowRes.andThen {α β : Type} (r : RowRes α) (k : α → Nat → RowRes β) : RowRes β :=
  match r.value with
  | none => { value := none, line := r.line }
  | some a => k a r.line

/-- The slider branch of `osup_bm_parse_hit_objects_line`. -/
def sliderParams (env : Env) (buf : Buf) (line : Nat) : RowRes osup_slider :=
  match curveTypeOfChar (charAt buf line) with
  | none => { value := none, line := line + 1 }
  | some curveType =>
    expectChar buf '|' (line + 1) fun line =>
    let curvePointCount := countCurvePoints buf (buf.length - line) line 1
    if !env.malloc curvePointCount then { value := none, line := line }
    else
    (pairsLoop env buf curvePointCount line).andThen fun curvePoints line =>
    intUntil env buf line fun slides line =>
    expectChar buf ',' line fun line =>
    match findComma buf (buf.length - line + 1) line with
    | none => { value := none, line := line }
    | some valueEnd =>
      match env.osup_parse_decimal buf line valueEnd with
      | none => { value := none, line := line }
      | some length =>
        let line := valueEnd + 1
        match countEdges buf (buf.length - line + 1) line 1 with
        | none => { value := none, line := line }
        | some edgeSoundCount =>
          if !env.malloc edgeSoundCount then { value := none, line := line }
          else
          (intsLoop env buf edgeSoundCount line).andThen fun edgeSounds line =>
          match countEdges buf (buf.length - line + 1) line 1 with
          | none => { value := none, line := line }
          | some edgeSetCount =>
            if !env.malloc edgeSetCount then { value := none, line := line }
            else
            (pairsLoop env buf edgeSetCount line).andThen fun edgeSets line =>
            { value := some { curveType := curveType, curvePoints := curvePoints,
                              slides := slides, length := length,
                              edgeSounds := edgeSounds, edgeSets := edgeSets },
              line := line }

/-- The five fixed fields of a hit object, as decoded up to the statement
`*line = elementEnd`. -/
structure HitObjectFixed where
  x : Int
  y : Int
  time : Int
  type : Nat
  hitSound : Nat
  elementEnd : Nat
deriving DecidableEq, Repr

/-- The decoding of the five fixed fields `x,y,time,type,hitSound` of
`osup_bm_parse_hit_objects_line`. -/
def hitObjectFixedFields (env : Env) (buf : Buf) (line : Nat) : Option HitObjectFixed :=
  let split := env.osup_split_string_line_terminated buf ','
  csvField split (env.osup_parse_int buf) none line fun x b e =>
  csvField split (env.osup_parse_int buf) (some b) (e + 1) fun y b e =>
  csvField split (env.osup_parse_int buf) (some b) (e + 1) fun time b e =>
  csvField split (env.osup_parse_ubyte buf) (some b) (e + 1) fun type b e =>
  csvField split (env.osup_parse_ubyte buf) (some b) (e + 1) fun hitSound _ e =>
  some { x := x, y := y, time := time, type := type, hitSound := hitSound, elementEnd := e }

/-- The object parameters of `osup_bm_parse_hit_objects_line`: the slider
branch, the spinner/hold branch (end time followed by `,` for a spinner and by
`:` for a hold), or nothing for a circle. -/
def objectParams (env : Env) (buf : Buf) (type : Nat) (line : Nat) :
    RowRes osup_hitobject_params :=
  if OSUP_IS_SLIDER type then
    (sliderParams env buf line).andThen fun s line =>
      { value := some (.slider s), line := line }
  else if OSUP_IS_SPINNER type || OSUP_IS_MANIA_HOLD type then
    intUntil env buf line fun endTime line =>
    if (if OSUP_IS_SPINNER type then charAt buf line != ',' else charAt buf line != ':') then
      { value := none, line := line }
    else { value := some (.spinner endTime), line := line + 1 }
  else { value := some .circle, line := line }

/-- The sample-set field of the hit sample: an integer followed by `:` that
must lie in `[OSUP_SAMPLESET_DEFAULT, OSUP_SAMPLESET_DRUM]`. -/
def sampleSetField {β : Type} (env : Env) (buf : Buf) (line : Nat)
    (k : Int → Nat → RowRes β) : RowRes β :=
  intUntil env buf line fun i line =>
  expectChar buf ':' line fun line =>
  if i < OSUP_SAMPLESET_DEFAULT || i > OSUP_SAMPLESET_DRUM then
    { value := none, line := line }
  else k i line

/-- The filename that ends `osup_bm_parse_hit_objects_line`: the remainder of
the line, right-trimmed; a remainder starting with `"` must have `"` at
`filenameEnd` and is then copied without the two quotes. -/
def hitSampleFilename (env : Env) (buf : Buf) (line : Nat) : RowRes (List Char) :=
  let filenameBegin := line
  let r := osup_advance_to_last_nonblank_char buf line
  let filenameEnd := r.2
  let line := r.1
  if charAt buf filenameBegin == '"' then
    if charAt buf filenameEnd != '"' then { value := none, line := line }
    else if filenameBegin + 1 > filenameEnd - 1 then { value := none, line := line }
    else { value := env.osup_strdup buf (filenameBegin + 1) (filenameEnd - 1), line := line }
  else { value := env.osup_strdup buf filenameBegin filenameEnd, line := line }

/-- The hit sample suffix `normalSet:additionSet:index:volume:filename`. -/
def hitSampleFields (env : Env) (buf : Buf) (line : Nat) : RowRes osup_hitsample :=
  sampleSetField env buf line fun normalSet line =>
  sampleSetField env buf line fun additionSet line =>
  intUntil env buf line fun index line =>
  expectChar buf ':' line fun line =>
  intUntil env buf line fun volume line =>
  expectChar buf ':' line fun line =>
  (hitSampleFilename env buf line).andThen fun filename line =>
  { value := some { normalSet := normalSet, additionSet := additionSet, index := index,
                    volume := volume, filename := filename },
    line := line }

/-- Source `osup_bm_parse_hit_objects_line`. -/
def osup_bm_parse_hit_objects_line (env : Env) (buf : Buf) (line : Nat) :
    RowRes osup_hitobject :=
  match hitObjectFixedFields env buf line with
  | none => { value := none, line := line }
  | some f =>
    expectChar buf ',' f.elementEnd fun line =>
    if typeBitSum f.type != 1 then { value := none, line := line }
    else
    (objectParams env buf f.type line).andThen fun params line =>
    (hitSampleFields env buf line).andThen fun hitSample line =>
    { value := some { x := f.x, y := f.y, time := f.time, type := f.type,
                      hitSound := f.hitSound, params := params, hitSample := hitSample },
      line := line }

/-! ## Section dispatcher -/

/-- What `osup_bm_nextline` hands back: the returned `osup_bool`, the context
(with the result model it points to) and the cursor `*line`. -/
structure NextRes where
  ok : Bool
  ctx : osup_bm_ctx
  line : Nat
deriving DecidableEq, Repr

/-- One `if (osup_check_prefix_and_advance(line, header))` statement of the
`case '['` branch: on a match the section is stored and the rest of the line
must be blank; otherwise `next` is tried. -/
def sectionHeader (buf : Buf) (ctx : osup_bm_ctx) (line : Nat) (header : String)
    (sec : osup_bm_section) (next : NextRes) : NextRes :=
  match osup_check_prefix_and_advance buf header.toList line with
  | some l =>
    let r := osup_advance_to_next_line buf l true
    { ok := r.1, ctx := { ctx with «section» := sec }, line := r.2 }
  | none => next

/-- The new capacity `(size_t)((count + 1) * 1.5)` of a growable list. -/
def grownCapacity (count : Nat) : Nat := (count + 1) * 3 / 2

/-- Lift the result of a key-value decoder into the dispatcher's result. -/
def NextRes.ofRes (ctx : osup_bm_ctx) (r : Res) : NextRes :=
  { ok := r.ok, ctx := { ctx with map := r.map }, line := r.line }

/-- The `default:` branch of the `switch (**line)` of `osup_bm_nextline`: the
inner `switch (ctx->section)` that hands a content line to the decoder of the
current section, growing the record list first where there is one. -/
def nextlineDefault (env : Env) (buf : Buf) (ctx : osup_bm_ctx) (line : Nat) : NextRes :=
  match ctx.«section» with
  | OSUP_BM_SECTION_GENERAL =>
    NextRes.ofRes ctx (osup_bm_parse_general_line env buf ctx.map line)
  | OSUP_BM_SECTION_EDITOR =>
    NextRes.ofRes ctx (osup_bm_parse_editor_line env buf ctx.map line)
  | OSUP_BM_SECTION_METADATA =>
    NextRes.ofRes ctx (osup_bm_parse_metadata_line env buf ctx.map line)
  | OSUP_BM_SECTION_DIFFICULTY =>
    NextRes.ofRes ctx (osup_bm_parse_difficulty_line env buf ctx.map line)
  | OSUP_BM_SECTION_EVENTS =>
    let grow := decide (ctx.map.events.length ≥ ctx.eventCapacity)
    let ctx1 :=
      if grow then { ctx with eventCapacity := grownCapacity ctx.map.events.length }
      else ctx
    if grow && !env.realloc ctx1.eventCapacity then { ok := false, ctx := ctx1, line := line }
    else
      let r := osup_bm_parse_events_line env buf line
      match r.value with
      | some event =>
        { ok := true, line := r.line,
          ctx := { ctx1 with map := { ctx1.map with events := ctx1.map.events ++ [event] } } }
      | none => { ok := true, ctx := ctx1, line := r.line }
  | OSUP_BM_SECTION_TIMING_POINTS =>
    let grow := decide (ctx.map.timingPoints.length ≥ ctx.timingpointCapacity)
    let ctx1 :=
      if grow then
        { ctx with timingpointCapacity := grownCapacity ctx.map.timingPoints.length }
      else ctx
    if grow && !env.realloc ctx1.timingpointCapacity then
      { ok := false, ctx := ctx1, line := line }
    else
      let r := osup_bm_parse_timing_points_line env buf line
      match r.value with
      | some timingpoint =>
        { ok := true, line := r.line,
          ctx := { ctx1 with
            map := { ctx1.map with timingPoints := ctx1.map.timingPoints ++ [timingpoint] } } }
      | none => { ok := false, ctx := ctx1, line := r.line }
  | OSUP_BM_SECTION_COLORS =>
    NextRes.ofRes ctx (osup_bm_parse_colors_line env buf ctx.map line)
  | OSUP_BM_SECTION_HIT_OBJECTS =>
    let grow := decide (ctx.map.hitObjects.length ≥ ctx.hitObjectCapacity)
    let ctx1 :=
      if grow then { ctx with hitObjectCapacity := grownCapacity ctx.map.hitObjects.length }
      else ctx
    if grow && !env.realloc ctx1.hitObjectCapacity then
      { ok := false, ctx := ctx1, line := line }
    else
      let r := osup_bm_parse_hit_objects_line env buf line
      match r.value with
      | some hitObject =>
        { ok := true, line := r.line,
          ctx := { ctx1 with
            map := { ctx1.map with hitObjects := ctx1.map.hitObjects ++ [hitObject] } } }
      | none => { ok := false, ctx := ctx1, line := r.line }

/-- Source `osup_bm_nextline`. -/
def osup_bm_nextline (env : Env) (buf : Buf) (ctx : osup_bm_ctx) (line : Nat) : NextRes :=
  let c := charAt buf line
  if c == '/' then
    if charAt buf (line + 1) == '/' then
      let r := osup_advance_to_next_line buf line false
      { ok := r.1, ctx := ctx, line := r.2 }
    else { ok := false, ctx := ctx, line := line }
  else if c == '\r' || c == '\n' || c == NUL then { ok := true, ctx := ctx, line := line }
  else if c == '[' then
    sectionHeader buf ctx line "[General]" OSUP_BM_SECTION_GENERAL <|
    sectionHeader buf ctx line "[Editor]" OSUP_BM_SECTION_EDITOR <|
    sectionHeader buf ctx line "[Metadata]" OSUP_BM_SECTION_METADATA <|
    sectionHeader buf ctx line "[Difficulty]" OSUP_BM_SECTION_DIFFICULTY <|
    sectionHeader buf ctx line "[Events]" OSUP_BM_SECTION_EVENTS <|
    sectionHeader buf ctx line "[TimingPoints]" OSUP_BM_SECTION_TIMING_POINTS <|
    sectionHeader buf ctx line "[Colours]" OSUP_BM_SECTION_COLORS <|
    sectionHeader buf ctx line "[HitObjects]" OSUP_BM_SECTION_HIT_OBJECTS <|
    { ok := false, ctx := ctx, line := line }
  else nextlineDefault env buf ctx line

/-! ## Header reader and line loop (`osup_beatmap_load_string`) -/

/-- The magic prefix `"osu file format v"` (17 characters). -/
def magic : List Char := "osu file format v".toList

/-- The C library `strncmp(string, "osu file format v", 17)` compared with 0:
true when the first 17 characters of the buffer are the magic prefix. -/
def strncmp_is_zero (buf : Buf) : Bool := memeq buf 0 magic

/-- The loop copying the version token: with `i` characters copied and `fuel`
slots of `version[16]` left, the index of the first line terminator, or
`none` when the 16 slots are used up. -/
def versionLoop (buf : Buf) (versionBegin : Nat) : Nat → Nat → Option Nat
  | 0, _ => none
  | fuel + 1, i =>
    if osup_is_line_terminator (charAt buf (versionBegin + i)) then some i
    else versionLoop buf versionBegin fuel (i + 1)

/-- The contents of `ctx.version` after the copy loop stopped at index `i`:
the `i` characters before the line terminator. -/
def versionText (buf : Buf) (versionBegin i : Nat) : List Char :=
  (List.range i).map (fun j => charAt buf (versionBegin + j))

/-- Source `osup_check_version`: `!strcmp(ctx->version, "14")`. -/
def osup_check_version (ctx : osup_bm_ctx) : Bool := ctx.version == "14".toList

/-- The `do { ... } while (*line != '\0')` loop of `osup_beatmap_load_string`,
run for at most `fuel` lines; `none` means the loop is still running. -/
def lineLoop (env : Env) (buf : Buf) : Nat → osup_bm_ctx → Nat → Option (Bool × osup_bm)
  | 0, _, _ => none
  | fuel + 1, ctx, line =>
    let r := osup_bm_nextline env buf ctx line
    if !r.ok then some (false, r.ctx.map)
    else if charAt buf r.line != NUL then lineLoop env buf fuel r.ctx r.line
    else some (true, r.ctx.map)

/-- Source `osup_beatmap_load_string`, with the line loop bounded by `fuel`:
the returned `osup_bool` and the result model, or `none` while the line loop is
still running after `fuel` lines. -/
def osup_beatmap_load_string (env : Env) (fuel : Nat) (map : osup_bm) (string : Buf) :
    Option (Bool × osup_bm) :=
  if strncmp_is_zero string then some (false, map)
  else
    let versionBegin := magic.length
    match versionLoop string versionBegin 16 0 with
    | none => some (false, map)
    | some i =>
      let ctx := { osup_bm_ctx.init map with version := versionText string versionBegin i }
      if !osup_check_version ctx then some (false, map)
      else
        let line := versionBegin + i
        if charAt string line == NUL then some (false, map)
        else lineLoop env string fuel ctx (line + 1)

/-! ## A concrete environment -/

/-- The characters of the range `[b, e)`. -/
def slice (buf : Buf) (b e : Nat) : List Char := (buf.drop b).take (e - b)

/-- The value of a string of decimal digits, most significant first. -/
def digitsValue (ds : List Char) : Nat :=
  ds.foldl (fun acc c => acc * 10 + (c.toNat - '0'.toNat)) 0

/-- A non-empty string of decimal digits. -/
def isNumeral (ds : List Char) : Bool := !ds.isEmpty && ds.all isdigit

/-- Modelled from the spec: `parseInteger(range) -> int | error`, declared
outside `osup_beatmap.c`; accepts an optional `-` followed by decimal digits
that fill the whole range. -/
def specParseInt (buf : Buf) (b e : Nat) : Option Int :=
  match slice buf b e with
  | '-' :: ds => if isNumeral ds then some (-(digitsValue ds : Int)) else none
  | ds => if isNumeral ds then some (digitsValue ds : Int) else none

/-- Modelled from the spec: the unsigned-byte variant of `parseInteger`,
declared outside `osup_beatmap.c`; decimal digits with a value of at most 255. -/
def specParseUbyte (buf : Buf) (b e : Nat) : Option Nat :=
  let ds := slice buf b e
  if isNumeral ds && decide (digitsValue ds ≤ 255) then some (digitsValue ds) else none

/-- Modelled from the spec: `parseBoolean(range) -> bool | error` (token `"0"`
or `"1"`), declared outside `osup_beatmap.c`. -/
def specParseBool (buf : Buf) (b e : Nat) : Option Bool :=
  if slice buf b e == ['0'] then some false
  else if slice buf b e == ['1'] then some true
  else none

/-- Modelled from the spec: `parseDecimal(range) -> fixedPointNumber | error`,
declared outside `osup_beatmap.c`; accepts an optional `-`, decimal digits and
an optional fraction `.digits`. -/
def specParseDecimal (buf : Buf) (b e : Nat) : Option osup_decimal :=
  let s := slice buf b e
  let neg := s.head? == some '-'
  let body := if neg then s.drop 1 else s
  let ip := body.takeWhile (fun c => c != '.')
  let rest := body.dropWhile (fun c => c != '.')
  let fp := rest.drop 1
  if isNumeral ip && (rest.isEmpty || isNumeral fp) then
    let m : Int := (digitsValue (ip ++ fp) : Int)
    some { mantissa := if neg then -m else m, scale := fp.length }
  else none

/-- The first position at or after `pos` holding `delim` or a line terminator. -/
def scanToken (buf : Buf) (delim : Char) : Nat → Nat → Nat
  | 0, pos => pos
  | fuel + 1, pos =>
    if charAt buf pos == delim || osup_is_line_terminator (charAt buf pos) then pos
    else scanToken buf delim fuel (pos + 1)

/-- Modelled from the spec: `split_next_field(delimiter, bounds)` over the rest
of the line, declared outside `osup_beatmap.c`; the next token runs from the
scan position to the next delimiter or line terminator, and there is no next
token once the previous one ended at a line terminator. -/
def specSplitLine (buf : Buf) (delim : Char) (elementBegin : Option Nat) (scanFrom : Nat) :
    Option (Nat × Nat) :=
  if elementBegin.isSome && osup_is_line_terminator (charAt buf (scanFrom - 1)) then none
  else some (scanFrom, scanToken buf delim (buf.length - scanFrom) scanFrom)

/-- Modelled from the spec: the quoted variant of `split_next_field`, which
"treats a token that begins with `\"` as extending to the matching closing
`\"` regardless of embedded delimiters"; a token without closing quote is an
error. -/
def specSplitLineQuoted (buf : Buf) (delim : Char) (elementBegin : Option Nat)
    (scanFrom : Nat) : Option (Nat × Nat) :=
  if elementBegin.isSome && osup_is_line_terminator (charAt buf (scanFrom - 1)) then none
  else if charAt buf scanFrom == '"' then
    let q := scanToken buf '"' (buf.length - (scanFrom + 1)) (scanFrom + 1)
    if charAt buf q == '"' then
      some (scanFrom, scanToken buf delim (buf.length - (q + 1)) (q + 1))
    else none
  else some (scanFrom, scanToken buf delim (buf.length - scanFrom) scanFrom)

/-- The first position at or after `pos` that holds `delim` or is `bound`. -/
def scanBounded (buf : Buf) (delim : Char) (bound : Nat) : Nat → Nat → Nat
  | 0, pos => pos
  | fuel + 1, pos =>
    if pos ≥ bound || charAt buf pos == delim then pos
    else scanBounded buf delim bound fuel (pos + 1)

/-- Modelled from the spec: `split_next_field(delimiter, bounds)` with an
explicit end bound, declared outside `osup_beatmap.c`; there is no next token
once the previous one ended at the bound. -/
def specSplit (buf : Buf) (delim : Char) (_elementBegin : Option Nat) (scanFrom bound : Nat) :
    Option (Nat × Nat) :=
  if scanFrom > bound then none
  else some (scanFrom, scanBounded buf delim bound (bound - scanFrom) scanFrom)

/-- Modelled from the spec: `parseRgbTriplet(range) -> (u8,u8,u8) | error` for
the text `r,g,b`, declared outside `osup_beatmap.c`. -/
def specParseRgb (buf : Buf) (b e : Nat) : Option osup_rgb :=
  let e1 := scanBounded buf ',' e (e - b) b
  let e2 := scanBounded buf ',' e (e - (e1 + 1)) (e1 + 1)
  match specParseUbyte buf b e1, specParseUbyte buf (e1 + 1) e2,
      specParseUbyte buf (e2 + 1) e with
  | some r, some g, some bl => if e1 < e2 && e2 < e then some { r := r, g := g, b := bl } else none
  | _, _, _ => none

/-- Modelled from the spec: `copyString(range) -> ownedString`, declared
outside `osup_beatmap.c`. -/
def specStrdup (buf : Buf) (b e : Nat) : Option (List Char) := some (slice buf b e)

/-- The position after the run of decimal digits starting at `pos`. -/
def skipDigits (buf : Buf) : Nat → Nat → Nat
  | 0, pos => pos
  | fuel + 1, pos => if isdigit (charAt buf pos) then skipDigits buf fuel (pos + 1) else pos

/-- Modelled from the spec: `osup_parse_int_until_nondigit_char`, declared
outside `osup_beatmap.c`; decodes an optional `-` and at least one decimal
digit, leaving the cursor on the first character that is not a digit. -/
def specParseIntUntil (buf : Buf) (line : Nat) : Option (Int × Nat) :=
  let start := if charAt buf line == '-' then line + 1 else line
  let stop := skipDigits buf (buf.length - start) start
  if stop == start then none
  else
    let v : Int := (digitsValue (slice buf start stop) : Int)
    some (if charAt buf line == '-' then -v else v, stop)

/-- Modelled from the spec: the collaborator primitives of section 6, with an
allocator that satisfies every request. -/
def specEnv : Env :=
  { osup_parse_int := specParseInt
    osup_parse_ubyte := specParseUbyte
    osup_parse_bool := specParseBool
    osup_parse_decimal := specParseDecimal
    osup_parse_rgb := specParseRgb
    osup_strdup := specStrdup
    osup_parse_int_until_nondigit_char := specParseIntUntil
    osup_split_string := specSplit
    osup_split_string_line_terminated := specSplitLine
    osup_split_string_line_terminated_quoted := specSplitLineQuoted
    malloc := fun _ => true
    realloc := fun _ => true }

/-- The environment `specEnv` with an allocator that refuses every request. -/
def specEnvNoMem : Env := { specEnv with malloc := fun _ => false, realloc := fun _ => false }

/-! ## Specification-side predicates -/

/-- The text at offset `pos` starts with the characters `s`. -/
def startsWith (buf : Buf) (pos : Nat) (s : List Char) : Prop :=
  ∀ i (h : i < s.length), charAt buf (pos + i) = s.get ⟨i, h⟩

/-- From offset `pos` on there are only blanks up to the line terminator. -/
def blankToTerminator (buf : Buf) (pos : Nat) : Prop :=
  ∃ k, (∀ j, j < k → isblank (charAt buf (pos + j)) = true) ∧
    osup_is_line_terminator (charAt buf (pos + k)) = true

/-- The line at `pos` is the header literal `header` followed only by blanks
up to the line terminator. -/
def isHeaderLine (buf : Buf) (pos : Nat) (header : List Char) : Prop :=
  startsWith buf pos header ∧ blankToTerminator buf (pos + header.length)

/-- The eight section header literals with the section each one names. -/
def sectionHeaders : List (String × osup_bm_section) :=
  [("[General]", OSUP_BM_SECTION_GENERAL), ("[Editor]", OSUP_BM_SECTION_EDITOR),
   ("[Metadata]", OSUP_BM_SECTION_METADATA), ("[Difficulty]", OSUP_BM_SECTION_DIFFICULTY),
   ("[Events]", OSUP_BM_SECTION_EVENTS), ("[TimingPoints]", OSUP_BM_SECTION_TIMING_POINTS),
   ("[Colours]", OSUP_BM_SECTION_COLORS), ("[HitObjects]", OSUP_BM_SECTION_HIT_OBJECTS)]

/-- A content line: its first character selects the `default:` branch of
`osup_bm_nextline` (not a comment, not empty, not a section header). -/
def isContentChar (c : Char) : Bool :=
  !(c == '/' || c == '\r' || c == '\n' || c == NUL || c == '[')

/-- The key prefixes tried by `osup_bm_parse_general_line`, in order. -/
def generalKeys : List String :=
  ["AudioFilename: ", "AudioLeadIn: ", "AudioHash: ", "PreviewTime: ", "Countdown",
   "StackLeniency: ", "Mode: ", "LetterboxInBreaks: ", "StoryFireInFront: ",
   "UseSkinSprites: ", "AlwaysShowPlayfield: ", "SkinPreference: ", "EpilepsyWarning: ",
   "CountdownOffset: ", "SpecialStyle: ", "WidescreenStoryboard: ",
   "SamplesMatchPlaybackRate", "SampleSet: ", "OverlayPosition: "]

/-- The `case '['` branch of `osup_bm_nextline` over a table of headers: the
`if` statements are tried in order and the branch fails when none matches. -/
def headerChain (buf : Buf) (ctx : osup_bm_ctx) (line : Nat) :
    List (String × osup_bm_section) → NextRes
  | [] => { ok := false, ctx := ctx, line := line }
  | p :: ps => sectionHeader buf ctx line p.1 p.2 (headerChain buf ctx line ps)

/-- Two literals differ at some position that both of them have, so no text
starts with both. -/
def conflict : List Char → List Char → Bool
  | a :: as, b :: bs => a != b || conflict as bs
  | _, _ => false

/-- The number of set bits of the type byte among bit 0 (circle), bit 1
(slider), bit 3 (spinner) and bit 7 (hold). -/
def countTypeBits (type : Nat) : Nat :=
  ([0, 1, 3, 7].filter (fun k => type.testBit k)).length

/-- The value the `size_t` accumulator of the `Combo` branch ends with after
reading the digit string `ds`: each step is reduced modulo `2 ^ 64`. -/
def digitsValue64 (ds : List Char) : Nat :=
  ds.foldl (fun acc c => (acc * 10 + (c.toNat - '0'.toNat)) % 2 ^ 64) 0

/-- The decimal digit character of a number below ten. -/
def digitChar : Nat → Char
  | 0 => '0' | 1 => '1' | 2 => '2' | 3 => '3' | 4 => '4'
  | 5 => '5' | 6 => '6' | 7 => '7' | 8 => '8' | _ => '9'

/-- The digits of `n`, most significant first, put in front of `acc`. -/
def showNatAux : Nat → Nat → List Char → List Char
  | 0, _, acc => acc
  | fuel + 1, n, acc =>
    if n < 10 then digitChar n :: acc
    else showNatAux fuel (n / 10) (digitChar (n % 10) :: acc)

/-- The decimal text of a natural number, without leading zeros. -/
def showNat (n : Nat) : List Char := showNatAux (n + 1) n []

/-- The decimal text of an integer: a `-` sign in front of a negative one. -/
def showInt : Int → List Char
  | Int.ofNat n => showNat n
  | Int.negSucc n => '-' :: showNat (n + 1)

/-- The value text of a tag line: the tokens separated by single spaces. -/
def joinTags : List (List Char) → List Char
  | [] => []
  | [t] => t
  | t :: ts => t ++ ' ' :: joinTags ts

/-- The text of the circle row `x,y,t,1,0,0:0:0:0:`. -/
def circleLine (x y t : Int) : List Char :=
  showInt x ++ ',' :: (showInt y ++ ',' :: (showInt t ++ ',' ::
    ("1".toList ++ ',' :: ("0".toList ++ [','] ++ "0:0:0:0:".toList))))

/-- The object parameters of the slider row of the specification's example:
`B|100:100|200:50,1,150.0,0|0,0:0|0:0,`. -/
def sliderExampleParams : List Char := "B|100:100|200:50,1,150.0,0|0,0:0|0:0,".toList

/-- The number a fixed-point decimal stands for: `mantissa / 10 ^ scale`. -/
def decimalValue (d : osup_decimal) : Rat := d.mantissa / 10 ^ d.scale

/-- The text of the slider row
`x,y,t,2,0,B|100:100|200:50,1,150.0,0|0,0:0|0:0,0:0:0:0:`. -/
def sliderLine (x y t : Int) : List Char :=
  showInt x ++ ',' :: (showInt y ++ ',' :: (showInt t ++ ',' ::
    ("2".toList ++ ',' :: ("0".toList ++ [','] ++ (sliderExampleParams ++ "0:0:0:0:".toList)))))

/-! ## Stream reader (`osup_beatmap_load_stream`) -/

/-- The successive results of the C library `getline` on the unread part of
the stream: each line ends with its `\n`, which the last line may lack, and
there is no line once the stream is used up. -/
def getlines : List Char → List (List Char)
  | [] => []
  | c :: cs =>
    if c == '\n' then [c] :: getlines cs
    else
      match getlines cs with
      | [] => [[c]]
      | l :: ls => (c :: l) :: ls

/-- The loop `while (getline(&line, &bufSize, file) != -1)` of
`osup_beatmap_load_stream`: each line is handed to `osup_bm_nextline` with the
cursor at its start; the status that `osup_bm_nextline` returns is dropped. -/
def streamLoop (env : Env) (ctx : osup_bm_ctx) (lines : List (List Char)) : osup_bm_ctx :=
  lines.foldl (fun ctx line => (osup_bm_nextline env line ctx 0).ctx) ctx

/-- Source `osup_beatmap_load_stream` over the bytes `file` of the stream.
The header needs 17 bytes equal to the magic prefix.  The version bytes are
read one at a time into the zeroed `ctx.version`; the test
`fread(...) != -1` never fails, so at end of file the slot keeps its zero and
ends the token.  The returned `osup_bool` comes with the result model. -/
def osup_beatmap_load_stream (env : Env) (map : osup_bm) (file : List Char) :
    Bool × osup_bm :=
  if file.length < magic.length || !memeq file 0 magic then (false, map)
  else
    match versionLoop file magic.length 16 0 with
    | none => (false, map)
    | some i =>
      let ctx := { osup_bm_ctx.init map with version := versionText file magic.length i }
      if !osup_check_version ctx then (false, map)
      else (true, (streamLoop env ctx (getlines (file.drop (magic.length + i + 1)))).map)

/-! ## Specification-side predicates for the stream reader, the record lists,
the key tables and the slider lists -/

/-- Every line is accepted by `osup_bm_nextline`, the context being passed on
from one line to the next. -/
def linesAccepted (env : Env) : osup_bm_ctx → List (List Char) → Bool
  | _, [] => true
  | ctx, line :: lines =>
    (osup_bm_nextline env line ctx 0).ok &&
      linesAccepted env (osup_bm_nextline env line ctx 0).ctx lines

/-- The three growable record lists of the result model. -/
def recordLists (m : osup_bm) : List osup_event × List osup_timingpoint × List osup_hitobject :=
  (m.events, m.timingPoints, m.hitObjects)

/-- The invariant of the growable lists: each record count is at most the
capacity the context keeps for its list. -/
def capacityInv (ctx : osup_bm_ctx) : Prop :=
  ctx.map.events.length ≤ ctx.eventCapacity ∧
  ctx.map.timingPoints.length ≤ ctx.timingpointCapacity ∧
  ctx.map.hitObjects.length ≤ ctx.hitObjectCapacity

/-- The key prefixes tried by `osup_bm_parse_editor_line`, in order. -/
def editorKeys : List String :=
  ["DistanceSpacing: ", "BeatDivisor: ", "TimelineZoom: ", "GridSize: ", "Bookmarks: "]

/-- The key prefixes tried by `osup_bm_parse_metadata_line`, in order (the
source tries `Title:` a second time after `Source:`). -/
def metadataKeys : List String :=
  ["Title:", "TitleUnicode:", "Artist:", "ArtistUnicode:", "Creator:", "Version:", "Source:",
   "BeatmapID:", "BeatmapSetID:", "Tags:"]

/-- The key prefixes tried by `osup_bm_parse_difficulty_line`, in order. -/
def difficultyKeys : List String :=
  ["HPDrainRate:", "CircleSize:", "OverallDifficulty:", "ApproachRate:", "SliderMultiplier:",
   "SliderTickRate:"]

/-- The key prefixes tried by `osup_bm_parse_colors_line`, in order. -/
def colorsKeys : List String := ["SliderTrackOverride : ", "SliderBorder : ", "Combo"]

/-- A character that can stand inside a list element: not a list separator
(`|` or `,`) and not a line terminator. -/
def elemChar (c : Char) : Bool := c != '|' && c != ',' && !osup_is_line_terminator c

/-- What the slider branch relies on about `osup_parse_int_until_nondigit_char`,
which is declared outside `osup_beatmap.c`: when it succeeds it has moved the
cursor forward over characters of the number only (a sign and digits), none of
which is a list separator or a line terminator. -/
def intFootprint (env : Env) (buf : Buf) : Prop :=
  ∀ p v q, env.osup_parse_int_until_nondigit_char buf p = some (v, q) →
    p ≤ q ∧ ∀ j, p ≤ j → j < q → elemChar (charAt buf j) = true

/-- The number of `|` characters among the `n` characters from offset `p` on. -/
def countBars (buf : Buf) : Nat → Nat → Nat
  | 0, _ => 0
  | n + 1, p => (if charAt buf p == '|' then 1 else 0) + countBars buf n (p + 1)

/-- The list field that starts at `p` ends at `c`: `c` is the first position at
or after `p` that holds a `,` or a line terminator. -/
def fieldEnd (buf : Buf) (p c : Nat) : Prop :=
  p ≤ c ∧ (charAt buf c = ',' ∨ osup_is_line_terminator (charAt buf c) = true) ∧
  ∀ j, p ≤ j → j < c → charAt buf j ≠ ',' ∧ osup_is_line_terminator (charAt buf j) = false

/-- The text `[p, stop)` is a list of `n` elements: every element is made of
element characters and is followed by one separator, `|` after each element
but the last and `,` after the last one. -/
def listText (buf : Buf) : Nat → Nat → Nat → Prop
  | 0, p, stop => p = stop
  | n + 1, p, stop =>
    ∃ s, p ≤ s ∧ (∀ j, p ≤ j → j < s → elemChar (charAt buf j) = true) ∧
      charAt buf s = (if n = 0 then ',' else '|') ∧ listText buf n (s + 1) stop

/-- The slider row of the specification's example with its line break:
`10,20,30,2,0,B|100:100|200:50,1,150.0,0|0,0:0|0:0,0:0:0:0:`. -/
def sliderRowExample : List Char :=
  "10,20,30,2,0,B|100:100|200:50,1,150.0,0|0,0:0|0:0,0:0:0:0:\n".toList

/-! ## Header reader -/

theorem load_string_of_magic (env : Env) (fuel : Nat) (map : osup_bm) (buf : Buf)
    (h : strncmp_is_zero buf = true) :
    osup_beatmap_load_string env fuel map buf = some (false, map) := by
  simp [osup_beatmap_load_string, h]

theorem versionLoop_spec (buf : Buf) (vb : Nat) :
    ∀ (fuel i0 i : Nat), versionLoop buf vb fuel i0 = some i →
      i0 ≤ i ∧ i < i0 + fuel ∧ osup_is_line_terminator (charAt buf (vb + i)) = true ∧
      ∀ j, i0 ≤ j → j < i → osup_is_line_terminator (charAt buf (vb + j)) = false := by
  intro fuel
  induction fuel with
  | zero => intro i0 i h; simp [versionLoop] at h
  | succ n ih =>
    intro i0 i h
    unfold versionLoop at h
    by_cases ht : osup_is_line_terminator (charAt buf (vb + i0)) = true
    · simp [ht] at h
      subst h
      exact ⟨le_refl _, by omega, ht, fun j h1 h2 => by omega⟩
    · simp [ht] at h
      obtain ⟨h1, h2, h3, h4⟩ := ih (i0 + 1) i h
      refine ⟨by omega, by omega, h3, fun j hj1 hj2 => ?_⟩
      by_cases hj : j = i0
      · subst hj; simpa using ht
      · exact h4 j (by omega) hj2

theorem versionText_length (buf : Buf) (vb i : Nat) : (versionText buf vb i).length = i := by
  simp [versionText]

theorem versionText_get (buf : Buf) (vb i j : Nat) (h : j < i) :
    (versionText buf vb i).getD j NUL = charAt buf (vb + j) := by
  simp [versionText, List.getD_eq_getElem?_getD, List.getElem?_map, List.getElem?_range h]

theorem lineLoop_stuck (env : Env) (buf : Buf) (ctx : osup_bm_ctx) (line : Nat)
    (h : osup_bm_nextline env buf ctx line = { ok := true, ctx := ctx, line := line })
    (hc : charAt buf line ≠ NUL) : ∀ fuel, lineLoop env buf fuel ctx line = none := by
  intro fuel
  induction fuel with
  | zero => rfl
  | succ n ih => simp [lineLoop, h, hc, ih]

theorem lineLoop_of_fail (env : Env) (buf : Buf) (ctx : osup_bm_ctx) (line fuel : Nat)
    (h : (osup_bm_nextline env buf ctx line).ok = false) :
    lineLoop env buf (fuel + 1) ctx line
      = some (false, (osup_bm_nextline env buf ctx line).ctx.map) := by
  simp [lineLoop, h]

/-- C1 (evaluation at the failing input): the buffer
`XXXXXXXXXXXXXXXXX14\n[General]\n` does not begin with `osu file format v`,
yet `osup_beatmap_load_string` returns success on it, for every environment
and result model. -/
theorem C1_load_string_accepts_wrong_prefix (env : Env) (fuel : Nat) (map : osup_bm) :
    strncmp_is_zero "XXXXXXXXXXXXXXXXX14\n[General]\n".toList = false ∧
    osup_beatmap_load_string env (fuel + 1) map "XXXXXXXXXXXXXXXXX14\n[General]\n".toList
      = some (true, map) :=
  ⟨rfl, rfl⟩

/-- C2 (the defect): every buffer that begins with the 17-character literal
`osu file format v` is rejected by `osup_beatmap_load_string`, whatever
follows, because the result of `strncmp` is tested with the wrong sense. -/
theorem C2_load_string_rejects_magic (env : Env) (fuel : Nat) (map : osup_bm) (buf : Buf)
    (h : startsWith buf 0 magic) :
    osup_beatmap_load_string env fuel map buf = some (false, map) := by
  apply load_string_of_magic
  have h' : ∀ i (hi : i < magic.length), charAt buf i = magic.get ⟨i, hi⟩ := by
    intro i hi; simpa using h i hi
  simp only [strncmp_is_zero, magic, String.toList, memeq, Bool.and_eq_true, beq_iff_eq,
    and_true, Nat.zero_add, Nat.reduceAdd]
  refine ⟨h' 0 (by decide), h' 1 (by decide), h' 2 (by decide), h' 3 (by decide),
    h' 4 (by decide), h' 5 (by decide), h' 6 (by decide), h' 7 (by decide), h' 8 (by decide),
    h' 9 (by decide), h' 10 (by decide), h' 11 (by decide), h' 12 (by decide),
    h' 13 (by decide), h' 14 (by decide), h' 15 (by decide), h' 16 (by decide)⟩

/-- C2 witness: the well-formed input `osu file format v14\n[General]\n` is
rejected. -/
theorem C2_load_string_rejects_magic_witness :
    osup_beatmap_load_string specEnv 8 {} "osu file format v14\n[General]\n".toList
      = some (false, {}) :=
  C2_load_string_rejects_magic specEnv 8 {} "osu file format v14\n[General]\n".toList
    (by intro i hi; have : i < 17 := hi; interval_cases i <;> rfl)

theorem load_string_success_version (env : Env) (fuel : Nat) (map : osup_bm) (buf : Buf)
    (h : (osup_beatmap_load_string env fuel map buf).map Prod.fst = some true) :
    ∃ i, versionLoop buf magic.length 16 0 = some i ∧
      versionText buf magic.length i = "14".toList := by
  unfold osup_beatmap_load_string at h
  by_cases h1 : strncmp_is_zero buf = true
  · simp [h1] at h
  · simp only [h1] at h
    cases hv : versionLoop buf magic.length 16 0 with
    | none => simp [hv] at h
    | some i =>
      refine ⟨i, rfl, ?_⟩
      simp only [hv] at h
      by_cases h2 : osup_check_version
          { osup_bm_ctx.init map with version := versionText buf magic.length i } = true
      · simpa [osup_check_version] using h2
      · simp [h2] at h

/-- C3: `osup_beatmap_load_string` returns success only if the version token
is exactly `14`: the characters at offsets 17 and 18 are `1` and `4` and the
character at offset 19 is a line terminator (so the terminator occurs within
the 16 characters of the version buffer); and every buffer beginning with
`osu file format v9` followed by a line terminator is rejected, whatever the
body is. -/
theorem C3_success_only_version_14 (env : Env) (fuel : Nat) (map : osup_bm) (buf : Buf) :
    ((osup_beatmap_load_string env fuel map buf).map Prod.fst = some true →
      charAt buf 17 = '1' ∧ charAt buf 18 = '4' ∧
      osup_is_line_terminator (charAt buf 19) = true ∧
      versionLoop buf 17 16 0 = some 2) ∧
    (startsWith buf 0 "osu file format v9".toList →
      osup_is_line_terminator (charAt buf 18) = true →
      osup_beatmap_load_string env fuel map buf = some (false, map)) := by
  constructor
  · intro h
    obtain ⟨i, hv, ht⟩ := load_string_success_version env fuel map buf h
    have hlen : i = 2 := by
      have := congrArg List.length ht
      rw [versionText_length] at this
      simpa using this
    subst hlen
    have hm : magic.length = 17 := rfl
    rw [hm] at hv ht
    obtain ⟨_, _, h3, _⟩ := versionLoop_spec buf 17 16 0 2 hv
    have g0 := versionText_get buf 17 2 0 (by decide)
    have g1 := versionText_get buf 17 2 1 (by decide)
    rw [ht] at g0 g1
    refine ⟨?_, ?_, h3, hv⟩
    · rw [← g0]; rfl
    · rw [← g1]; rfl
  · intro h _
    apply load_string_of_magic
    have h' : ∀ i (hi : i < 18), charAt buf i = "osu file format v9".toList.get ⟨i, hi⟩ := by
      intro i hi; simpa using h i hi
    simp only [strncmp_is_zero, magic, String.toList, memeq, Bool.and_eq_true, beq_iff_eq,
      and_true, Nat.zero_add, Nat.reduceAdd]
    refine ⟨h' 0 (by decide), h' 1 (by decide), h' 2 (by decide), h' 3 (by decide),
      h' 4 (by decide), h' 5 (by decide), h' 6 (by decide), h' 7 (by decide), h' 8 (by decide),
      h' 9 (by decide), h' 10 (by decide), h' 11 (by decide), h' 12 (by decide),
      h' 13 (by decide), h' 14 (by decide), h' 15 (by decide), h' 16 (by decide)⟩

/-- C3 witness: an accepted buffer has the version token `14`, and the buffer
`osu file format v9\n[General]\n` is rejected. -/
theorem C3_success_only_version_14_witness :
    (charAt "XXXXXXXXXXXXXXXXX14\n[General]\n".toList 17 = '1' ∧
      charAt "XXXXXXXXXXXXXXXXX14\n[General]\n".toList 18 = '4' ∧
      osup_is_line_terminator (charAt "XXXXXXXXXXXXXXXXX14\n[General]\n".toList 19) = true ∧
      versionLoop "XXXXXXXXXXXXXXXXX14\n[General]\n".toList 17 16 0 = some 2) ∧
    osup_beatmap_load_string specEnv 8 {} "osu file format v9\n[General]\n".toList
      = some (false, {}) :=
  ⟨(C3_success_only_version_14 specEnv 8 {} "XXXXXXXXXXXXXXXXX14\n[General]\n".toList).1 rfl,
   (C3_success_only_version_14 specEnv 8 {} "osu file format v9\n[General]\n".toList).2
     (by intro i hi; have : i < 18 := hi; interval_cases i <;> rfl) rfl⟩

/-- C4 (evaluation at the failing input): on an empty line (cursor on `\n`,
not at end-of-input) `osup_bm_nextline` returns success without moving the
cursor, in every context; consequently the line loop of
`osup_beatmap_load_string` never finishes on the buffer
`XXXXXXXXXXXXXXXXX14\n\n`, however many lines it is allowed to run. -/
theorem C4_nextline_empty_line_does_not_advance (env : Env) (ctx : osup_bm_ctx)
    (map : osup_bm) (fuel : Nat) :
    charAt "\n".toList 0 ≠ NUL ∧
    osup_bm_nextline env "\n".toList ctx 0 = { ok := true, ctx := ctx, line := 0 } ∧
    osup_beatmap_load_string env fuel map "XXXXXXXXXXXXXXXXX14\n\n".toList = none := by
  refine ⟨by decide, rfl, ?_⟩
  have h := lineLoop_stuck env "XXXXXXXXXXXXXXXXX14\n\n".toList
    { osup_bm_ctx.init map with version := "14".toList } 20 rfl (by decide) fuel
  exact h

/-! ## Line cursor lemmas -/

theorem charAt_of_length_le (buf : Buf) (pos : Nat) (h : buf.length ≤ pos) :
    charAt buf pos = NUL := by
  simp [charAt, List.getD_eq_getElem?_getD, List.getElem?_eq_none h]

theorem terminator_iff (c : Char) :
    osup_is_line_terminator c = true ↔ c = NUL ∨ c = '\r' ∨ c = '\n' := by
  simp [osup_is_line_terminator, or_assoc]

theorem isblank_iff (c : Char) : isblank c = true ↔ c = ' ' ∨ c = '\t' := by
  simp [isblank]

theorem not_terminator_of_isblank (c : Char) (h : isblank c = true) :
    osup_is_line_terminator c = false := by
  rcases (isblank_iff c).1 h with h | h <;> subst h <;> decide

theorem blankToTerminator_of_terminator (buf : Buf) (pos : Nat)
    (h : osup_is_line_terminator (charAt buf pos) = true) : blankToTerminator buf pos :=
  ⟨0, fun j hj => absurd hj (Nat.not_lt_zero j), h⟩

theorem blankToTerminator_step (buf : Buf) (pos : Nat) (h : isblank (charAt buf pos) = true) :
    blankToTerminator buf pos ↔ blankToTerminator buf (pos + 1) := by
  constructor
  · rintro ⟨k, hk, ht⟩
    cases k with
    | zero =>
      have := not_terminator_of_isblank _ h
      simp [this] at ht
    | succ k =>
      refine ⟨k, fun j hj => ?_, ?_⟩
      · have := hk (j + 1) (by omega)
        rwa [show pos + (j + 1) = pos + 1 + j by omega] at this
      · rwa [show pos + (k + 1) = pos + 1 + k by omega] at ht
  · rintro ⟨k, hk, ht⟩
    refine ⟨k + 1, fun j hj => ?_, ?_⟩
    · cases j with
      | zero => simpa using h
      | succ j =>
        have := hk j (by omega)
        rwa [show pos + 1 + j = pos + (j + 1) by omega] at this
    · rwa [show pos + 1 + k = pos + (k + 1) by omega] at ht

theorem not_blankToTerminator (buf : Buf) (pos : Nat)
    (hb : isblank (charAt buf pos) = false)
    (ht : osup_is_line_terminator (charAt buf pos) = false) : ¬ blankToTerminator buf pos := by
  rintro ⟨k, hk, hkt⟩
  cases k with
  | zero => simp [ht] at hkt
  | succ k =>
    have := hk 0 (by omega)
    simp [hb] at this

/-- With the non-blank check on, `osup_advance_to_next_line` succeeds exactly
when only blanks precede the line terminator. -/
theorem advance_loop_check_ok (buf : Buf) :
    ∀ (fuel line : Nat), buf.length - line ≤ fuel →
      ((osup_advance_to_next_line_loop buf true fuel line).1 = true ↔
        blankToTerminator buf line) := by
  intro fuel
  induction fuel with
  | zero =>
    intro line h
    have hc := charAt_of_length_le buf line (by omega)
    simp only [osup_advance_to_next_line_loop, true_iff]
    exact blankToTerminator_of_terminator buf line (by rw [hc]; decide)
  | succ n ih =>
    intro line h
    unfold osup_advance_to_next_line_loop
    by_cases h0 : charAt buf line = NUL
    · simp only [h0, beq_self_eq_true, if_true, true_iff]
      exact blankToTerminator_of_terminator buf line (by rw [h0]; decide)
    · by_cases h1 : charAt buf line = '\r' ∨ charAt buf line = '\n'
      · have ht : osup_is_line_terminator (charAt buf line) = true :=
          (terminator_iff _).2 (Or.inr h1)
        have h1' : (charAt buf line == '\r' || charAt buf line == '\n') = true := by
          simpa using h1
        simp only [beq_iff_eq, h0, if_false, h1', if_true, true_iff]
        exact blankToTerminator_of_terminator buf line ht
      · have ht : osup_is_line_terminator (charAt buf line) = false := by
          rw [Bool.eq_false_iff, Ne, terminator_iff]
          rintro (h | h)
          · exact h0 h
          · exact h1 h
        have h1' : (charAt buf line == '\r' || charAt buf line == '\n') = false := by
          simpa using h1
        by_cases hb : isblank (charAt buf line) = true
        · simp only [beq_iff_eq, h0, if_false, h1', hb, Bool.not_true, Bool.and_false,
            Bool.false_eq_true]
          rw [ih (line + 1) (by omega), ← blankToTerminator_step buf line hb]
        · have hb' : isblank (charAt buf line) = false := by simpa using hb
          simp only [beq_iff_eq, h0, if_false, h1', hb', Bool.not_false, Bool.and_true,
            if_true, Bool.false_eq_true, false_iff]
          exact not_blankToTerminator buf line hb' ht

theorem advance_check_ok (buf : Buf) (line : Nat) :
    (osup_advance_to_next_line buf line true).1 = true ↔ blankToTerminator buf line :=
  advance_loop_check_ok buf _ line (le_refl _)

/-- With the non-blank check off, `osup_advance_to_next_line` succeeds and
stops just past the first `\r` or `\n`, or on the NUL that ends the input. -/
theorem advance_loop_nocheck (buf : Buf) :
    ∀ (fuel line : Nat), buf.length - line ≤ fuel →
      (osup_advance_to_next_line_loop buf false fuel line).1 = true ∧
      ∃ k, (∀ j, j < k → osup_is_line_terminator (charAt buf (line + j)) = false) ∧
        (((charAt buf (line + k) = '\r' ∨ charAt buf (line + k) = '\n') ∧
            (osup_advance_to_next_line_loop buf false fuel line).2 = line + k + 1) ∨
          (charAt buf (line + k) = NUL ∧
            (osup_advance_to_next_line_loop buf false fuel line).2 = line + k)) := by
  intro fuel
  induction fuel with
  | zero =>
    intro line h
    have hc := charAt_of_length_le buf line (by omega)
    exact ⟨rfl, 0, fun j hj => absurd hj (Nat.not_lt_zero j), Or.inr ⟨hc, rfl⟩⟩
  | succ n ih =>
    intro line h
    unfold osup_advance_to_next_line_loop
    by_cases h0 : charAt buf line = NUL
    · simp only [h0, beq_self_eq_true, if_true, true_and]
      exact ⟨0, fun j hj => absurd hj (Nat.not_lt_zero j), Or.inr ⟨h0, rfl⟩⟩
    · by_cases h1 : charAt buf line = '\r' ∨ charAt buf line = '\n'
      · have h1' : (charAt buf line == '\r' || charAt buf line == '\n') = true := by
          simpa using h1
        simp only [beq_iff_eq, h0, if_false, h1', if_true, true_and]
        exact ⟨0, fun j hj => absurd hj (Nat.not_lt_zero j), Or.inl ⟨h1, rfl⟩⟩
      · have ht : osup_is_line_terminator (charAt buf line) = false := by
          rw [Bool.eq_false_iff, Ne, terminator_iff]
          rintro (h | h)
          · exact h0 h
          · exact h1 h
        have h1' : (charAt buf line == '\r' || charAt buf line == '\n') = false := by
          simpa using h1
        simp only [beq_iff_eq, h0, if_false, h1', Bool.false_and, Bool.false_eq_true]
        obtain ⟨hok, k, hk, hend⟩ := ih (line + 1) (by omega)
        refine ⟨hok, k + 1, fun j hj => ?_, ?_⟩
        · cases j with
          | zero => simpa using ht
          | succ j =>
            have := hk j (by omega)
            rwa [show line + 1 + j = line + (j + 1) by omega] at this
        · rw [show line + (k + 1) = line + 1 + k by omega]
          exact hend

theorem startsWith_nil (buf : Buf) (pos : Nat) : startsWith buf pos [] := by
  intro i h; exact absurd h (Nat.not_lt_zero i)

theorem startsWith_cons (buf : Buf) (pos : Nat) (a : Char) (as : List Char) :
    startsWith buf pos (a :: as) ↔ charAt buf pos = a ∧ startsWith buf (pos + 1) as := by
  constructor
  · intro h
    refine ⟨by simpa using h 0 (by simp), fun i hi => ?_⟩
    have := h (i + 1) (by simpa using hi)
    rw [show pos + 1 + i = pos + (i + 1) by omega]
    simpa using this
  · rintro ⟨h0, h1⟩ i hi
    cases i with
    | zero => simpa using h0
    | succ i =>
      have := h1 i (by simpa using hi)
      rw [show pos + (i + 1) = pos + 1 + i by omega]
      simpa using this

theorem check_prefix_eq_some_iff (buf : Buf) :
    ∀ (s : List Char) (pos l : Nat),
      osup_check_prefix_and_advance buf s pos = some l ↔
        startsWith buf pos s ∧ l = pos + s.length := by
  intro s
  induction s with
  | nil =>
    intro pos l
    simp [osup_check_prefix_and_advance, startsWith_nil, eq_comm]
  | cons a as ih =>
    intro pos l
    unfold osup_check_prefix_and_advance
    rw [startsWith_cons]
    by_cases h : charAt buf pos = a
    · simp only [h, bne_self_eq_false, Bool.false_eq_true, if_false, ih, true_and,
        List.length_cons]
      constructor
      · rintro ⟨h1, h2⟩; exact ⟨h1, by omega⟩
      · rintro ⟨h1, h2⟩; exact ⟨h1, by omega⟩
    · simp [h]

theorem check_prefix_eq_none_iff (buf : Buf) (s : List Char) (pos : Nat) :
    osup_check_prefix_and_advance buf s pos = none ↔ ¬ startsWith buf pos s := by
  cases hc : osup_check_prefix_and_advance buf s pos with
  | none =>
    simp only [true_iff]
    intro hs
    have := (check_prefix_eq_some_iff buf s pos (pos + s.length)).2 ⟨hs, rfl⟩
    rw [hc] at this
    exact Option.noConfusion this
  | some l =>
    have := ((check_prefix_eq_some_iff buf s pos l).1 hc).1
    simp [this]

theorem not_startsWith_of_conflict (buf : Buf) :
    ∀ (s t : List Char) (pos : Nat), conflict s t = true → startsWith buf pos s →
      ¬ startsWith buf pos t := by
  intro s
  induction s with
  | nil => intro t pos h; simp [conflict] at h
  | cons a as ih =>
    intro t pos h hs ht
    cases t with
    | nil => simp [conflict] at h
    | cons b bs =>
      rw [startsWith_cons] at hs ht
      simp only [conflict, Bool.or_eq_true, bne_iff_ne] at h
      rcases h with h | h
      · exact h (hs.1.symm.trans ht.1)
      · exact ih bs (pos + 1) h hs.2 ht.2

/-- The header branch over a table of pairwise conflicting literals succeeds
exactly on a header line, and then stores the section the literal names. -/
theorem headerChain_spec (buf : Buf) (ctx : osup_bm_ctx) (line : Nat) :
    ∀ (hs : List (String × osup_bm_section)),
      hs.Pairwise (fun p q => conflict p.1.toList q.1.toList = true) →
      (((headerChain buf ctx line hs).ok = true ↔
          ∃ p ∈ hs, isHeaderLine buf line p.1.toList) ∧
        ∀ p ∈ hs, isHeaderLine buf line p.1.toList →
          (headerChain buf ctx line hs).ok = true ∧
          (headerChain buf ctx line hs).ctx = { ctx with «section» := p.2 }) := by
  intro hs
  induction hs with
  | nil => intro _; simp [headerChain]
  | cons p ps ih =>
    intro hp
    rw [List.pairwise_cons] at hp
    obtain ⟨ih1, ih2⟩ := ih hp.2
    cases hc : osup_check_prefix_and_advance buf p.1.toList line with
    | none =>
      have hns := (check_prefix_eq_none_iff buf _ _).1 hc
      have hch : headerChain buf ctx line (p :: ps) = headerChain buf ctx line ps := by
        simp only [headerChain, sectionHeader, hc]
      rw [hch]
      constructor
      · rw [ih1]
        constructor
        · rintro ⟨q, hq, hl⟩; exact ⟨q, List.mem_cons_of_mem _ hq, hl⟩
        · rintro ⟨q, hq, hl⟩
          rcases List.mem_cons.1 hq with rfl | hq
          · exact absurd hl.1 hns
          · exact ⟨q, hq, hl⟩
      · intro q hq hl
        rcases List.mem_cons.1 hq with rfl | hq
        · exact absurd hl.1 hns
        · exact ih2 q hq hl
    | some l =>
      obtain ⟨hsw, hl⟩ := (check_prefix_eq_some_iff buf _ _ _).1 hc
      subst hl
      have hch : headerChain buf ctx line (p :: ps) =
          { ok := (osup_advance_to_next_line buf (line + p.1.toList.length) true).1,
            ctx := { ctx with «section» := p.2 },
            line := (osup_advance_to_next_line buf (line + p.1.toList.length) true).2 } := by
        simp only [headerChain, sectionHeader, hc]
      rw [hch]
      have hother : ∀ q ∈ ps, ¬ isHeaderLine buf line q.1.toList := fun q hq hlq =>
        not_startsWith_of_conflict buf _ _ line (hp.1 q hq) hsw hlq.1
      constructor
      · simp only [advance_check_ok]
        constructor
        · intro hb; exact ⟨p, List.mem_cons_self _ _, hsw, hb⟩
        · rintro ⟨q, hq, hlq⟩
          rcases List.mem_cons.1 hq with rfl | hq
          · exact hlq.2
          · exact absurd hlq (hother q hq)
      · intro q hq hlq
        rcases List.mem_cons.1 hq with rfl | hq
        · exact ⟨(advance_check_ok buf _).2 hlq.2, rfl⟩
        · exact absurd hlq (hother q hq)

theorem sectionHeaders_pairwise :
    sectionHeaders.Pairwise (fun p q => conflict p.1.toList q.1.toList = true) := by
  decide

theorem nextline_bracket (env : Env) (buf : Buf) (ctx : osup_bm_ctx) (line : Nat)
    (h : charAt buf line = '[') :
    osup_bm_nextline env buf ctx line = headerChain buf ctx line sectionHeaders := by
  unfold osup_bm_nextline
  simp only [h]
  rfl

/-! ## Section dispatcher -/

/-- C5: on a line beginning with `[`, `osup_bm_nextline` succeeds if and only
if the line is one of the eight header literals followed only by blanks up to
the line terminator; on such a line it succeeds, the current section becomes
the section named by the literal, and the rest of the context (the result
model included) is unchanged; an unrecognised header therefore fails. -/
theorem C5_section_header (env : Env) (buf : Buf) (ctx : osup_bm_ctx) (line : Nat)
    (h : charAt buf line = '[') :
    ((osup_bm_nextline env buf ctx line).ok = true ↔
      ∃ p ∈ sectionHeaders, isHeaderLine buf line p.1.toList) ∧
    (∀ p ∈ sectionHeaders, isHeaderLine buf line p.1.toList →
      (osup_bm_nextline env buf ctx line).ok = true ∧
      (osup_bm_nextline env buf ctx line).ctx = { ctx with «section» := p.2 } ∧
      (osup_bm_nextline env buf ctx line).ctx.map = ctx.map) := by
  rw [nextline_bracket env buf ctx line h]
  obtain ⟨h1, h2⟩ := headerChain_spec buf ctx line sectionHeaders sectionHeaders_pairwise
  refine ⟨h1, fun p hp hl => ?_⟩
  obtain ⟨h3, h4⟩ := h2 p hp hl
  exact ⟨h3, h4, by rw [h4]⟩

/-- C5 witness: the line `[Editor]` followed by a space, a tab and `\r\n`
selects the Editor section and keeps the result model; the unknown header
`[Fonts]` fails. -/
theorem C5_section_header_witness :
    ((osup_bm_nextline specEnv "[Editor] \t\r\n".toList (osup_bm_ctx.init {}) 0).ok = true ∧
      (osup_bm_nextline specEnv "[Editor] \t\r\n".toList (osup_bm_ctx.init {}) 0).ctx
        = { osup_bm_ctx.init {} with «section» := OSUP_BM_SECTION_EDITOR } ∧
      (osup_bm_nextline specEnv "[Editor] \t\r\n".toList (osup_bm_ctx.init {}) 0).ctx.map
        = {}) ∧
    ((osup_bm_nextline specEnv "[Fonts]\n".toList (osup_bm_ctx.init {}) 0).ok = true ↔
      ∃ p ∈ sectionHeaders, isHeaderLine "[Fonts]\n".toList 0 p.1.toList) :=
  ⟨(C5_section_header specEnv "[Editor] \t\r\n".toList (osup_bm_ctx.init {}) 0 rfl).2
      ("[Editor]", OSUP_BM_SECTION_EDITOR) (by decide)
      ⟨by intro i hi; have : i < 8 := hi; interval_cases i <;> rfl,
       2, by intro j hj; interval_cases j <;> rfl, rfl⟩,
   (C5_section_header specEnv "[Fonts]\n".toList (osup_bm_ctx.init {}) 0 rfl).1⟩

/-- C7: on a line beginning with `//`, `osup_bm_nextline` returns success,
leaves the whole context (current section and result model) unchanged, and
leaves the cursor just past the first line terminator `\r` or `\n` of that
line, or on the end-of-input NUL when there is none. -/
theorem C7_comment_line (env : Env) (buf : Buf) (ctx : osup_bm_ctx) (line : Nat)
    (h0 : charAt buf line = '/') (h1 : charAt buf (line + 1) = '/') :
    (osup_bm_nextline env buf ctx line).ok = true ∧
    (osup_bm_nextline env buf ctx line).ctx = ctx ∧
    ∃ k, (∀ j, j < k → osup_is_line_terminator (charAt buf (line + j)) = false) ∧
      (((charAt buf (line + k) = '\r' ∨ charAt buf (line + k) = '\n') ∧
          (osup_bm_nextline env buf ctx line).line = line + k + 1) ∨
        (charAt buf (line + k) = NUL ∧
          (osup_bm_nextline env buf ctx line).line = line + k)) := by
  have hn : osup_bm_nextline env buf ctx line =
      { ok := (osup_advance_to_next_line buf line false).1, ctx := ctx,
        line := (osup_advance_to_next_line buf line false).2 } := by
    unfold osup_bm_nextline
    simp only [h0, h1]
    rfl
  rw [hn]
  obtain ⟨hok, k, hk, hend⟩ := advance_loop_nocheck buf (buf.length - line) line (le_refl _)
  exact ⟨hok, rfl, k, hk, hend⟩

/-- C7 witness: the comment `//x` in the HitObjects section, followed by
`\r\n`, is skipped up to just past the `\r`. -/
theorem C7_comment_line_witness :
    (osup_bm_nextline specEnv "//x\r\n".toList
        { osup_bm_ctx.init {} with «section» := OSUP_BM_SECTION_HIT_OBJECTS } 0).ok = true ∧
    (osup_bm_nextline specEnv "//x\r\n".toList
        { osup_bm_ctx.init {} with «section» := OSUP_BM_SECTION_HIT_OBJECTS } 0).ctx
      = { osup_bm_ctx.init {} with «section» := OSUP_BM_SECTION_HIT_OBJECTS } ∧
    (osup_bm_nextline specEnv "//x\r\n".toList
        { osup_bm_ctx.init {} with «section» := OSUP_BM_SECTION_HIT_OBJECTS } 0).line = 4 :=
  ⟨(C7_comment_line specEnv "//x\r\n".toList
      { osup_bm_ctx.init {} with «section» := OSUP_BM_SECTION_HIT_OBJECTS } 0 rfl rfl).1,
   (C7_comment_line specEnv "//x\r\n".toList
      { osup_bm_ctx.init {} with «section» := OSUP_BM_SECTION_HIT_OBJECTS } 0 rfl rfl).2.1,
   rfl⟩

theorem nextline_content (env : Env) (buf : Buf) (ctx : osup_bm_ctx) (line : Nat)
    (hc : isContentChar (charAt buf line) = true) :
    osup_bm_nextline env buf ctx line = nextlineDefault env buf ctx line := by
  simp only [isContentChar, Bool.not_eq_true', Bool.or_eq_false_iff] at hc
  obtain ⟨⟨⟨⟨h1, h2⟩, h3⟩, h4⟩, h5⟩ := hc
  unfold osup_bm_nextline
  simp only [h1, h2, h3, h4, h5, Bool.or_self, Bool.false_eq_true, if_false]

theorem isContentChar_of_isblank (c : Char) (h : isblank c = true) :
    isContentChar c = true := by
  rcases (isblank_iff c).1 h with h | h <;> subst h <;> decide

/-- A line that begins with none of the General key prefixes is rejected by
`osup_bm_parse_general_line`, which then leaves the result model and the
cursor alone. -/
theorem general_line_no_key (env : Env) (buf : Buf) (map : osup_bm) (line : Nat)
    (h : ∀ k ∈ generalKeys, ¬ startsWith buf line k.toList) :
    osup_bm_parse_general_line env buf map line = { ok := false, map := map, line := line } := by
  have hk : ∀ k ∈ generalKeys, osup_check_prefix_and_advance buf k.toList line = none :=
    fun k hm => (check_prefix_eq_none_iff buf _ _).2 (h k hm)
  simp only [osup_bm_parse_general_line, OSUP_BM_KV_PARSE_STRING, OSUP_BM_KV_PARSE_INT,
    OSUP_BM_KV_PARSE_BOOL, OSUP_BM_KV_PARSE_DECIMAL, OSUP_BM_KV_PARSE_INT_ENUM, kvParse,
    hk "AudioFilename: " (by decide),
    hk "AudioLeadIn: " (by decide),
    hk "AudioHash: " (by decide),
    hk "PreviewTime: " (by decide),
    hk "Countdown" (by decide),
    hk "StackLeniency: " (by decide),
    hk "Mode: " (by decide),
    hk "LetterboxInBreaks: " (by decide),
    hk "StoryFireInFront: " (by decide),
    hk "UseSkinSprites: " (by decide),
    hk "AlwaysShowPlayfield: " (by decide),
    hk "SkinPreference: " (by decide),
    hk "EpilepsyWarning: " (by decide),
    hk "CountdownOffset: " (by decide),
    hk "SpecialStyle: " (by decide),
    hk "WidescreenStoryboard: " (by decide),
    hk "SamplesMatchPlaybackRate" (by decide),
    hk "SampleSet: " (by decide),
    hk "OverlayPosition: " (by decide)]

/-- C6 (amended): a freshly initialised parse context has the General section
as its current section (the zero value of the section enum), so
`osup_bm_nextline` hands every content line that precedes the first header to
the General decoder and returns what `osup_bm_parse_general_line` returns; in
particular it fails, leaving the context unchanged, on every content line that
begins with none of the General key prefixes. -/
theorem C6_fresh_context_decodes_as_general (env : Env) (buf : Buf) (map : osup_bm)
    (line : Nat) (hc : isContentChar (charAt buf line) = true) :
    osup_bm_nextline env buf (osup_bm_ctx.init map) line
      = NextRes.ofRes (osup_bm_ctx.init map) (osup_bm_parse_general_line env buf map line) ∧
    ((∀ k ∈ generalKeys, ¬ startsWith buf line k.toList) →
      osup_bm_nextline env buf (osup_bm_ctx.init map) line
        = { ok := false, ctx := osup_bm_ctx.init map, line := line }) := by
  have h1 : osup_bm_nextline env buf (osup_bm_ctx.init map) line
      = NextRes.ofRes (osup_bm_ctx.init map)
          (osup_bm_parse_general_line env buf map line) := by
    rw [nextline_content env buf _ line hc]
    rfl
  refine ⟨h1, fun h => ?_⟩
  rw [h1, general_line_no_key env buf map line h]
  rfl

/-- C6 witness: as first content line, `SampleSet: Normal` is decoded by the
General decoder. -/
theorem C6_fresh_context_decodes_as_general_witness :
    osup_bm_nextline specEnv "SampleSet: Normal\n".toList (osup_bm_ctx.init {}) 0
      = NextRes.ofRes (osup_bm_ctx.init {})
          (osup_bm_parse_general_line specEnv "SampleSet: Normal\n".toList {} 0) :=
  (C6_fresh_context_decodes_as_general specEnv "SampleSet: Normal\n".toList {} 0 (by decide)).1

/-- C6 counterexample: with a freshly initialised context (no section header
seen yet) the content lines `SampleSet: Normal` and `AudioLeadIn: 0` are
accepted by `osup_bm_nextline`, which stores their values in the General
record. -/
theorem C6_counterexample :
    isContentChar (charAt "SampleSet: Normal\n".toList 0) = true ∧
    (osup_bm_nextline specEnv "SampleSet: Normal\n".toList (osup_bm_ctx.init {}) 0).ok = true ∧
    (osup_bm_nextline specEnv "SampleSet: Normal\n".toList
        (osup_bm_ctx.init {}) 0).ctx.map.general.sampleSet = OSUP_SAMPLESET_NORMAL ∧
    isContentChar (charAt "AudioLeadIn: 0\n".toList 0) = true ∧
    (osup_bm_nextline specEnv "AudioLeadIn: 0\n".toList (osup_bm_ctx.init {}) 0).ok = true := by
  decide

/-- C8 (amended): on an empty line (the cursor is on a line terminator `\r`,
`\n` or end-of-input) `osup_bm_nextline` returns success and leaves the
context, and with it the current section and the result model, unchanged; a
line that begins with a blank is a content line and is handed to the decoder
of the current section. -/
theorem C8_empty_line (env : Env) (buf : Buf) (ctx : osup_bm_ctx) (line : Nat) :
    (osup_is_line_terminator (charAt buf line) = true →
      (osup_bm_nextline env buf ctx line).ok = true ∧
      (osup_bm_nextline env buf ctx line).ctx = ctx ∧
      (osup_bm_nextline env buf ctx line).ctx.«section» = ctx.«section» ∧
      (osup_bm_nextline env buf ctx line).ctx.map = ctx.map) ∧
    (isblank (charAt buf line) = true →
      osup_bm_nextline env buf ctx line = nextlineDefault env buf ctx line) := by
  constructor
  · intro h
    have hr : osup_bm_nextline env buf ctx line = { ok := true, ctx := ctx, line := line } := by
      unfold osup_bm_nextline
      rcases (terminator_iff _).1 h with h | h | h <;> rw [h] <;> rfl
    rw [hr]
    exact ⟨rfl, rfl, rfl, rfl⟩
  · intro h
    exact nextline_content env buf ctx line (isContentChar_of_isblank _ h)

/-- C8 witness: an empty line in the TimingPoints section is accepted, and the
section and the result model stay as they were. -/
theorem C8_empty_line_witness :
    (osup_bm_nextline specEnv "\r\n".toList
        { osup_bm_ctx.init {} with «section» := OSUP_BM_SECTION_TIMING_POINTS } 0).ok = true ∧
    (osup_bm_nextline specEnv "\r\n".toList
        { osup_bm_ctx.init {} with «section» := OSUP_BM_SECTION_TIMING_POINTS } 0).ctx
      = { osup_bm_ctx.init {} with «section» := OSUP_BM_SECTION_TIMING_POINTS } :=
  ⟨((C8_empty_line specEnv "\r\n".toList
      { osup_bm_ctx.init {} with «section» := OSUP_BM_SECTION_TIMING_POINTS } 0).1 rfl).1,
   ((C8_empty_line specEnv "\r\n".toList
      { osup_bm_ctx.init {} with «section» := OSUP_BM_SECTION_TIMING_POINTS } 0).1 rfl).2.1⟩

/-- C8 counterexample: the blank line made of one space and `\n` is rejected
by `osup_bm_nextline` when the current section is General. -/
theorem C8_counterexample :
    isblank (charAt " \n".toList 0) = true ∧
    osup_is_line_terminator (charAt " \n".toList 1) = true ∧
    (osup_bm_nextline specEnv " \n".toList (osup_bm_ctx.init {}) 0).ok = false := by
  decide

/-- In the Events section, once the list has room, the dispatcher appends
the decoded event, or skips the row, and succeeds either way. -/
theorem nextlineDefault_events (env : Env) (buf : Buf) (ctx : osup_bm_ctx) (line : Nat)
    (hs : ctx.«section» = OSUP_BM_SECTION_EVENTS)
    (hg : ctx.map.events.length ≥ ctx.eventCapacity →
      env.realloc (grownCapacity ctx.map.events.length) = true) :
    (nextlineDefault env buf ctx line).ok = true ∧
    (nextlineDefault env buf ctx line).line = (osup_bm_parse_events_line env buf line).line ∧
    (nextlineDefault env buf ctx line).ctx.«section» = OSUP_BM_SECTION_EVENTS ∧
    (nextlineDefault env buf ctx line).ctx.map =
      { ctx.map with events := ctx.map.events ++
          (osup_bm_parse_events_line env buf line).value.toList } := by
  unfold nextlineDefault
  rw [hs]
  by_cases hcap : ctx.map.events.length ≥ ctx.eventCapacity
  · have hr := hg hcap
    cases hv : (osup_bm_parse_events_line env buf line).value <;>
      simp [hcap, hr, hv, hs]
  · cases hv : (osup_bm_parse_events_line env buf line).value <;>
      simp [hcap, hv, hs]

/-- C9: while the current section is Events and list growth succeeds,
`osup_bm_nextline` returns success for every content line; if the row decodes
to an event, the event list grows by exactly that event as its new last
element (the count increases by one), and if the row fails to decode, the
result model (event count and stored events included) is unchanged. -/
theorem C9_events_line_never_fails (env : Env) (buf : Buf) (ctx : osup_bm_ctx) (line : Nat)
    (hs : ctx.«section» = OSUP_BM_SECTION_EVENTS)
    (hc : isContentChar (charAt buf line) = true)
    (hg : ctx.map.events.length ≥ ctx.eventCapacity →
      env.realloc (grownCapacity ctx.map.events.length) = true) :
    (osup_bm_nextline env buf ctx line).ok = true ∧
    (∀ event, (osup_bm_parse_events_line env buf line).value = some event →
      (osup_bm_nextline env buf ctx line).ctx.map
        = { ctx.map with events := ctx.map.events ++ [event] } ∧
      (osup_bm_nextline env buf ctx line).ctx.map.events.length
        = ctx.map.events.length + 1 ∧
      (osup_bm_nextline env buf ctx line).ctx.map.events.getLast? = some event) ∧
    ((osup_bm_parse_events_line env buf line).value = none →
      (osup_bm_nextline env buf ctx line).ctx.map = ctx.map) := by
  rw [nextline_content env buf ctx line hc]
  obtain ⟨h1, _, _, h4⟩ := nextlineDefault_events env buf ctx line hs hg
  refine ⟨h1, fun event hv => ?_, fun hv => ?_⟩
  · rw [h4, hv]
    simp
  · rw [h4, hv]
    simp

/-- C9 witness: in the Events section the break row `2,100,200` is appended
and the storyboard row `Sprite,Pass,Centre,"a.png",320,240` is skipped, both
with success. -/
theorem C9_events_line_never_fails_witness :
    ((osup_bm_nextline specEnv "2,100,200\n".toList
        { osup_bm_ctx.init {} with «section» := OSUP_BM_SECTION_EVENTS } 0).ok = true ∧
      (osup_bm_nextline specEnv "2,100,200\n".toList
        { osup_bm_ctx.init {} with «section» := OSUP_BM_SECTION_EVENTS } 0).ctx.map.events
        = [{ eventType := OSUP_EVENT_TYPE_BREAK, startTime := 100, params := .brk 200 }]) ∧
    ((osup_bm_nextline specEnv "Sprite,Pass,Centre,\"a.png\",320,240\n".toList
        { osup_bm_ctx.init {} with «section» := OSUP_BM_SECTION_EVENTS } 0).ok = true ∧
      (osup_bm_nextline specEnv "Sprite,Pass,Centre,\"a.png\",320,240\n".toList
        { osup_bm_ctx.init {} with «section» := OSUP_BM_SECTION_EVENTS } 0).ctx.map = {}) :=
  ⟨⟨(C9_events_line_never_fails specEnv "2,100,200\n".toList
        { osup_bm_ctx.init {} with «section» := OSUP_BM_SECTION_EVENTS } 0 rfl (by decide)
        (fun _ => rfl)).1,
    by decide⟩,
   ⟨(C9_events_line_never_fails specEnv "Sprite,Pass,Centre,\"a.png\",320,240\n".toList
        { osup_bm_ctx.init {} with «section» := OSUP_BM_SECTION_EVENTS } 0 rfl (by decide)
        (fun _ => rfl)).1,
    (C9_events_line_never_fails specEnv "Sprite,Pass,Centre,\"a.png\",320,240\n".toList
        { osup_bm_ctx.init {} with «section» := OSUP_BM_SECTION_EVENTS } 0 rfl (by decide)
        (fun _ => rfl)).2.2 (by decide)⟩⟩

/-- In the TimingPoints section, once the list has room, the dispatcher
returns the row decoder's status and appends the decoded record. -/
theorem nextlineDefault_timing_points (env : Env) (buf : Buf) (ctx : osup_bm_ctx)
    (line : Nat) (hs : ctx.«section» = OSUP_BM_SECTION_TIMING_POINTS)
    (hg : ctx.map.timingPoints.length ≥ ctx.timingpointCapacity →
      env.realloc (grownCapacity ctx.map.timingPoints.length) = true) :
    (nextlineDefault env buf ctx line).ok
      = (osup_bm_parse_timing_points_line env buf line).value.isSome ∧
    (nextlineDefault env buf ctx line).ctx.map =
      { ctx.map with timingPoints := ctx.map.timingPoints ++
          (osup_bm_parse_timing_points_line env buf line).value.toList } := by
  unfold nextlineDefault
  rw [hs]
  by_cases hcap : ctx.map.timingPoints.length ≥ ctx.timingpointCapacity
  · have hr := hg hcap
    cases hv : (osup_bm_parse_timing_points_line env buf line).value <;>
      simp [hcap, hr, hv, hs]
  · cases hv : (osup_bm_parse_timing_points_line env buf line).value <;>
      simp [hcap, hv, hs]

/-- In the HitObjects section, once the list has room, the dispatcher returns
the row decoder's status and appends the decoded record. -/
theorem nextlineDefault_hit_objects (env : Env) (buf : Buf) (ctx : osup_bm_ctx)
    (line : Nat) (hs : ctx.«section» = OSUP_BM_SECTION_HIT_OBJECTS)
    (hg : ctx.map.hitObjects.length ≥ ctx.hitObjectCapacity →
      env.realloc (grownCapacity ctx.map.hitObjects.length) = true) :
    (nextlineDefault env buf ctx line).ok
      = (osup_bm_parse_hit_objects_line env buf line).value.isSome ∧
    (nextlineDefault env buf ctx line).ctx.map =
      { ctx.map with hitObjects := ctx.map.hitObjects ++
          (osup_bm_parse_hit_objects_line env buf line).value.toList } := by
  unfold nextlineDefault
  rw [hs]
  by_cases hcap : ctx.map.hitObjects.length ≥ ctx.hitObjectCapacity
  · have hr := hg hcap
    cases hv : (osup_bm_parse_hit_objects_line env buf line).value <;>
      simp [hcap, hr, hv, hs]
  · cases hv : (osup_bm_parse_hit_objects_line env buf line).value <;>
      simp [hcap, hv, hs]

/-- When a record list is full and cannot grow, the dispatcher fails without
running the row decoder and without touching the result model. -/
theorem nextlineDefault_no_memory (env : Env) (buf : Buf) (ctx : osup_bm_ctx) (line : Nat) :
    (ctx.«section» = OSUP_BM_SECTION_TIMING_POINTS →
      ctx.map.timingPoints.length ≥ ctx.timingpointCapacity →
      env.realloc (grownCapacity ctx.map.timingPoints.length) = false →
      (nextlineDefault env buf ctx line).ok = false ∧
      (nextlineDefault env buf ctx line).ctx.map = ctx.map) ∧
    (ctx.«section» = OSUP_BM_SECTION_HIT_OBJECTS →
      ctx.map.hitObjects.length ≥ ctx.hitObjectCapacity →
      env.realloc (grownCapacity ctx.map.hitObjects.length) = false →
      (nextlineDefault env buf ctx line).ok = false ∧
      (nextlineDefault env buf ctx line).ctx.map = ctx.map) := by
  constructor
  · intro hs hcap hr
    unfold nextlineDefault
    rw [hs]
    simp [hcap, hr]
  · intro hs hcap hr
    unfold nextlineDefault
    rw [hs]
    simp [hcap, hr]

/-- C10 (amended): while the current section is TimingPoints or HitObjects
and list growth succeeds, `osup_bm_nextline` on a content line returns success
if and only if the corresponding row decoder succeeds; on success the decoded
record becomes the new last element of the list (the count increases by
exactly one), on failure the result model is unchanged.  When the list is full
and cannot grow, the line fails without the row decoder being run.  Every
failure of `osup_bm_nextline` ends the line loop of
`osup_beatmap_load_string` with failure. -/
theorem C10_row_failure_fails_the_parse (env : Env) (buf : Buf) (ctx : osup_bm_ctx)
    (line : Nat) (hc : isContentChar (charAt buf line) = true) :
    (ctx.«section» = OSUP_BM_SECTION_TIMING_POINTS →
      ((ctx.map.timingPoints.length ≥ ctx.timingpointCapacity →
          env.realloc (grownCapacity ctx.map.timingPoints.length) = true) →
        ((osup_bm_nextline env buf ctx line).ok = true ↔
          (osup_bm_parse_timing_points_line env buf line).value.isSome = true) ∧
        (∀ tp, (osup_bm_parse_timing_points_line env buf line).value = some tp →
          (osup_bm_nextline env buf ctx line).ctx.map
            = { ctx.map with timingPoints := ctx.map.timingPoints ++ [tp] } ∧
          (osup_bm_nextline env buf ctx line).ctx.map.timingPoints.length
            = ctx.map.timingPoints.length + 1) ∧
        ((osup_bm_parse_timing_points_line env buf line).value = none →
          (osup_bm_nextline env buf ctx line).ctx.map = ctx.map)) ∧
      (ctx.map.timingPoints.length ≥ ctx.timingpointCapacity →
        env.realloc (grownCapacity ctx.map.timingPoints.length) = false →
        (osup_bm_nextline env buf ctx line).ok = false ∧
        (osup_bm_nextline env buf ctx line).ctx.map = ctx.map)) ∧
    (ctx.«section» = OSUP_BM_SECTION_HIT_OBJECTS →
      ((ctx.map.hitObjects.length ≥ ctx.hitObjectCapacity →
          env.realloc (grownCapacity ctx.map.hitObjects.length) = true) →
        ((osup_bm_nextline env buf ctx line).ok = true ↔
          (osup_bm_parse_hit_objects_line env buf line).value.isSome = true) ∧
        (∀ ho, (osup_bm_parse_hit_objects_line env buf line).value = some ho →
          (osup_bm_nextline env buf ctx line).ctx.map
            = { ctx.map with hitObjects := ctx.map.hitObjects ++ [ho] } ∧
          (osup_bm_nextline env buf ctx line).ctx.map.hitObjects.length
            = ctx.map.hitObjects.length + 1) ∧
        ((osup_bm_parse_hit_objects_line env buf line).value = none →
          (osup_bm_nextline env buf ctx line).ctx.map = ctx.map)) ∧
      (ctx.map.hitObjects.length ≥ ctx.hitObjectCapacity →
        env.realloc (grownCapacity ctx.map.hitObjects.length) = false →
        (osup_bm_nextline env buf ctx line).ok = false ∧
        (osup_bm_nextline env buf ctx line).ctx.map = ctx.map)) ∧
    ((osup_bm_nextline env buf ctx line).ok = false →
      ∀ fuel, (lineLoop env buf (fuel + 1) ctx line).map Prod.fst = some false) := by
  refine ⟨fun hs => ⟨fun hg => ?_, ?_⟩, fun hs => ⟨fun hg => ?_, ?_⟩, fun hf fuel => ?_⟩
  · rw [nextline_content env buf ctx line hc]
    obtain ⟨h1, h2⟩ := nextlineDefault_timing_points env buf ctx line hs hg
    refine ⟨by rw [h1], fun tp hv => ?_, fun hv => ?_⟩
    · rw [h2, hv]; simp
    · rw [h2, hv]; simp
  · rw [nextline_content env buf ctx line hc]
    exact (nextlineDefault_no_memory env buf ctx line).1 hs
  · rw [nextline_content env buf ctx line hc]
    obtain ⟨h1, h2⟩ := nextlineDefault_hit_objects env buf ctx line hs hg
    refine ⟨by rw [h1], fun ho hv => ?_, fun hv => ?_⟩
    · rw [h2, hv]; simp
    · rw [h2, hv]; simp
  · rw [nextline_content env buf ctx line hc]
    exact (nextlineDefault_no_memory env buf ctx line).2 hs
  · rw [lineLoop_of_fail env buf ctx line fuel hf]
    rfl

/-- C10 witness: in the TimingPoints section the row
`100,333.33,4,1,0,50,1,0` is decoded and appended, and the short row `100,4`
fails the line and with it the line loop. -/
theorem C10_row_failure_fails_the_parse_witness :
    ((osup_bm_nextline specEnv "100,333.33,4,1,0,50,1,0\n".toList
        { osup_bm_ctx.init {} with «section» := OSUP_BM_SECTION_TIMING_POINTS } 0).ok = true ↔
      (osup_bm_parse_timing_points_line specEnv
        "100,333.33,4,1,0,50,1,0\n".toList 0).value.isSome = true) ∧
    (∀ fuel, (lineLoop specEnv "100,4\n".toList (fuel + 1)
        { osup_bm_ctx.init {} with «section» := OSUP_BM_SECTION_TIMING_POINTS } 0).map Prod.fst
      = some false) :=
  ⟨((C10_row_failure_fails_the_parse specEnv "100,333.33,4,1,0,50,1,0\n".toList
      { osup_bm_ctx.init {} with «section» := OSUP_BM_SECTION_TIMING_POINTS } 0
      (by decide)).1 rfl).1 (fun _ => rfl) |>.1,
   (C10_row_failure_fails_the_parse specEnv "100,4\n".toList
      { osup_bm_ctx.init {} with «section» := OSUP_BM_SECTION_TIMING_POINTS } 0
      (by decide)).2.2 (by decide)⟩

/-- C10 counterexample: in the TimingPoints section, with an empty list that
cannot grow, the row `100,333.33,4,1,0,50,1,0` is one the row decoder accepts,
yet `osup_bm_nextline` returns failure. -/
theorem C10_counterexample :
    isContentChar (charAt "100,333.33,4,1,0,50,1,0\n".toList 0) = true ∧
    (osup_bm_parse_timing_points_line specEnvNoMem
      "100,333.33,4,1,0,50,1,0\n".toList 0).value.isSome = true ∧
    (osup_bm_nextline specEnvNoMem "100,333.33,4,1,0,50,1,0\n".toList
      { osup_bm_ctx.init {} with «section» := OSUP_BM_SECTION_TIMING_POINTS } 0).ok = false := by
  decide

/-! ## Hit objects -/

theorem shift_and_one (t k : Nat) : (t >>> k &&& 1) = if t.testBit k then 1 else 0 := by
  rw [Nat.and_one_is_mod, Nat.shiftRight_eq_div_pow, Nat.testBit_to_div_mod]
  rcases Nat.mod_two_eq_zero_or_one (t / 2 ^ k) with h | h <;> simp [h]

theorem typeBitSum_eq_countTypeBits (t : Nat) : typeBitSum t = countTypeBits t := by
  simp only [typeBitSum, countTypeBits, shift_and_one, List.filter]
  cases t.testBit 0 <;> cases t.testBit 1 <;> cases t.testBit 3 <;> cases t.testBit 7 <;> rfl

/-- C11: when the five fixed fields of a HitObjects line decode and the
number of set bits of the type byte among bits 0, 1, 3 and 7 is not exactly
one, `osup_bm_parse_hit_objects_line` fails; and the sum the source tests is
that number of set bits, which is the same for two type bytes that agree on
bits 0, 1, 3 and 7 (so bits 2, 4, 5 and 6 do not affect the check). -/
theorem C11_type_bits_exactly_one (env : Env) (buf : Buf) (line : Nat) (f : HitObjectFixed)
    (hf : hitObjectFixedFields env buf line = some f) (hb : countTypeBits f.type ≠ 1) :
    (osup_bm_parse_hit_objects_line env buf line).value = none ∧
    typeBitSum f.type = countTypeBits f.type ∧
    (∀ t, (∀ k ∈ [0, 1, 3, 7], Nat.testBit t k = Nat.testBit f.type k) →
      typeBitSum t = typeBitSum f.type) := by
  refine ⟨?_, typeBitSum_eq_countTypeBits _, fun t ht => ?_⟩
  · have hs : (typeBitSum f.type != 1) = true := by
      rw [typeBitSum_eq_countTypeBits]; simpa using hb
    unfold osup_bm_parse_hit_objects_line
    simp only [hf, expectChar]
    by_cases hc : charAt buf f.elementEnd = ','
    · simp [hc, hs]
    · simp [hc]
  · rw [typeBitSum_eq_countTypeBits, typeBitSum_eq_countTypeBits]
    simp only [countTypeBits, List.filter]
    rw [ht 0 (by simp), ht 1 (by simp), ht 3 (by simp), ht 7 (by simp)]

/-- C11 witness: the row `256,192,350,3,0,0:0:0:0:` has the circle and the
slider bit set and is rejected. -/
theorem C11_type_bits_exactly_one_witness :
    (osup_bm_parse_hit_objects_line specEnv "256,192,350,3,0,0:0:0:0:\n".toList 0).value
      = none :=
  (C11_type_bits_exactly_one specEnv "256,192,350,3,0,0:0:0:0:\n".toList 0
    { x := 256, y := 192, time := 350, type := 3, hitSound := 0, elementEnd := 15 }
    (by decide) (by decide)).1

theorem and_pow_ne_zero (t k : Nat) : (t &&& 2 ^ k != 0) = t.testBit k := by
  rw [Nat.and_two_pow]
  cases t.testBit k <;> simp

theorem OSUP_IS_SLIDER_eq (t : Nat) : OSUP_IS_SLIDER t = t.testBit 1 :=
  and_pow_ne_zero t 1

theorem OSUP_IS_SPINNER_eq (t : Nat) : OSUP_IS_SPINNER t = t.testBit 3 :=
  and_pow_ne_zero t 3

theorem OSUP_IS_MANIA_HOLD_eq (t : Nat) : OSUP_IS_MANIA_HOLD t = t.testBit 7 :=
  and_pow_ne_zero t 7

/-- The object parameters of a spinner or hold row: the end time must be
followed by `,` for a spinner and by `:` for a hold. -/
theorem objectParams_end_time (env : Env) (buf : Buf) (type line : Nat) (endTime : Int)
    (l' : Nat) (hb : countTypeBits type = 1)
    (he : env.osup_parse_int_until_nondigit_char buf line = some (endTime, l')) :
    (type.testBit 3 = true →
      objectParams env buf type line =
        if charAt buf l' = ',' then { value := some (.spinner endTime), line := l' + 1 }
        else { value := none, line := l' }) ∧
    (type.testBit 7 = true →
      objectParams env buf type line =
        if charAt buf l' = ':' then { value := some (.spinner endTime), line := l' + 1 }
        else { value := none, line := l' }) := by
  simp only [countTypeBits, List.filter] at hb
  constructor
  · intro h3
    have h1 : type.testBit 1 = false := by
      cases h0 : type.testBit 0 <;> cases h1 : type.testBit 1 <;> cases h7 : type.testBit 7 <;>
        simp_all
    simp only [objectParams, OSUP_IS_SLIDER_eq, OSUP_IS_SPINNER_eq, OSUP_IS_MANIA_HOLD_eq, h1,
      h3, intUntil, he]
    by_cases hc : charAt buf l' = ',' <;> simp [hc]
  · intro h7
    have h1 : type.testBit 1 = false := by
      cases h0 : type.testBit 0 <;> cases h1 : type.testBit 1 <;> cases h3 : type.testBit 3 <;>
        simp_all
    have h3 : type.testBit 3 = false := by
      cases h0 : type.testBit 0 <;> cases h1 : type.testBit 1 <;> cases h3 : type.testBit 3 <;>
        simp_all
    simp only [objectParams, OSUP_IS_SLIDER_eq, OSUP_IS_SPINNER_eq, OSUP_IS_MANIA_HOLD_eq, h1,
      h3, h7, intUntil, he]
    by_cases hc : charAt buf l' = ':' <;> simp [hc]

/-- The row decoder once the fixed fields, the comma after them and the type
bits are accepted: object parameters, then the hit sample. -/
theorem hit_objects_line_after_fixed (env : Env) (buf : Buf) (line : Nat) (f : HitObjectFixed)
    (hf : hitObjectFixedFields env buf line = some f)
    (hc : charAt buf f.elementEnd = ',') (hb : countTypeBits f.type = 1) :
    osup_bm_parse_hit_objects_line env buf line =
      (objectParams env buf f.type (f.elementEnd + 1)).andThen fun params line =>
      (hitSampleFields env buf line).andThen fun hitSample line =>
      { value := some { x := f.x, y := f.y, time := f.time, type := f.type,
                        hitSound := f.hitSound, params := params, hitSample := hitSample },
        line := line } := by
  unfold osup_bm_parse_hit_objects_line
  simp [hf, expectChar, hc, typeBitSum_eq_countTypeBits, hb]

/-- C14: in a HitObjects row whose fixed fields decode with exactly one type
bit set, the end time of a spinner (type bit 3) must be followed by `,` and
the end time of a hold (type bit 7) by `:`.  With the right terminator the end
time is stored and decoding goes on with the hit-sample suffix right after the
terminator; with any other character there (a `:` after a spinner's end time,
a `,` after a hold's) the row fails. -/
theorem C14_end_time_terminator (env : Env) (buf : Buf) (line : Nat) (f : HitObjectFixed)
    (endTime : Int) (l' : Nat)
    (hf : hitObjectFixedFields env buf line = some f)
    (hc : charAt buf f.elementEnd = ',') (hb : countTypeBits f.type = 1)
    (he : env.osup_parse_int_until_nondigit_char buf (f.elementEnd + 1) = some (endTime, l')) :
    (f.type.testBit 3 = true →
      (charAt buf l' = ',' →
        osup_bm_parse_hit_objects_line env buf line =
          (hitSampleFields env buf (l' + 1)).andThen fun hitSample line =>
          { value := some { x := f.x, y := f.y, time := f.time, type := f.type,
                            hitSound := f.hitSound, params := .spinner endTime,
                            hitSample := hitSample },
            line := line }) ∧
      (charAt buf l' ≠ ',' → (osup_bm_parse_hit_objects_line env buf line).value = none)) ∧
    (f.type.testBit 7 = true →
      (charAt buf l' = ':' →
        osup_bm_parse_hit_objects_line env buf line =
          (hitSampleFields env buf (l' + 1)).andThen fun hitSample line =>
          { value := some { x := f.x, y := f.y, time := f.time, type := f.type,
                            hitSound := f.hitSound, params := .spinner endTime,
                            hitSample := hitSample },
            line := line }) ∧
      (charAt buf l' ≠ ':' → (osup_bm_parse_hit_objects_line env buf line).value = none)) := by
  rw [hit_objects_line_after_fixed env buf line f hf hc hb]
  obtain ⟨h3, h7⟩ := objectParams_end_time env buf f.type (f.elementEnd + 1) endTime l' hb he
  constructor
  · intro hs
    rw [h3 hs]
    constructor
    · intro hch; simp [hch, RowRes.andThen]
    · intro hch; simp [hch, RowRes.andThen]
  · intro hs
    rw [h7 hs]
    constructor
    · intro hch; simp [hch, RowRes.andThen]
    · intro hch; simp [hch, RowRes.andThen]

/-- C14 witness: the spinner row `256,192,350,8,0,500,0:0:0:0:` stores the end
time 500 while `256,192,350,8,0,500:0:0:0:0:` fails; the hold row
`256,192,350,128,0,500:0:0:0:0:` stores the end time 500 while
`256,192,350,128,0,500,0:0:0:0:` fails. -/
theorem C14_end_time_terminator_witness :
    ((osup_bm_parse_hit_objects_line specEnv "256,192,350,8,0,500,0:0:0:0:\n".toList 0).value
        = some { x := 256, y := 192, time := 350, type := 8, hitSound := 0,
                 params := .spinner 500,
                 hitSample := { normalSet := 0, additionSet := 0, index := 0, volume := 0,
                                filename := [] } } ∧
      (osup_bm_parse_hit_objects_line specEnv "256,192,350,8,0,500:0:0:0:0:\n".toList 0).value
        = none) ∧
    ((osup_bm_parse_hit_objects_line specEnv
        "256,192,350,128,0,500:0:0:0:0:\n".toList 0).value
        = some { x := 256, y := 192, time := 350, type := 128, hitSound := 0,
                 params := .spinner 500,
                 hitSample := { normalSet := 0, additionSet := 0, index := 0, volume := 0,
                                filename := [] } } ∧
      (osup_bm_parse_hit_objects_line specEnv
        "256,192,350,128,0,500,0:0:0:0:\n".toList 0).value = none) :=
  ⟨⟨by
      rw [((C14_end_time_terminator specEnv "256,192,350,8,0,500,0:0:0:0:\n".toList 0
        { x := 256, y := 192, time := 350, type := 8, hitSound := 0, elementEnd := 15 }
        500 19 (by decide) (by decide) (by decide) (by decide)).1 (by decide)).1 (by decide)]
      decide,
    ((C14_end_time_terminator specEnv "256,192,350,8,0,500:0:0:0:0:\n".toList 0
        { x := 256, y := 192, time := 350, type := 8, hitSound := 0, elementEnd := 15 }
        500 19 (by decide) (by decide) (by decide) (by decide)).1 (by decide)).2 (by decide)⟩,
   ⟨by
      rw [((C14_end_time_terminator specEnv "256,192,350,128,0,500:0:0:0:0:\n".toList 0
        { x := 256, y := 192, time := 350, type := 128, hitSound := 0, elementEnd := 17 }
        500 21 (by decide) (by decide) (by decide) (by decide)).2 (by decide)).1 (by decide)]
      decide,
    ((C14_end_time_terminator specEnv "256,192,350,128,0,500,0:0:0:0:\n".toList 0
        { x := 256, y := 192, time := 350, type := 128, hitSound := 0, elementEnd := 17 }
        500 21 (by decide) (by decide) (by decide) (by decide)).2 (by decide)).2 (by decide)⟩⟩

/-- The loop of `osup_advance_to_last_nonblank_char`, started at `it` with
value end `e` while only blanks lie in `[e, it)`: it stops on the first line
terminator at or after `it`, and the value end it returns is followed only by
blanks and is either `e` or just after a non-blank character. -/
theorem last_nonblank_loop_spec (buf : Buf) :
    ∀ (fuel it e : Nat), buf.length - it ≤ fuel → e ≤ it →
      (∀ j, e ≤ j → j < it → isblank (charAt buf j) = true) →
      it ≤ (osup_advance_to_last_nonblank_char_loop buf fuel it e).1 ∧
      osup_is_line_terminator
        (charAt buf (osup_advance_to_last_nonblank_char_loop buf fuel it e).1) = true ∧
      (∀ j, it ≤ j → j < (osup_advance_to_last_nonblank_char_loop buf fuel it e).1 →
        osup_is_line_terminator (charAt buf j) = false) ∧
      e ≤ (osup_advance_to_last_nonblank_char_loop buf fuel it e).2 ∧
      (osup_advance_to_last_nonblank_char_loop buf fuel it e).2
        ≤ (osup_advance_to_last_nonblank_char_loop buf fuel it e).1 ∧
      (∀ j, (osup_advance_to_last_nonblank_char_loop buf fuel it e).2 ≤ j →
        j < (osup_advance_to_last_nonblank_char_loop buf fuel it e).1 →
        isblank (charAt buf j) = true) ∧
      ((osup_advance_to_last_nonblank_char_loop buf fuel it e).2 = e ∨
        (it < (osup_advance_to_last_nonblank_char_loop buf fuel it e).2 ∧
          isblank (charAt buf
            ((osup_advance_to_last_nonblank_char_loop buf fuel it e).2 - 1)) = false)) := by
  intro fuel
  induction fuel with
  | zero =>
    intro it e h he hinv
    have hc := charAt_of_length_le buf it (by omega)
    have hr : osup_advance_to_last_nonblank_char_loop buf 0 it e = (it, e) := rfl
    rw [hr]
    exact ⟨le_refl _, by rw [hc]; decide, fun j h1 h2 => by omega, le_refl _, he, hinv,
      Or.inl rfl⟩
  | succ n ih =>
    intro it e h he hinv
    by_cases ht : osup_is_line_terminator (charAt buf it) = true
    · have hr : osup_advance_to_last_nonblank_char_loop buf (n + 1) it e = (it, e) := by
        simp [osup_advance_to_last_nonblank_char_loop, ht]
      rw [hr]
      exact ⟨le_refl _, ht, fun j h1 h2 => by omega, le_refl _, he, hinv, Or.inl rfl⟩
    · have ht' : osup_is_line_terminator (charAt buf it) = false := by simpa using ht
      by_cases hb : isblank (charAt buf it) = true
      · have hr : osup_advance_to_last_nonblank_char_loop buf (n + 1) it e
            = osup_advance_to_last_nonblank_char_loop buf n (it + 1) e := by
          simp [osup_advance_to_last_nonblank_char_loop, ht', hb]
        rw [hr]
        have hinv' : ∀ j, e ≤ j → j < it + 1 → isblank (charAt buf j) = true := by
          intro j h1 h2
          by_cases hj : j = it
          · subst hj; exact hb
          · exact hinv j h1 (by omega)
        obtain ⟨a1, a2, a3, a4, a5, a6, a7⟩ := ih (it + 1) e (by omega) (by omega) hinv'
        refine ⟨by omega, a2, fun j h1 h2 => ?_, a4, a5, a6, ?_⟩
        · by_cases hj : j = it
          · subst hj; exact ht'
          · exact a3 j (by omega) h2
        · rcases a7 with a7 | ⟨a7, a8⟩
          · exact Or.inl a7
          · exact Or.inr ⟨by omega, a8⟩
      · have hb' : isblank (charAt buf it) = false := by simpa using hb
        have hr : osup_advance_to_last_nonblank_char_loop buf (n + 1) it e
            = osup_advance_to_last_nonblank_char_loop buf n (it + 1) (it + 1) := by
          simp [osup_advance_to_last_nonblank_char_loop, ht', hb']
        rw [hr]
        obtain ⟨a1, a2, a3, a4, a5, a6, a7⟩ :=
          ih (it + 1) (it + 1) (by omega) (le_refl _) (fun j h1 h2 => by omega)
        refine ⟨by omega, a2, fun j h1 h2 => ?_, by omega, a5, a6, Or.inr ?_⟩
        · by_cases hj : j = it
          · subst hj; exact ht'
          · exact a3 j (by omega) h2
        · rcases a7 with a7 | ⟨a7, a8⟩
          · rw [a7]; exact ⟨by omega, by simpa using hb'⟩
          · exact ⟨by omega, a8⟩

/-- `osup_advance_to_last_nonblank_char` right-trims: it returns the position
`p` of the first line terminator at or after `line` and a value end `e` with
`line ≤ e ≤ p`, only blanks in `[e, p)`, and a non-blank just before `e`
unless `e = line`. -/
theorem last_nonblank_spec (buf : Buf) (line : Nat) :
    line ≤ (osup_advance_to_last_nonblank_char buf line).2 ∧
    (osup_advance_to_last_nonblank_char buf line).2
      ≤ (osup_advance_to_last_nonblank_char buf line).1 ∧
    osup_is_line_terminator
      (charAt buf (osup_advance_to_last_nonblank_char buf line).1) = true ∧
    (∀ j, line ≤ j → j < (osup_advance_to_last_nonblank_char buf line).1 →
      osup_is_line_terminator (charAt buf j) = false) ∧
    (∀ j, (osup_advance_to_last_nonblank_char buf line).2 ≤ j →
      j < (osup_advance_to_last_nonblank_char buf line).1 →
      isblank (charAt buf j) = true) ∧
    ((osup_advance_to_last_nonblank_char buf line).2 = line ∨
      (line < (osup_advance_to_last_nonblank_char buf line).2 ∧
        isblank (charAt buf ((osup_advance_to_last_nonblank_char buf line).2 - 1)) = false)) := by
  obtain ⟨a1, a2, a3, a4, a5, a6, a7⟩ :=
    last_nonblank_loop_spec buf (buf.length - line) line line (le_refl _) (le_refl _)
      (fun j h1 h2 => by omega)
  exact ⟨a4, a5, a2, a3, a6, a7⟩

/-- The character at the value end returned by
`osup_advance_to_last_nonblank_char` is a blank or a line terminator. -/
theorem last_nonblank_end_char (buf : Buf) (line : Nat) :
    isblank (charAt buf (osup_advance_to_last_nonblank_char buf line).2) = true ∨
    osup_is_line_terminator
      (charAt buf (osup_advance_to_last_nonblank_char buf line).2) = true := by
  obtain ⟨_, h2, h3, _, h5, _⟩ := last_nonblank_spec buf line
  by_cases h : (osup_advance_to_last_nonblank_char buf line).2
      = (osup_advance_to_last_nonblank_char buf line).1
  · right; rw [h]; exact h3
  · left; exact h5 _ (le_refl _) (by omega)

/-- C15 (the defect): whenever the remainder of a HitObjects line begins
with `"`, the filename step of `osup_bm_parse_hit_objects_line` fails, for
every environment and buffer: it tests the character AT `filenameEnd`, which
is a blank or a line terminator and never the closing quote.  An unquoted
remainder is copied as is from the right-trimmed range. -/
theorem C15_quoted_filename_always_fails (env : Env) (buf : Buf) (line : Nat) :
    (charAt buf line = '"' → (hitSampleFilename env buf line).value = none) ∧
    (charAt buf line ≠ '"' →
      hitSampleFilename env buf line =
        { value := env.osup_strdup buf line (osup_advance_to_last_nonblank_char buf line).2,
          line := (osup_advance_to_last_nonblank_char buf line).1 }) := by
  constructor
  · intro hq
    have hne : charAt buf (osup_advance_to_last_nonblank_char buf line).2 ≠ '"' := by
      intro h
      rcases last_nonblank_end_char buf line with hb | ht
      · rw [h] at hb; exact absurd hb (by decide)
      · rw [h] at ht; exact absurd ht (by decide)
    simp [hitSampleFilename, hq, hne]
  · intro hq
    simp [hitSampleFilename, hq]

/-- C15 witness: the circle row `256,192,350,1,0,0:0:0:0:"hit.wav"` is
rejected, while the same row with the unquoted, blank-padded filename
`hit.wav` is accepted with the right-trimmed name. -/
theorem C15_quoted_filename_always_fails_witness :
    (hitSampleFilename specEnv "256,192,350,1,0,0:0:0:0:\"hit.wav\"\n".toList 24).value = none ∧
    (osup_bm_parse_hit_objects_line specEnv
      "256,192,350,1,0,0:0:0:0:\"hit.wav\"\n".toList 0).value = none ∧
    ((osup_bm_parse_hit_objects_line specEnv
      "256,192,350,1,0,0:0:0:0:hit.wav \t\n".toList 0).value.map
        (fun h => h.hitSample.filename)) = some "hit.wav".toList :=
  ⟨(C15_quoted_filename_always_fails specEnv
      "256,192,350,1,0,0:0:0:0:\"hit.wav\"\n".toList 24).1 (by decide),
   by decide, by decide⟩

/-! ## Decimal text and the Colours section -/

theorem lt_length_of_charAt_ne_NUL (buf : Buf) (pos : Nat) (h : charAt buf pos ≠ NUL) :
    pos < buf.length := by
  by_contra hlt
  exact h (charAt_of_length_le buf pos (by omega))

theorem isdigit_ne_NUL (c : Char) (h : isdigit c = true) : c ≠ NUL := by
  intro hc; subst hc; exact absurd h (by decide)

/-- The digit loop of the `Combo` branch over a run of digits `ds` that is
followed by a character that is not a digit. -/
theorem comboDigits_segment (buf : Buf) :
    ∀ (ds : List Char) (fuel p acc : Nat), startsWith buf p ds → ds.all isdigit = true →
      isdigit (charAt buf (p + ds.length)) = false → buf.length - p ≤ fuel →
      comboDigits buf fuel p acc =
        (ds.foldl (fun a c => (a * 10 + (c.toNat - '0'.toNat)) % 2 ^ 64) acc,
          p + ds.length) := by
  intro ds
  induction ds with
  | nil =>
    intro fuel p acc _ _ hn _
    cases fuel with
    | zero => rfl
    | succ n =>
      have hn' : isdigit (charAt buf p) = false := by simpa using hn
      simp [comboDigits, hn']
  | cons d ds ih =>
    intro fuel p acc hs hd hn hf
    rw [startsWith_cons] at hs
    simp only [List.all_cons, Bool.and_eq_true] at hd
    have hdig : isdigit (charAt buf p) = true := by rw [hs.1]; exact hd.1
    have hlt := lt_length_of_charAt_ne_NUL buf p (isdigit_ne_NUL _ hdig)
    cases fuel with
    | zero => omega
    | succ n =>
      have hn' : isdigit (charAt buf (p + 1 + ds.length)) = false := by
        rw [show p + 1 + ds.length = p + (d :: ds).length by simp; omega]; exact hn
      have := ih n (p + 1) ((acc * 10 + (d.toNat - '0'.toNat)) % 2 ^ 64) hs.2 hd.2 hn'
        (by omega)
      simp only [comboDigits, hdig, hd.1, if_true, hs.1, this, List.foldl_cons, List.length_cons]
      congr 1
      omega

/-- While every prefix value stays below `2 ^ 64` the accumulator holds the
mathematical value of the digit string. -/
theorem digitsValue64_eq (ds : List Char) (h : digitsValue ds < 2 ^ 64) :
    digitsValue64 ds = digitsValue ds := by
  unfold digitsValue64 digitsValue
  induction ds using List.reverseRecOn with
  | nil => rfl
  | append_singleton ds d ih =>
    unfold digitsValue at h
    simp only [List.foldl_append, List.foldl_cons, List.foldl_nil] at h ⊢
    have hlt : List.foldl (fun acc c => acc * 10 + (c.toNat - '0'.toNat)) 0 ds < 2 ^ 64 := by
      omega
    rw [ih hlt]
    exact Nat.mod_eq_of_lt h

theorem digitChar_toNat (d : Nat) (h : d < 10) : (digitChar d).toNat - '0'.toNat = d := by
  interval_cases d <;> rfl

theorem digitChar_isdigit (d : Nat) : isdigit (digitChar d) = true := by
  unfold digitChar
  split <;> rfl

theorem showNatAux_foldl :
    ∀ (fuel n : Nat) (acc : List Char), n < fuel →
      (showNatAux fuel n acc).foldl (fun a c => a * 10 + (c.toNat - '0'.toNat)) 0
        = acc.foldl (fun a c => a * 10 + (c.toNat - '0'.toNat)) n := by
  intro fuel
  induction fuel with
  | zero => intro n acc h; omega
  | succ f ih =>
    intro n acc h
    unfold showNatAux
    by_cases hn : n < 10
    · simp only [hn, if_true, List.foldl_cons, Nat.zero_mul, Nat.zero_add]
      rw [digitChar_toNat n hn]
    · simp only [hn, if_false]
      rw [ih (n / 10) _ (by omega)]
      simp only [List.foldl_cons]
      rw [digitChar_toNat (n % 10) (Nat.mod_lt _ (by decide))]
      congr 1
      omega

theorem showNatAux_all :
    ∀ (fuel n : Nat) (acc : List Char), acc.all isdigit = true →
      (showNatAux fuel n acc).all isdigit = true := by
  intro fuel
  induction fuel with
  | zero => intro n acc h; exact h
  | succ f ih =>
    intro n acc h
    unfold showNatAux
    by_cases hn : n < 10
    · simp only [hn, if_true, List.all_cons, digitChar_isdigit, h, Bool.and_self]
    · simp only [hn, if_false]
      exact ih _ _ (by simp only [List.all_cons, digitChar_isdigit, h, Bool.and_self])

theorem showNatAux_ne_nil :
    ∀ (fuel n : Nat) (acc : List Char), 0 < fuel → showNatAux fuel n acc ≠ [] := by
  intro fuel
  induction fuel with
  | zero => intro n acc h; omega
  | succ f ih =>
    intro n acc _
    unfold showNatAux
    by_cases hn : n < 10
    · simp [hn]
    · simp only [hn, if_false]
      cases f with
      | zero => simp [showNatAux]
      | succ g => exact ih _ _ (by omega)

theorem digitsValue_showNat (n : Nat) : digitsValue (showNat n) = n := by
  unfold digitsValue showNat
  rw [showNatAux_foldl (n + 1) n [] (by omega)]
  rfl

theorem showNat_all (n : Nat) : (showNat n).all isdigit = true :=
  showNatAux_all _ _ _ rfl

theorem showNat_ne_nil (n : Nat) : showNat n ≠ [] :=
  showNatAux_ne_nil _ _ _ (by omega)

theorem isNumeral_showNat (n : Nat) : isNumeral (showNat n) = true := by
  unfold isNumeral
  rw [showNat_all]
  cases h : showNat n with
  | nil => exact absurd h (showNat_ne_nil n)
  | cons a as => rfl

theorem startsWith_append (buf : Buf) :
    ∀ (a b : List Char) (p : Nat),
      startsWith buf p (a ++ b) ↔ startsWith buf p a ∧ startsWith buf (p + a.length) b := by
  intro a
  induction a with
  | nil => intro b p; simp [startsWith_nil]
  | cons x xs ih =>
    intro b p
    rw [List.cons_append, startsWith_cons, startsWith_cons, ih, and_assoc]
    rw [show p + 1 + xs.length = p + (x :: xs).length by simp; omega]

theorem check_prefix_of_startsWith (buf : Buf) (s : List Char) (pos : Nat)
    (h : startsWith buf pos s) :
    osup_check_prefix_and_advance buf s pos = some (pos + s.length) :=
  (check_prefix_eq_some_iff buf s pos _).2 ⟨h, rfl⟩

theorem check_prefix_of_conflict (buf : Buf) (s t : List Char) (pos : Nat)
    (h : startsWith buf pos s) (hc : conflict s t = true) :
    osup_check_prefix_and_advance buf t pos = none :=
  (check_prefix_eq_none_iff buf t pos).2 (not_startsWith_of_conflict buf s t pos hc h)

/-- The `Combo` branch of `osup_bm_parse_colors_line` on a line that starts
with `Combo`, a non-empty digit string `ds` and ` : `: the index tested is the
value of `ds` as accumulated in `size_t`; an index in range stores whatever
`osup_parse_rgb` produced and succeeds. -/
theorem colors_line_combo (env : Env) (buf : Buf) (map : osup_bm) (line : Nat)
    (ds : List Char) (hs : startsWith buf line ("Combo".toList ++ (ds ++ " : ".toList)))
    (hne : ds ≠ []) (hd : ds.all isdigit = true) :
    osup_bm_parse_colors_line env buf map line =
      if digitsValue64 ds > map.colors.combos.length || digitsValue64 ds == 0 then
        { ok := false, map := map, line := line + 5 + ds.length }
      else
        { ok := true,
          map := { map with colors := { map.colors with
            combos := map.colors.combos.set (digitsValue64 ds - 1)
              (env.osup_parse_rgb buf (line + 5 + ds.length + 3)
                (osup_advance_to_last_nonblank_char buf (line + 5 + ds.length + 3)).2) } },
          line := (osup_advance_to_last_nonblank_char buf (line + 5 + ds.length + 3)).1 } := by
  rw [startsWith_append, startsWith_append] at hs
  obtain ⟨h1, h2, h3⟩ := hs
  have hlen : "Combo".toList.length = 5 := rfl
  rw [hlen] at h2 h3
  have c1 := check_prefix_of_conflict buf _ "SliderTrackOverride : ".toList line h1 (by decide)
  have c2 := check_prefix_of_conflict buf _ "SliderBorder : ".toList line h1 (by decide)
  have c3 := check_prefix_of_startsWith buf _ line h1
  have c4 := check_prefix_of_startsWith buf _ _ h3
  rw [hlen] at c3
  have hsp : charAt buf (line + 5 + ds.length) = ' ' := by
    simpa using h3 0 (by decide)
  have hfirst : isdigit (charAt buf (line + 5)) = true := by
    cases ds with
    | nil => exact absurd rfl hne
    | cons d ds' =>
      rw [startsWith_cons] at h2
      simp only [List.all_cons, Bool.and_eq_true] at hd
      rw [h2.1]; exact hd.1
  have hcd := comboDigits_segment buf ds (buf.length - (line + 5)) (line + 5) 0 h2 hd
    (by rw [hsp]; decide) (le_refl _)
  have hlen3 : " : ".toList.length = 3 := rfl
  rw [hlen3] at c4
  simp only [osup_bm_parse_colors_line, OSUP_BM_KV_PARSE_RGB, kvParse, c1, c2, c3, hfirst,
    Bool.not_true, Bool.false_eq_true, if_false, hcd, c4, OSUP_BM_KV_GET_VALUE]
  rfl

theorem colors_line_override (env : Env) (buf : Buf) (map : osup_bm) (line : Nat) :
    (startsWith buf line "SliderTrackOverride : ".toList →
      osup_bm_parse_colors_line env buf map line =
        match env.osup_parse_rgb buf (line + 22)
            (osup_advance_to_last_nonblank_char buf (line + 22)).2 with
        | some a =>
          { ok := true,
            map := { map with colors := { map.colors with sliderTrackOverride := a } },
            line := (osup_advance_to_last_nonblank_char buf (line + 22)).1 }
        | none =>
          { ok := false, map := map,
            line := (osup_advance_to_last_nonblank_char buf (line + 22)).1 }) ∧
    (startsWith buf line "SliderBorder : ".toList →
      osup_bm_parse_colors_line env buf map line =
        match env.osup_parse_rgb buf (line + 15)
            (osup_advance_to_last_nonblank_char buf (line + 15)).2 with
        | some a =>
          { ok := true,
            map := { map with colors := { map.colors with sliderBorder := a } },
            line := (osup_advance_to_last_nonblank_char buf (line + 15)).1 }
        | none =>
          { ok := false, map := map,
            line := (osup_advance_to_last_nonblank_char buf (line + 15)).1 }) := by
  constructor
  · intro h
    have c1 := check_prefix_of_startsWith buf _ line h
    rw [show "SliderTrackOverride : ".toList.length = 22 from rfl] at c1
    simp only [osup_bm_parse_colors_line, OSUP_BM_KV_PARSE_RGB, kvParse, c1,
      OSUP_BM_KV_GET_VALUE]
    cases env.osup_parse_rgb buf (line + 22)
      (osup_advance_to_last_nonblank_char buf (line + 22)).2 <;> rfl
  · intro h
    have c1 := check_prefix_of_conflict buf _ "SliderTrackOverride : ".toList line h (by decide)
    have c2 := check_prefix_of_startsWith buf _ line h
    rw [show "SliderBorder : ".toList.length = 15 from rfl] at c2
    simp only [osup_bm_parse_colors_line, OSUP_BM_KV_PARSE_RGB, kvParse, c1, c2,
      OSUP_BM_KV_GET_VALUE]
    cases env.osup_parse_rgb buf (line + 15)
      (osup_advance_to_last_nonblank_char buf (line + 15)).2 <;> rfl

/-- C16: for an index `k` with `1 ≤ k ≤ N` (`N` the number of combo slots, a
`size_t` value) and a value that the RGB primitive decodes to `rgb`, the
Colours line `Combo<k> : <value>` is accepted by `osup_bm_parse_colors_line`,
which sets combo slot `k` (array element `k - 1`) to `rgb` and changes nothing
else: every other slot, both override colours and the rest of the result
model are as before. -/
theorem C16_combo_sets_one_slot (env : Env) (buf : Buf) (map : osup_bm) (line k : Nat)
    (rgb : osup_rgb) (hk1 : 1 ≤ k) (hk2 : k ≤ map.colors.combos.length)
    (hN : map.colors.combos.length < 2 ^ 64)
    (hs : startsWith buf line ("Combo".toList ++ (showNat k ++ " : ".toList)))
    (hv : env.osup_parse_rgb buf (line + 5 + (showNat k).length + 3)
      (osup_advance_to_last_nonblank_char buf (line + 5 + (showNat k).length + 3)).2
        = some rgb) :
    (osup_bm_parse_colors_line env buf map line).ok = true ∧
    (osup_bm_parse_colors_line env buf map line).map =
      { map with colors := { map.colors with
          combos := map.colors.combos.set (k - 1) (some rgb) } } ∧
    (osup_bm_parse_colors_line env buf map line).map.colors.combos[k - 1]? = some (some rgb) ∧
    (∀ j, j ≠ k - 1 →
      (osup_bm_parse_colors_line env buf map line).map.colors.combos[j]?
        = map.colors.combos[j]?) ∧
    (osup_bm_parse_colors_line env buf map line).map.colors.sliderTrackOverride
      = map.colors.sliderTrackOverride ∧
    (osup_bm_parse_colors_line env buf map line).map.colors.sliderBorder
      = map.colors.sliderBorder := by
  have hval : digitsValue64 (showNat k) = k := by
    rw [digitsValue64_eq _ (by rw [digitsValue_showNat]; omega), digitsValue_showNat]
  rw [colors_line_combo env buf map line (showNat k) hs (showNat_ne_nil k) (showNat_all k),
    hval, hv]
  have hc : (decide (k > map.colors.combos.length) || k == 0) = false := by
    simp only [Bool.or_eq_false_iff, decide_eq_false_iff_not, beq_eq_false_iff_ne]
    omega
  simp only [hc, Bool.false_eq_true, if_false]
  refine ⟨trivial, trivial, ?_, fun j hj => ?_, trivial, trivial⟩
  · simp only [List.getElem?_set_self (show k - 1 < map.colors.combos.length by omega)]
  · simp only [List.getElem?_set_ne (Ne.symm hj)]

/-- C16 witness: with eight combo slots, decoding `Combo1 : 255,0,0` and then
`Combo2 : 0,255,0` leaves slot 1 = (255,0,0) and slot 2 = (0,255,0). -/
theorem C16_combo_sets_one_slot_witness :
    (osup_bm_parse_colors_line specEnv "Combo1 : 255,0,0\n".toList
      { colors := { combos := List.replicate 8 none } } 0).map.colors.combos[0]?
      = some (some { r := 255, g := 0, b := 0 }) ∧
    (osup_bm_parse_colors_line specEnv "Combo2 : 0,255,0\n".toList
      (osup_bm_parse_colors_line specEnv "Combo1 : 255,0,0\n".toList
        { colors := { combos := List.replicate 8 none } } 0).map 0).map.colors.combos
      = [some { r := 255, g := 0, b := 0 }, some { r := 0, g := 255, b := 0 },
         none, none, none, none, none, none] :=
  ⟨(C16_combo_sets_one_slot specEnv "Combo1 : 255,0,0\n".toList
      { colors := { combos := List.replicate 8 none } } 0 1 { r := 255, g := 0, b := 0 }
      (by decide) (by decide) (by decide)
      ((check_prefix_eq_some_iff _ _ _ _).1
        (by decide : osup_check_prefix_and_advance "Combo1 : 255,0,0\n".toList
          ("Combo".toList ++ (showNat 1 ++ " : ".toList)) 0 = some 9)).1
      (by decide)).2.2.1,
   by decide⟩

/-- C17 (evaluation at the failing input): the digit string of
`Combo18446744073709551617 : 255,0,0` denotes `2 ^ 64 + 1`, which exceeds every
slot count `N < 2 ^ 64`, yet `osup_bm_parse_colors_line` accepts the line, in
every environment, and writes combo slot 1 with what the RGB primitive made
of `255,0,0`, because the `size_t` accumulator wraps to 1. -/
theorem C17_combo_index_wraps (env : Env) (map : osup_bm)
    (h1 : 1 ≤ map.colors.combos.length) (hN : map.colors.combos.length < 2 ^ 64) :
    digitsValue "18446744073709551617".toList = 2 ^ 64 + 1 ∧
    map.colors.combos.length < digitsValue "18446744073709551617".toList ∧
    (osup_bm_parse_colors_line env "Combo18446744073709551617 : 255,0,0\n".toList
      map 0).ok = true ∧
    (osup_bm_parse_colors_line env "Combo18446744073709551617 : 255,0,0\n".toList
      map 0).map.colors.combos
      = map.colors.combos.set 0
          (env.osup_parse_rgb "Combo18446744073709551617 : 255,0,0\n".toList 28 35) := by
  have hv : digitsValue "18446744073709551617".toList = 2 ^ 64 + 1 := by decide
  have hs : startsWith "Combo18446744073709551617 : 255,0,0\n".toList 0
      ("Combo".toList ++ ("18446744073709551617".toList ++ " : ".toList)) :=
    ((check_prefix_eq_some_iff _ _ _ _).1
      (by decide : osup_check_prefix_and_advance "Combo18446744073709551617 : 255,0,0\n".toList
        ("Combo".toList ++ ("18446744073709551617".toList ++ " : ".toList)) 0 = some 28)).1
  have h64 : digitsValue64 "18446744073709551617".toList = 1 := by decide
  have hc : (decide (1 > map.colors.combos.length) || (1 : Nat) == 0) = false := by
    simp only [Bool.or_eq_false_iff, decide_eq_false_iff_not, beq_eq_false_iff_ne]
    omega
  have hpos : 0 + 5 + "18446744073709551617".toList.length + 3 = 28 := rfl
  have hend : (osup_advance_to_last_nonblank_char
      "Combo18446744073709551617 : 255,0,0\n".toList 28).2 = 35 := by decide
  rw [colors_line_combo env _ map 0 _ hs (by decide) (by decide), h64, hpos, hend]
  simp only [hc, Bool.false_eq_true, if_false]
  exact ⟨hv, by rw [hv]; omega, trivial, trivial⟩

/-- C17 witness: with eight combo slots the line
`Combo18446744073709551617 : 255,0,0` is accepted and overwrites slot 1. -/
theorem C17_combo_index_wraps_witness :
    (osup_bm_parse_colors_line specEnv "Combo18446744073709551617 : 255,0,0\n".toList
      { colors := { combos := List.replicate 8 none } } 0).ok = true ∧
    (osup_bm_parse_colors_line specEnv "Combo18446744073709551617 : 255,0,0\n".toList
      { colors := { combos := List.replicate 8 none } } 0).map.colors.combos
      = [some { r := 255, g := 0, b := 0 }, none, none, none, none, none, none, none] :=
  ⟨(C17_combo_index_wraps specEnv { colors := { combos := List.replicate 8 none } }
      (by decide) (by decide)).2.2.1,
   by
    rw [(C17_combo_index_wraps specEnv { colors := { combos := List.replicate 8 none } }
      (by decide) (by decide)).2.2.2]
    decide⟩

/-- C18 (the defect): on a line `Combo<digits> : <value>` with an index in
range, `osup_bm_parse_colors_line` returns success even when the RGB primitive
rejects the value, and overwrites the slot with the indeterminate contents of
its local variable; on the keys `SliderTrackOverride : ` and `SliderBorder : `
the same rejection fails the line and leaves the result model unchanged. -/
theorem C18_combo_ignores_rgb_failure (env : Env) (buf : Buf) (map : osup_bm) (line : Nat)
    (ds : List Char) (hs : startsWith buf line ("Combo".toList ++ (ds ++ " : ".toList)))
    (hne : ds ≠ []) (hd : ds.all isdigit = true)
    (hk1 : 1 ≤ digitsValue64 ds) (hk2 : digitsValue64 ds ≤ map.colors.combos.length)
    (hv : env.osup_parse_rgb buf (line + 5 + ds.length + 3)
      (osup_advance_to_last_nonblank_char buf (line + 5 + ds.length + 3)).2 = none) :
    ((osup_bm_parse_colors_line env buf map line).ok = true ∧
      (osup_bm_parse_colors_line env buf map line).map.colors.combos
        = map.colors.combos.set (digitsValue64 ds - 1) none) ∧
    (∀ buf2 line2, startsWith buf2 line2 "SliderTrackOverride : ".toList →
      env.osup_parse_rgb buf2 (line2 + 22)
        (osup_advance_to_last_nonblank_char buf2 (line2 + 22)).2 = none →
      (osup_bm_parse_colors_line env buf2 map line2).ok = false ∧
      (osup_bm_parse_colors_line env buf2 map line2).map = map) ∧
    (∀ buf2 line2, startsWith buf2 line2 "SliderBorder : ".toList →
      env.osup_parse_rgb buf2 (line2 + 15)
        (osup_advance_to_last_nonblank_char buf2 (line2 + 15)).2 = none →
      (osup_bm_parse_colors_line env buf2 map line2).ok = false ∧
      (osup_bm_parse_colors_line env buf2 map line2).map = map) := by
  refine ⟨?_, fun buf2 line2 h2 hv2 => ?_, fun buf2 line2 h2 hv2 => ?_⟩
  · rw [colors_line_combo env buf map line ds hs hne hd, hv]
    have hc : (decide (digitsValue64 ds > map.colors.combos.length)
        || digitsValue64 ds == 0) = false := by
      simp only [Bool.or_eq_false_iff, decide_eq_false_iff_not, beq_eq_false_iff_ne]
      omega
    simp only [hc, Bool.false_eq_true, if_false]
    exact ⟨trivial, trivial⟩
  · rw [(colors_line_override env buf2 map line2).1 h2, hv2]
    exact ⟨rfl, rfl⟩
  · rw [(colors_line_override env buf2 map line2).2 h2, hv2]
    exact ⟨rfl, rfl⟩

/-- C18 witness: with eight combo slots, `Combo1 : red` is accepted and
leaves slot 1 indeterminate, while `SliderBorder : red` fails. -/
theorem C18_combo_ignores_rgb_failure_witness :
    ((osup_bm_parse_colors_line specEnv "Combo1 : red\n".toList
        { colors := { combos := List.replicate 8 (some { r := 1, g := 2, b := 3 }) } } 0).ok
        = true ∧
      (osup_bm_parse_colors_line specEnv "Combo1 : red\n".toList
        { colors := { combos := List.replicate 8 (some { r := 1, g := 2, b := 3 }) } }
        0).map.colors.combos
        = (List.replicate 8 (some { r := 1, g := 2, b := 3 })).set
            (digitsValue64 "1".toList - 1) none) ∧
    (osup_bm_parse_colors_line specEnv "SliderBorder : red\n".toList
      { colors := { combos := List.replicate 8 (some { r := 1, g := 2, b := 3 }) } } 0).ok
      = false :=
  ⟨(C18_combo_ignores_rgb_failure specEnv "Combo1 : red\n".toList
      { colors := { combos := List.replicate 8 (some { r := 1, g := 2, b := 3 }) } } 0
      "1".toList
      ((check_prefix_eq_some_iff _ _ _ _).1
        (by decide : osup_check_prefix_and_advance "Combo1 : red\n".toList
          ("Combo".toList ++ ("1".toList ++ " : ".toList)) 0 = some 9)).1
      (by decide) (by decide) (by decide) (by decide) (by decide)).1,
   by decide⟩

/-! ## Editor and Metadata lists -/

theorem bookmarksLoop_spec (env : Env) (buf : Buf) (valueEnd : Nat) :
    ∀ (fuel : Nat) (elementBegin : Option Nat) (scanFrom : Nat) (elements : List (Option Int)),
      (bookmarksLoop env buf valueEnd fuel elementBegin scanFrom elements).2.length
        = elements.length ∧
      ∀ j, j ≠ 0 →
        (bookmarksLoop env buf valueEnd fuel elementBegin scanFrom elements).2[j]?
          = elements[j]? := by
  intro fuel
  induction fuel with
  | zero => intro eb sf el; exact ⟨rfl, fun j _ => rfl⟩
  | succ n ih =>
    intro eb sf el
    unfold bookmarksLoop
    cases hsp : env.osup_split_string buf ',' eb sf valueEnd with
    | none => exact ⟨rfl, fun j _ => rfl⟩
    | some t =>
      obtain ⟨b, e⟩ := t
      cases hp : env.osup_parse_int buf b e with
      | none => simp [hp]
      | some x =>
        simp only [hp]
        show (bookmarksLoop env buf valueEnd n (some b) (e + 1) (el.set 0 (some x))).2.length
            = el.length ∧
          ∀ j, j ≠ 0 →
            (bookmarksLoop env buf valueEnd n (some b) (e + 1) (el.set 0 (some x))).2[j]?
              = el[j]?
        obtain ⟨h1, h2⟩ := ih (some b) (e + 1) (el.set 0 (some x))
        refine ⟨by rw [h1, List.length_set], fun j hj => ?_⟩
        rw [h2 j hj, List.getElem?_set_ne (Ne.symm hj)]

/-- C19 (the defect): on every line that begins with `Bookmarks: `, whatever
the environment, `osup_bm_parse_editor_line` leaves every bookmark element
other than the first unwritten: the list it stores has one element per
comma-separated field, and each element of index 1 or more is still the
uninitialised slot. -/
theorem C19_bookmarks_only_first_slot_written (env : Env) (buf : Buf) (map : osup_bm)
    (line : Nat) (h : startsWith buf line "Bookmarks: ".toList) (j : Nat) (hj : 1 ≤ j)
    (hlt : j < (osup_bm_parse_editor_line env buf map line).map.editor.bookmarks.length) :
    (osup_bm_parse_editor_line env buf map line).map.editor.bookmarks[j]? = some none := by
  have c1 := check_prefix_of_conflict buf _ "DistanceSpacing: ".toList line h (by decide)
  have c2 := check_prefix_of_conflict buf _ "BeatDivisor: ".toList line h (by decide)
  have c3 := check_prefix_of_conflict buf _ "TimelineZoom: ".toList line h (by decide)
  have c4 := check_prefix_of_conflict buf _ "GridSize: ".toList line h (by decide)
  have c5 := check_prefix_of_startsWith buf _ line h
  simp only [osup_bm_parse_editor_line, OSUP_BM_KV_PARSE_DECIMAL, OSUP_BM_KV_PARSE_INT, kvParse,
    c1, c2, c3, c4, c5] at hlt ⊢
  obtain ⟨h1, h2⟩ := bookmarksLoop_spec env buf
    (OSUP_BM_KV_GET_VALUE buf (line + "Bookmarks: ".toList.length)).valueEnd (buf.length + 2)
    none (OSUP_BM_KV_GET_VALUE buf (line + "Bookmarks: ".toList.length)).valueBegin
    (List.replicate
      (countDelims buf ','
        (OSUP_BM_KV_GET_VALUE buf (line + "Bookmarks: ".toList.length)).valueEnd
        ((OSUP_BM_KV_GET_VALUE buf (line + "Bookmarks: ".toList.length)).valueEnd -
          (OSUP_BM_KV_GET_VALUE buf (line + "Bookmarks: ".toList.length)).valueBegin)
        (OSUP_BM_KV_GET_VALUE buf (line + "Bookmarks: ".toList.length)).valueBegin 1) none)
  rw [h1] at hlt
  rw [h2 j (by omega)]
  rw [List.getElem?_eq_getElem hlt]
  simp

/-- C19 witness: `Bookmarks: 100,200,300` is accepted with a list of count 3
whose first element is the last value 300 and whose other elements were never
written, not `[100, 200, 300]`. -/
theorem C19_bookmarks_only_first_slot_written_witness :
    (osup_bm_parse_editor_line specEnv "Bookmarks: 100,200,300\n".toList {} 0).ok = true ∧
    (osup_bm_parse_editor_line specEnv
      "Bookmarks: 100,200,300\n".toList {} 0).map.editor.bookmarks
      = [some 300, none, none] ∧
    (osup_bm_parse_editor_line specEnv
      "Bookmarks: 100,200,300\n".toList {} 0).map.editor.bookmarks[1]? = some none :=
  ⟨by decide, by decide,
   C19_bookmarks_only_first_slot_written specEnv "Bookmarks: 100,200,300\n".toList {} 0
     ((check_prefix_eq_some_iff _ _ _ _).1
        (by decide : osup_check_prefix_and_advance "Bookmarks: 100,200,300\n".toList
          "Bookmarks: ".toList 0 = some 11)).1
     1 (by decide) (by decide)⟩

theorem charAt_eq_getElem (buf : Buf) (p : Nat) (h : p < buf.length) :
    charAt buf p = buf[p] := by
  simp [charAt, List.getD_eq_getElem?_getD, List.getElem?_eq_getElem h]

/-- The characters of a range that holds the text `s`. -/
theorem slice_segment (buf : Buf) :
    ∀ (s : List Char) (p : Nat), startsWith buf p s → (∀ c ∈ s, c ≠ NUL) →
      slice buf p (p + s.length) = s := by
  intro s
  induction s with
  | nil => intro p _ _; simp [slice]
  | cons c cs ih =>
    intro p hs hn
    rw [startsWith_cons] at hs
    have hlt : p < buf.length :=
      lt_length_of_charAt_ne_NUL buf p (by rw [hs.1]; exact hn c (List.mem_cons_self _ _))
    have ih' := ih (p + 1) hs.2 (fun x hx => hn x (List.mem_cons_of_mem _ hx))
    unfold slice at ih' ⊢
    rw [List.drop_eq_getElem_cons hlt, ← charAt_eq_getElem buf p hlt, hs.1]
    rw [show p + (c :: cs).length - p = (p + 1 + cs.length - (p + 1)) + 1 by simp]
    rw [List.take_succ_cons, ih']

theorem segment_first_terminator (buf : Buf) (s : List Char) (p q : Nat)
    (hs : startsWith buf p s) (hn : ∀ c ∈ s, osup_is_line_terminator c = false)
    (hq1 : p ≤ q) (hq2 : osup_is_line_terminator (charAt buf q) = true) :
    p + s.length ≤ q := by
  by_contra hlt
  have h := hs (q - p) (by omega)
  rw [show p + (q - p) = q by omega] at h
  rw [h] at hq2
  have := hn _ (List.get_mem s (q - p) (by omega))
  rw [this] at hq2
  exact Bool.noConfusion hq2

/-- Right-trimming a value `s` that ends in a non-blank character and is
followed by the line terminator removes nothing: both the terminator position
and the value end are just past `s`. -/
theorem last_nonblank_of_segment (buf : Buf) (s : List Char) (p : Nat) (c : Char)
    (hs : startsWith buf p s) (hn : ∀ x ∈ s, osup_is_line_terminator x = false)
    (hlast : s.getLast? = some c) (hc : isblank c = false)
    (ht : osup_is_line_terminator (charAt buf (p + s.length)) = true) :
    osup_advance_to_last_nonblank_char buf p = (p + s.length, p + s.length) := by
  obtain ⟨a1, a2, a3, a4, a5, a6⟩ := last_nonblank_spec buf p
  have hpos : 0 < s.length := by
    cases s with
    | nil => simp at hlast
    | cons x xs => simp
  have hp1 : (osup_advance_to_last_nonblank_char buf p).1 = p + s.length := by
    have h1 := segment_first_terminator buf s p _ hs hn (by omega) a3
    by_contra hne
    have := a4 (p + s.length) (by omega) (by omega)
    rw [this] at ht
    exact Bool.noConfusion ht
  have hlastc : charAt buf (p + (s.length - 1)) = c := by
    rw [hs (s.length - 1) (by omega)]
    rw [List.getLast?_eq_getElem?, List.getElem?_eq_getElem (by omega)] at hlast
    simpa using hlast
  have hp2 : (osup_advance_to_last_nonblank_char buf p).2 = p + s.length := by
    by_contra hne
    have := a5 (p + (s.length - 1)) (by omega) (by omega)
    rw [hlastc, hc] at this
    exact Bool.noConfusion this
  exact Prod.ext hp1 hp2

theorem splitTags_token (t : List Char) (h : ∀ c ∈ t, c ≠ ' ') : splitTags t = [t] := by
  induction t with
  | nil => rfl
  | cons c cs ih =>
    have hc : (c == ' ') = false := by simpa using h c (List.mem_cons_self _ _)
    simp only [splitTags, hc, Bool.false_eq_true, if_false,
      ih (fun x hx => h x (List.mem_cons_of_mem _ hx))]

theorem splitTags_append (t rest : List Char) (h : ∀ c ∈ t, c ≠ ' ') :
    splitTags (t ++ ' ' :: rest) = t :: splitTags rest := by
  induction t with
  | nil => simp [splitTags]
  | cons c cs ih =>
    have hc : (c == ' ') = false := by simpa using h c (List.mem_cons_self _ _)
    have ih' : splitTags (cs.append (' ' :: rest)) = cs :: splitTags rest :=
      ih (fun x hx => h x (List.mem_cons_of_mem _ hx))
    simp only [List.cons_append, splitTags, hc, Bool.false_eq_true, if_false, ih']

/-- Splitting the joined text at every space gives back the tokens. -/
theorem splitTags_joinTags :
    ∀ (ts : List (List Char)), ts ≠ [] → (∀ t ∈ ts, ∀ c ∈ t, c ≠ ' ') →
      splitTags (joinTags ts) = ts := by
  intro ts
  induction ts with
  | nil => intro h; exact absurd rfl h
  | cons t ts ih =>
    intro _ h
    cases ts with
    | nil => exact splitTags_token t (h t (List.mem_cons_self _ _))
    | cons u us =>
      simp only [joinTags]
      rw [splitTags_append t _ (h t (List.mem_cons_self _ _)),
        ih (by simp) (fun x hx => h x (List.mem_cons_of_mem _ hx))]

theorem mem_joinTags :
    ∀ (ts : List (List Char)) (c : Char), c ∈ joinTags ts → c = ' ' ∨ ∃ t ∈ ts, c ∈ t := by
  intro ts
  induction ts with
  | nil => intro c h; simp [joinTags] at h
  | cons t ts ih =>
    intro c h
    cases ts with
    | nil => exact Or.inr ⟨t, List.mem_cons_self _ _, h⟩
    | cons u us =>
      simp only [joinTags, List.mem_append, List.mem_cons] at h
      rcases h with h | h | h
      · exact Or.inr ⟨t, List.mem_cons_self _ _, h⟩
      · exact Or.inl h
      · rcases ih c h with h | ⟨x, hx, hc⟩
        · exact Or.inl h
        · exact Or.inr ⟨x, List.mem_cons_of_mem _ hx, hc⟩

theorem joinTags_getLast :
    ∀ (ts : List (List Char)) (c : Char), ts.getLast?.bind List.getLast? = some c →
      (joinTags ts).getLast? = some c := by
  intro ts
  induction ts with
  | nil => intro c h; simp at h
  | cons t ts ih =>
    intro c h
    cases ts with
    | nil => simpa [joinTags] using h
    | cons u us =>
      have h' : (u :: us).getLast?.bind List.getLast? = some c := by
        simpa [List.getLast?_cons_cons] using h
      have := ih c h'
      simp only [joinTags]
      have hne : joinTags (u :: us) ≠ [] := by
        intro hnil; rw [hnil] at this; simp at this
      rw [List.getLast?_append_of_ne_nil _ (by simp)]
      obtain ⟨x, xs, hx⟩ := List.exists_cons_of_ne_nil hne
      rw [hx] at this ⊢
      rw [List.getLast?_cons_cons]
      exact this

theorem cstr_of_no_NUL (s : List Char) (h : ∀ c ∈ s, c ≠ NUL) : cstr s = s := by
  unfold cstr
  rw [List.takeWhile_eq_self_iff]
  intro c hc
  simpa using h c hc

/-- C20 (amended): the `Tags:` line yields exactly one element per
space-separated piece of its value.  For pieces `ts` (free of spaces and line
terminators, the last one ending in a character that is not a blank) written
as `Tags:` immediately followed by the pieces separated by single spaces, with
a copying `osup_strdup` and a successful `malloc`,
`osup_bm_parse_metadata_line` succeeds and stores exactly the list `ts`, in
order.  So `Tags:t1 t2 ... tn` with non-empty tokens yields the `n` tokens,
and a space after the colon, being a separator, adds an empty first
element. -/
theorem C20_tags_one_element_per_piece (env : Env) (buf : Buf) (map : osup_bm) (line : Nat)
    (ts : List (List Char)) (c : Char) (hne : ts ≠ [])
    (htok : ∀ t ∈ ts, ∀ x ∈ t, x ≠ ' ' ∧ osup_is_line_terminator x = false)
    (hlast : ts.getLast?.bind List.getLast? = some c) (hc : isblank c = false)
    (hs : startsWith buf line ("Tags:".toList ++ joinTags ts))
    (ht : osup_is_line_terminator (charAt buf (line + 5 + (joinTags ts).length)) = true)
    (hdup : ∀ b e, env.osup_strdup buf b e = some (slice buf b e))
    (hm : env.malloc ts.length = true) :
    osup_bm_parse_metadata_line env buf map line =
      { ok := true,
        map := { map with metadata := { map.metadata with tags := ts } },
        line := line + 5 + (joinTags ts).length } := by
  rw [startsWith_append] at hs
  obtain ⟨h1, h2⟩ := hs
  rw [show "Tags:".toList.length = 5 from rfl] at h2
  have hterm : ∀ x ∈ joinTags ts, osup_is_line_terminator x = false := by
    intro x hx
    rcases mem_joinTags ts x hx with rfl | ⟨t, ht1, ht2⟩
    · decide
    · exact (htok t ht1 x ht2).2
  have hnul : ∀ x ∈ joinTags ts, x ≠ NUL := by
    intro x hx hnul
    have := hterm x hx
    rw [hnul] at this
    exact absurd this (by decide)
  have hadv := last_nonblank_of_segment buf (joinTags ts) (line + 5) c h2 hterm
    (joinTags_getLast ts c hlast) hc ht
  have hsl := slice_segment buf (joinTags ts) (line + 5) h2 hnul
  have hsplit := splitTags_joinTags ts hne (fun t ht1 x hx => (htok t ht1 x hx).1)
  have c1 := check_prefix_of_conflict buf _ "Title:".toList line h1 (by decide)
  have c2 := check_prefix_of_conflict buf _ "TitleUnicode:".toList line h1 (by decide)
  have c3 := check_prefix_of_conflict buf _ "Artist:".toList line h1 (by decide)
  have c4 := check_prefix_of_conflict buf _ "ArtistUnicode:".toList line h1 (by decide)
  have c5 := check_prefix_of_conflict buf _ "Creator:".toList line h1 (by decide)
  have c6 := check_prefix_of_conflict buf _ "Version:".toList line h1 (by decide)
  have c7 := check_prefix_of_conflict buf _ "Source:".toList line h1 (by decide)
  have c8 := check_prefix_of_conflict buf _ "BeatmapID:".toList line h1 (by decide)
  have c9 := check_prefix_of_conflict buf _ "BeatmapSetID:".toList line h1 (by decide)
  have c10 := check_prefix_of_startsWith buf _ line h1
  rw [show "Tags:".toList.length = 5 from rfl] at c10
  simp only [osup_bm_parse_metadata_line, OSUP_BM_KV_PARSE_STRING, OSUP_BM_KV_PARSE_INT,
    kvParse, c1, c2, c3, c4, c5, c6, c7, c8, c9, c10, OSUP_BM_KV_GET_VALUE, hadv, hdup, hsl,
    cstr_of_no_NUL _ hnul, hsplit, hm, if_true]

/-- C20 witness: `Tags:foo bar baz` yields the three tags, and
`Tags: foo bar baz` yields four, the first one empty. -/
theorem C20_tags_one_element_per_piece_witness :
    (osup_bm_parse_metadata_line specEnv "Tags:foo bar baz\n".toList {} 0).map.metadata.tags
      = ["foo".toList, "bar".toList, "baz".toList] ∧
    (osup_bm_parse_metadata_line specEnv "Tags: foo bar baz\n".toList {} 0).map.metadata.tags
      = [[], "foo".toList, "bar".toList, "baz".toList] :=
  ⟨by
      rw [C20_tags_one_element_per_piece specEnv "Tags:foo bar baz\n".toList {} 0
        ["foo".toList, "bar".toList, "baz".toList] 'z' (by decide) (by decide) (by decide)
        (by decide)
        ((check_prefix_eq_some_iff _ _ _ _).1
          (by decide : osup_check_prefix_and_advance "Tags:foo bar baz\n".toList
            ("Tags:".toList ++ joinTags ["foo".toList, "bar".toList, "baz".toList]) 0
              = some 16)).1
        (by decide) (fun _ _ => rfl) rfl],
    by
      rw [C20_tags_one_element_per_piece specEnv "Tags: foo bar baz\n".toList {} 0
        [[], "foo".toList, "bar".toList, "baz".toList] 'z' (by decide) (by decide) (by decide)
        (by decide)
        ((check_prefix_eq_some_iff _ _ _ _).1
          (by decide : osup_check_prefix_and_advance "Tags: foo bar baz\n".toList
            ("Tags:".toList ++ joinTags [[], "foo".toList, "bar".toList, "baz".toList]) 0
              = some 17)).1
        (by decide) (fun _ _ => rfl) rfl]⟩

/-- C20 counterexample: for the three tokens `foo`, `bar`, `baz` the line
`Tags: foo bar baz` (one space after the colon) yields a tag list of count 4,
whose first element is the empty string, not the list of the three tokens. -/
theorem C20_counterexample :
    (osup_bm_parse_metadata_line specEnv "Tags: foo bar baz\n".toList {} 0).ok = true ∧
    (osup_bm_parse_metadata_line specEnv
      "Tags: foo bar baz\n".toList {} 0).map.metadata.tags.length = 4 ∧
    (osup_bm_parse_metadata_line specEnv "Tags: foo bar baz\n".toList {} 0).map.metadata.tags
      ≠ ["foo".toList, "bar".toList, "baz".toList] := by
  decide

/-! ## Rows in the concrete environment -/

theorem isdigit_props (c : Char) (h : isdigit c = true) :
    c ≠ ',' ∧ c ≠ '-' ∧ c ≠ ':' ∧ c ≠ '|' ∧ c ≠ NUL ∧ osup_is_line_terminator c = false := by
  refine ⟨?_, ?_, ?_, ?_, ?_, ?_⟩
  · rintro rfl; exact absurd h (by decide)
  · rintro rfl; exact absurd h (by decide)
  · rintro rfl; exact absurd h (by decide)
  · rintro rfl; exact absurd h (by decide)
  · rintro rfl; exact absurd h (by decide)
  · rw [Bool.eq_false_iff, Ne, terminator_iff]
    rintro (rfl | rfl | rfl) <;> exact absurd h (by decide)

theorem startsWith_drop_take (buf : Buf) (p : Nat) (S : List Char) (i n : Nat)
    (h : startsWith buf p S) : startsWith buf (p + i) ((S.drop i).take n) := by
  intro j hj
  have hj' : j < n ∧ i + j < S.length := by
    simp only [List.length_take, List.length_drop] at hj
    omega
  have := h (i + j) hj'.2
  rw [show p + i + j = p + (i + j) by omega, this]
  simp only [List.get_eq_getElem, List.getElem_take, List.getElem_drop]

theorem charAt_of_startsWith (buf : Buf) (p : Nat) (S : List Char) (i : Nat) (c : Char)
    (h : startsWith buf p S) (hc : S[i]? = some c) : charAt buf (p + i) = c := by
  have hi : i < S.length := by
    by_contra hlt
    rw [List.getElem?_eq_none (by omega)] at hc
    exact Option.noConfusion hc
  rw [h i hi]
  rw [List.getElem?_eq_getElem hi] at hc
  simpa using hc

/-- The token scan over a token `tok` that is followed by the delimiter or a
line terminator. -/
theorem scanToken_segment (buf : Buf) (delim : Char) :
    ∀ (tok : List Char) (fuel p : Nat), startsWith buf p tok →
      (∀ c ∈ tok, c ≠ delim ∧ osup_is_line_terminator c = false) →
      (charAt buf (p + tok.length) = delim ∨
        osup_is_line_terminator (charAt buf (p + tok.length)) = true) →
      tok.length ≤ fuel → scanToken buf delim fuel p = p + tok.length := by
  intro tok
  induction tok with
  | nil =>
    intro fuel p _ _ hend _
    cases fuel with
    | zero => rfl
    | succ n =>
      have : (charAt buf p == delim || osup_is_line_terminator (charAt buf p)) = true := by
        rcases hend with h | h
        · simp at h; simp [h]
        · simp at h; simp [h]
      simp [scanToken, this]
  | cons c cs ih =>
    intro fuel p hs hc hend hf
    rw [startsWith_cons] at hs
    cases fuel with
    | zero => simp at hf
    | succ n =>
      have h1 := hc c (List.mem_cons_self _ _)
      have : (charAt buf p == delim || osup_is_line_terminator (charAt buf p)) = false := by
        rw [hs.1]; simp [h1.1, h1.2]
      have hend' : charAt buf (p + 1 + cs.length) = delim ∨
          osup_is_line_terminator (charAt buf (p + 1 + cs.length)) = true := by
        rw [show p + 1 + cs.length = p + (c :: cs).length by simp; omega]; exact hend
      simp only [scanToken, this, Bool.false_eq_true, if_false]
      rw [ih n (p + 1) hs.2 (fun x hx => hc x (List.mem_cons_of_mem _ hx)) hend'
        (by simpa using hf)]
      simp; omega

theorem segment_in_bounds (buf : Buf) (s : List Char) (p : Nat) (hs : startsWith buf p s)
    (hn : ∀ c ∈ s, c ≠ NUL) (hne : s ≠ []) : p + s.length ≤ buf.length := by
  have hpos : 0 < s.length := List.length_pos.2 hne
  have h := hs (s.length - 1) (by omega)
  have := lt_length_of_charAt_ne_NUL buf (p + (s.length - 1))
    (by rw [h]; exact hn _ (List.get_mem s _ _))
  omega

/-- The digit scan over a run of digits that is followed by a character that
is not a digit. -/
theorem skipDigits_segment (buf : Buf) :
    ∀ (ds : List Char) (fuel p : Nat), startsWith buf p ds → ds.all isdigit = true →
      isdigit (charAt buf (p + ds.length)) = false → ds.length ≤ fuel →
      skipDigits buf fuel p = p + ds.length := by
  intro ds
  induction ds with
  | nil =>
    intro fuel p _ _ hend _
    cases fuel with
    | zero => rfl
    | succ n =>
      have hend' : isdigit (charAt buf p) = false := by simpa using hend
      simp [skipDigits, hend']
  | cons c cs ih =>
    intro fuel p hs hd hend hf
    rw [startsWith_cons] at hs
    simp only [List.all_cons, Bool.and_eq_true] at hd
    cases fuel with
    | zero => simp at hf
    | succ n =>
      have hdig : isdigit (charAt buf p) = true := by rw [hs.1]; exact hd.1
      have hend' : isdigit (charAt buf (p + 1 + cs.length)) = false := by
        rw [show p + 1 + cs.length = p + (c :: cs).length by simp; omega]; exact hend
      simp only [skipDigits, hdig, if_true]
      rw [ih n (p + 1) hs.2 hd.2 hend' (by simpa using hf)]
      simp; omega

theorem numeral_props (ds : List Char) (h : isNumeral ds = true) :
    ds ≠ [] ∧ ds.all isdigit = true ∧ (∀ c ∈ ds, c ≠ NUL) ∧
    (∀ c ∈ ds, c ≠ ',' ∧ osup_is_line_terminator c = false) := by
  unfold isNumeral at h
  simp only [Bool.and_eq_true, Bool.not_eq_true', List.isEmpty_eq_false] at h
  refine ⟨h.1, h.2, fun c hc => ?_, fun c hc => ?_⟩
  · exact (isdigit_props c (List.all_eq_true.1 h.2 c hc)).2.2.2.2.1
  · exact ⟨(isdigit_props c (List.all_eq_true.1 h.2 c hc)).1,
      (isdigit_props c (List.all_eq_true.1 h.2 c hc)).2.2.2.2.2⟩

/-- The environment's `osup_parse_int_until_nondigit_char` on a run of digits
`ds` followed by a character that is not a digit. -/
theorem specParseIntUntil_digits (buf : Buf) (q : Nat) (ds : List Char) (c : Char)
    (hs : startsWith buf q (ds ++ [c])) (hds : isNumeral ds = true)
    (hc : isdigit c = false) :
    specParseIntUntil buf q = some ((digitsValue ds : Int), q + ds.length) := by
  obtain ⟨hne, hall, hnul, _⟩ := numeral_props ds hds
  rw [startsWith_append] at hs
  obtain ⟨h1, h2⟩ := hs
  have hcq : charAt buf (q + ds.length) = c := by simpa using h2 0 (by simp)
  have hfirst : charAt buf q ≠ '-' := by
    cases ds with
    | nil => exact absurd rfl hne
    | cons d ds' =>
      rw [startsWith_cons] at h1
      rw [h1.1]
      exact (isdigit_props d (List.all_eq_true.1 hall d (List.mem_cons_self _ _))).2.1
  have hb := segment_in_bounds buf ds q h1 hnul hne
  have hskip := skipDigits_segment buf ds (buf.length - q) q h1 hall (by rw [hcq]; exact hc)
    (by omega)
  have hsl := slice_segment buf ds q h1 hnul
  have hpos : 0 < ds.length := List.length_pos.2 hne
  have hne' : ¬ (q + ds.length = q) := by omega
  simp only [specParseIntUntil, hfirst, beq_iff_eq, if_false, hskip, hne', hsl]

theorem showNat_not_minus (n : Nat) (ds : List Char) : showNat n ≠ '-' :: ds := by
  intro h
  have := showNat_all n
  rw [h] at this
  simp only [List.all_cons, Bool.and_eq_true] at this
  exact absurd this.1 (by decide)

/-- The environment's `osup_parse_int` on a range that holds a digit string. -/
theorem specParseInt_numeral (buf : Buf) (b e : Nat) (ds : List Char)
    (hsl : slice buf b e = ds) (hds : isNumeral ds = true) :
    specParseInt buf b e = some (digitsValue ds : Int) := by
  unfold specParseInt
  rw [hsl]
  split
  · have := (numeral_props _ hds).2.1
    simp only [List.all_cons, Bool.and_eq_true] at this
    exact absurd this.1 (by decide)
  · simp [hds]

/-- The environment's `osup_parse_int` on a range that holds the decimal text
of an integer. -/
theorem specParseInt_showInt (buf : Buf) (b e : Nat) (x : Int)
    (hsl : slice buf b e = showInt x) : specParseInt buf b e = some x := by
  cases x with
  | ofNat n =>
    rw [specParseInt_numeral buf b e (showNat n) hsl (isNumeral_showNat n), digitsValue_showNat]
    rfl
  | negSucc n =>
    unfold specParseInt
    rw [hsl]
    simp only [showInt, isNumeral_showNat, if_true, digitsValue_showNat]
    rfl

theorem specParseUbyte_numeral (buf : Buf) (b e : Nat) (ds : List Char)
    (hsl : slice buf b e = ds) (hds : isNumeral ds = true) (hle : digitsValue ds ≤ 255) :
    specParseUbyte buf b e = some (digitsValue ds) := by
  simp [specParseUbyte, hsl, hds, hle]

theorem showInt_chars (x : Int) (c : Char) (h : c ∈ showInt x) :
    c ≠ ',' ∧ osup_is_line_terminator c = false ∧ c ≠ NUL := by
  have hdig : ∀ n, c ∈ showNat n →
      c ≠ ',' ∧ osup_is_line_terminator c = false ∧ c ≠ NUL := by
    intro n hc
    have := isdigit_props c (List.all_eq_true.1 (showNat_all n) c hc)
    exact ⟨this.1, this.2.2.2.2.2, this.2.2.2.2.1⟩
  cases x with
  | ofNat n => exact hdig n h
  | negSucc n =>
    simp only [showInt, List.mem_cons] at h
    rcases h with rfl | h
    · exact ⟨by decide, by decide, by decide⟩
    · exact hdig _ h

/-- One field of a CSV row in the concrete environment: a token `tok`
followed by `,` is split off and handed to the field decoder. -/
theorem csvField_token {α β : Type} (buf : Buf) (parse : Buf → Nat → Nat → Option α)
    (tok : List Char) (p : Nat) (eb : Option Nat) (a : α) (k : α → Nat → Nat → Option β)
    (hs : startsWith buf p tok) (hd : charAt buf (p + tok.length) = ',')
    (htok : ∀ c ∈ tok, c ≠ ',' ∧ osup_is_line_terminator c = false ∧ c ≠ NUL)
    (heb : eb.isSome = true → osup_is_line_terminator (charAt buf (p - 1)) = false)
    (hp : slice buf p (p + tok.length) = tok → parse buf p (p + tok.length) = some a) :
    csvField (specSplitLine buf ',') (parse buf) eb p k = k a p (p + tok.length) := by
  have hsl := slice_segment buf tok p hs (fun c hc => (htok c hc).2.2)
  have hlen : tok.length ≤ buf.length - p := by
    by_cases hne : tok = []
    · simp [hne]
    · have := segment_in_bounds buf tok p hs (fun c hc => (htok c hc).2.2) hne
      omega
  have hscan := scanToken_segment buf ',' tok (buf.length - p) p hs
    (fun c hc => ⟨(htok c hc).1, (htok c hc).2.1⟩) (Or.inl hd) hlen
  have hsplit : specSplitLine buf ',' eb p = some (p, p + tok.length) := by
    unfold specSplitLine
    cases heb' : eb.isSome with
    | false => simp [hscan]
    | true => simp [heb heb', hscan]
  simp only [csvField, hsplit, hp hsl]

theorem comma_not_terminator : osup_is_line_terminator ',' = false := by decide

/-- The five fixed fields `x,y,time,type,hitSound,` of a HitObjects row in the
concrete environment. -/
theorem hitObjectFixedFields_spec (buf : Buf) (line : Nat) (x y t : Int)
    (tyT hsT : List Char)
    (hs : startsWith buf line
      (showInt x ++ ',' :: (showInt y ++ ',' :: (showInt t ++ ',' ::
        (tyT ++ ',' :: (hsT ++ [','])))))) 
    (hty : isNumeral tyT = true) (hty2 : digitsValue tyT ≤ 255)
    (hhs : isNumeral hsT = true) (hhs2 : digitsValue hsT ≤ 255) :
    hitObjectFixedFields specEnv buf line =
      some { x := x, y := y, time := t, type := digitsValue tyT, hitSound := digitsValue hsT,
             elementEnd := line + (showInt x).length + 1 + (showInt y).length + 1
               + (showInt t).length + 1 + tyT.length + 1 + hsT.length } := by
  simp only [startsWith_append, startsWith_cons] at hs
  obtain ⟨hx, cx, hy, cy, ht, ct, hT, cT, hH, cH, _⟩ := hs
  have nt := numeral_props tyT hty
  have nh := numeral_props hsT hhs
  have term_of : ∀ p, charAt buf p = ',' →
      osup_is_line_terminator (charAt buf (p + 1 - 1)) = false := by
    intro p hp
    rw [Nat.add_sub_cancel, hp]; exact comma_not_terminator
  unfold hitObjectFixedFields
  simp only [specEnv]
  rw [csvField_token buf specParseInt (showInt x) line none x _ hx cx (showInt_chars x)
    (fun h => Bool.noConfusion h) (fun h => specParseInt_showInt buf _ _ x h)]
  try simp only []
  rw [csvField_token buf specParseInt (showInt y) _ (some line) y _ hy cy (showInt_chars y)
    (fun _ => term_of _ cx) (fun h => specParseInt_showInt buf _ _ y h)]
  try simp only []
  rw [csvField_token buf specParseInt (showInt t) _ _ t _ ht ct (showInt_chars t)
    (fun _ => term_of _ cy) (fun h => specParseInt_showInt buf _ _ t h)]
  try simp only []
  rw [csvField_token buf specParseUbyte tyT _ _ (digitsValue tyT) _ hT cT
    (fun c hc => ⟨(nt.2.2.2 c hc).1, (nt.2.2.2 c hc).2, nt.2.2.1 c hc⟩)
    (fun _ => term_of _ ct) (fun h => specParseUbyte_numeral buf _ _ tyT h hty hty2)]
  try simp only []
  rw [csvField_token buf specParseUbyte hsT _ _ (digitsValue hsT) _ hH cH
    (fun c hc => ⟨(nh.2.2.2 c hc).1, (nh.2.2.2 c hc).2, nh.2.2.1 c hc⟩)
    (fun _ => term_of _ cT) (fun h => specParseUbyte_numeral buf _ _ hsT h hhs hhs2)]

/-- An integer field at offset `i` of a known text `S`: the digits `ds`
followed by the character `c`, which is not a digit. -/
theorem intUntil_seg {β : Type} (buf : Buf) (p : Nat) (S : List Char) (i : Nat)
    (ds : List Char) (c : Char) (v : Int) (j pos : Nat) (k : Int → Nat → RowRes β)
    (hS : startsWith buf p S) (hpos : pos = p + i)
    (hsub : (S.drop i).take (ds.length + 1) = ds ++ [c])
    (hds : isNumeral ds = true) (hc : isdigit c = false)
    (hv : (digitsValue ds : Int) = v) (hj : i + ds.length = j) :
    intUntil specEnv buf pos k = k v (p + j) := by
  have hs := startsWith_drop_take buf p S i (ds.length + 1) hS
  rw [hsub] at hs
  have := specParseIntUntil_digits buf (p + i) ds c hs hds hc
  subst hpos hv hj
  simp only [intUntil, specEnv, this]
  rw [Nat.add_assoc]

/-- The statement `if (*((*line)++) != c) return osup_false;` at offset `i` of
a known text `S` that has `c` there. -/
theorem expectChar_seg {β : Type} (buf : Buf) (p : Nat) (S : List Char) (i : Nat) (c : Char)
    (j pos : Nat) (k : Nat → RowRes β)
    (hS : startsWith buf p S) (hpos : pos = p + i) (hc : S[i]? = some c) (hj : i + 1 = j) :
    expectChar buf c pos k = k (p + j) := by
  have := charAt_of_startsWith buf p S i c hS hc
  subst hpos hj
  simp only [expectChar, this, bne_self_eq_false, Bool.false_eq_true, if_false]
  rw [Nat.add_assoc]

/-- The separator test that closes a list element, at offset `i` of a known
text `S` that has `,` or `|` there. -/
theorem listSeparator_seg {β : Type} (buf : Buf) (p : Nat) (S : List Char) (i : Nat)
    (c : Char) (j pos : Nat) (k : Nat → RowRes β)
    (hS : startsWith buf p S) (hpos : pos = p + i) (hc : S[i]? = some c)
    (hsep : (c != ',' && c != '|') = false) (hj : i + 1 = j) :
    listSeparator buf pos k = k (p + j) := by
  have := charAt_of_startsWith buf p S i c hS hc
  subst hpos hj
  simp only [listSeparator, this, hsep, Bool.false_eq_true, if_false]
  rw [Nat.add_assoc]

theorem last_nonblank_at_terminator (buf : Buf) (q : Nat)
    (h : osup_is_line_terminator (charAt buf q) = true) :
    osup_advance_to_last_nonblank_char buf q = (q, q) := by
  unfold osup_advance_to_last_nonblank_char
  cases buf.length - q with
  | zero => rfl
  | succ n => simp [osup_advance_to_last_nonblank_char_loop, h]

theorem slice_empty (buf : Buf) (q : Nat) : slice buf q q = [] := by
  simp [slice]

/-- The default hit sample `0:0:0:0:` followed by the line terminator. -/
theorem hitSampleFields_default (buf : Buf) (q : Nat)
    (hS : startsWith buf q "0:0:0:0:".toList)
    (ht : osup_is_line_terminator (charAt buf (q + 8)) = true) :
    hitSampleFields specEnv buf q =
      { value := some { normalSet := 0, additionSet := 0, index := 0, volume := 0,
                        filename := [] },
        line := q + 8 } := by
  have hrange : ((0 : Int) < OSUP_SAMPLESET_DEFAULT || (0 : Int) > OSUP_SAMPLESET_DRUM)
      = false := by decide
  have hq : charAt buf (q + 8) ≠ '"' := by
    intro h; rw [h] at ht; exact absurd ht (by decide)
  unfold hitSampleFields sampleSetField
  rw [intUntil_seg buf q _ 0 ['0'] ':' 0 1 q _ hS rfl rfl rfl rfl rfl rfl]
  rw [expectChar_seg buf q _ 1 ':' 2 (q + 1) _ hS rfl rfl rfl]
  simp only [hrange, Bool.false_eq_true, if_false]
  rw [intUntil_seg buf q _ 2 ['0'] ':' 0 3 (q + 2) _ hS rfl rfl rfl rfl rfl rfl]
  rw [expectChar_seg buf q _ 3 ':' 4 (q + 3) _ hS rfl rfl rfl]
  simp only [hrange, Bool.false_eq_true, if_false]
  rw [intUntil_seg buf q _ 4 ['0'] ':' 0 5 (q + 4) _ hS rfl rfl rfl rfl rfl rfl]
  rw [expectChar_seg buf q _ 5 ':' 6 (q + 5) _ hS rfl rfl rfl]
  rw [intUntil_seg buf q _ 6 ['0'] ':' 0 7 (q + 6) _ hS rfl rfl rfl rfl rfl rfl]
  rw [expectChar_seg buf q _ 7 ':' 8 (q + 7) _ hS rfl rfl rfl]
  simp only [hitSampleFilename, last_nonblank_at_terminator buf (q + 8) ht, hq, beq_iff_eq,
    if_false, specEnv, specStrdup, slice_empty, RowRes.andThen]

theorem hitObjectFixedFields_comma (buf : Buf) (line : Nat) (x y t : Int)
    (tyT hsT : List Char)
    (hs : startsWith buf line
      (showInt x ++ ',' :: (showInt y ++ ',' :: (showInt t ++ ',' ::
        (tyT ++ ',' :: (hsT ++ [',']))))))  :
    charAt buf (line + (showInt x).length + 1 + (showInt y).length + 1
      + (showInt t).length + 1 + tyT.length + 1 + hsT.length) = ',' := by
  simp only [startsWith_append, startsWith_cons] at hs
  obtain ⟨_, _, _, _, _, _, _, _, _, cH, _⟩ := hs
  exact cH

/-- C12: for all integers `x`, `y`, `t`, wherever the text `x,y,t,1,0,0:0:0:0:`
(decimal renderings) stands in the buffer followed by a line terminator,
`osup_bm_parse_hit_objects_line` accepts it in the concrete environment and
yields position `(x, y)`, time `t`, type 1, hitSound 0, no object parameters
and the hit sample with normalSet 0, additionSet 0, index 0, volume 0 and the
empty filename, leaving the cursor on the line terminator. -/
theorem C12_circle_row (buf : Buf) (line : Nat) (x y t : Int)
    (hs : startsWith buf line (circleLine x y t))
    (ht : osup_is_line_terminator (charAt buf (line + (circleLine x y t).length)) = true) :
    osup_bm_parse_hit_objects_line specEnv buf line =
      { value := some { x := x, y := y, time := t, type := 1, hitSound := 0,
                        params := .circle,
                        hitSample := { normalSet := 0, additionSet := 0, index := 0,
                                       volume := 0, filename := [] } },
        line := line + (circleLine x y t).length } := by
  have hsplit : circleLine x y t =
      (showInt x ++ ',' :: (showInt y ++ ',' :: (showInt t ++ ',' ::
        ("1".toList ++ ',' :: ("0".toList ++ [',']))))) ++ "0:0:0:0:".toList := by
    simp [circleLine, List.append_assoc]
  have l1 : "1".toList.length = 1 := rfl
  have l0 : "0".toList.length = 1 := rfl
  have l8 : "0:0:0:0:".toList.length = 8 := rfl
  have hlenF : (showInt x ++ ',' :: (showInt y ++ ',' :: (showInt t ++ ',' ::
        ("1".toList ++ ',' :: ("0".toList ++ [',']))))).length =
      (showInt x).length + 1 + (showInt y).length + 1 + (showInt t).length + 1 + 1 + 1 + 1
        + 1 := by
    simp only [List.length_append, List.length_cons, List.length_nil, l1, l0]
    omega
  have hlen : (circleLine x y t).length =
      (showInt x).length + 1 + (showInt y).length + 1 + (showInt t).length + 1 + 1 + 1 + 1 + 1
        + 8 := by
    rw [hsplit, List.length_append, hlenF, l8]
  rw [hlen] at ht ⊢
  rw [hsplit, startsWith_append, hlenF] at hs
  obtain ⟨hfix, hsample⟩ := hs
  have hF := hitObjectFixedFields_spec buf line x y t "1".toList "0".toList hfix
    (by decide) (by decide) (by decide) (by decide)
  have hcomma := hitObjectFixedFields_comma buf line x y t "1".toList "0".toList hfix
  rw [l1, l0] at hF hcomma
  have hq : line + (showInt x).length + 1 + (showInt y).length + 1 + (showInt t).length + 1
      + 1 + 1 + 1 + 1
      = line + ((showInt x).length + 1 + (showInt y).length + 1 + (showInt t).length + 1
        + 1 + 1 + 1 + 1) := by omega
  have hq8 : line + ((showInt x).length + 1 + (showInt y).length + 1 + (showInt t).length + 1
      + 1 + 1 + 1 + 1) + 8
      = line + ((showInt x).length + 1 + (showInt y).length + 1 + (showInt t).length + 1
        + 1 + 1 + 1 + 1 + 8) := by omega
  rw [← hq8] at ht
  rw [hit_objects_line_after_fixed specEnv buf line _ hF hcomma
    (by show countTypeBits (digitsValue "1".toList) = 1; decide)]
  have hparams : objectParams specEnv buf (digitsValue "1".toList)
      (line + (showInt x).length + 1 + (showInt y).length + 1 + (showInt t).length + 1
        + 1 + 1 + 1 + 1)
      = { value := some .circle,
          line := line + ((showInt x).length + 1 + (showInt y).length + 1
            + (showInt t).length + 1 + 1 + 1 + 1 + 1) } := by
    rw [hq]; rfl
  simp only [hparams, RowRes.andThen, hitSampleFields_default buf _ hsample ht, hq8]
  rfl

/-- C12 witness: the row `256,192,350,1,0,0:0:0:0:` decodes as a circle at
(256,192), time 350, with the default hit sample. -/
theorem C12_circle_row_witness :
    osup_bm_parse_hit_objects_line specEnv "256,192,350,1,0,0:0:0:0:\n".toList 0 =
      { value := some { x := 256, y := 192, time := 350, type := 1, hitSound := 0,
                        params := .circle,
                        hitSample := { normalSet := 0, additionSet := 0, index := 0,
                                       volume := 0, filename := [] } },
        line := 0 + (circleLine 256 192 350).length } :=
  C12_circle_row "256,192,350,1,0,0:0:0:0:\n".toList 0 256 192 350
    ((check_prefix_eq_some_iff _ _ _ _).1
      (by decide : osup_check_prefix_and_advance "256,192,350,1,0,0:0:0:0:\n".toList
        (circleLine 256 192 350) 0 = some 24)).1
    (by decide)

/-- The curve-point counting loop over a field `fld` that is followed by `,`
or a line terminator: one more per `|`. -/
theorem countCurvePoints_segment (buf : Buf) :
    ∀ (fld : List Char) (fuel p n : Nat), startsWith buf p fld →
      (∀ c ∈ fld, c ≠ ',' ∧ osup_is_line_terminator c = false) →
      (charAt buf (p + fld.length) = ',' ∨
        osup_is_line_terminator (charAt buf (p + fld.length)) = true) →
      fld.length ≤ fuel → countCurvePoints buf fuel p n = n + fld.count '|' := by
  intro fld
  induction fld with
  | nil =>
    intro fuel p n _ _ hend _
    cases fuel with
    | zero => rfl
    | succ f =>
      have : (charAt buf p != ',' && !osup_is_line_terminator (charAt buf p)) = false := by
        rcases hend with h | h
        · simp at h; simp [h]
        · simp at h; simp [h]
      simp [countCurvePoints, this]
  | cons c cs ih =>
    intro fuel p n hs hc hend hf
    rw [startsWith_cons] at hs
    cases fuel with
    | zero => simp at hf
    | succ f =>
      have h1 := hc c (List.mem_cons_self _ _)
      have : (charAt buf p != ',' && !osup_is_line_terminator (charAt buf p)) = true := by
        rw [hs.1]; simp [h1.1, h1.2]
      have hend' : charAt buf (p + 1 + cs.length) = ',' ∨
          osup_is_line_terminator (charAt buf (p + 1 + cs.length)) = true := by
        rw [show p + 1 + cs.length = p + (c :: cs).length by simp; omega]; exact hend
      simp only [countCurvePoints, this, if_true]
      rw [ih f (p + 1) _ hs.2 (fun x hx => hc x (List.mem_cons_of_mem _ hx)) hend'
        (by simpa using hf), hs.1]
      by_cases hbar : c = '|'
      · subst hbar; simp; omega
      · have : (c == '|') = false := by simpa using hbar
        simp [this, List.count_cons, hbar]

/-- The edge counting loops over a field `fld` that is followed by `,`: one
more per `|`. -/
theorem countEdges_segment (buf : Buf) :
    ∀ (fld : List Char) (fuel p n : Nat), startsWith buf p fld →
      (∀ c ∈ fld, c ≠ ',' ∧ osup_is_line_terminator c = false) →
      charAt buf (p + fld.length) = ',' →
      fld.length < fuel → countEdges buf fuel p n = some (n + fld.count '|') := by
  intro fld
  induction fld with
  | nil =>
    intro fuel p n _ _ hend hf
    cases fuel with
    | zero => simp at hf
    | succ f =>
      have hend' : charAt buf p = ',' := by simpa using hend
      simp [countEdges, hend']
  | cons c cs ih =>
    intro fuel p n hs hc hend hf
    rw [startsWith_cons] at hs
    cases fuel with
    | zero => simp at hf
    | succ f =>
      have h1 := hc c (List.mem_cons_self _ _)
      have hne : (c != ',') = true := by simpa using h1.1
      have hend' : charAt buf (p + 1 + cs.length) = ',' := by
        rw [show p + 1 + cs.length = p + (c :: cs).length by simp; omega]; exact hend
      have hf' : cs.length < f := by simpa using hf
      simp only [countEdges, hs.1, hne, if_true]
      by_cases hbar : c = '|'
      · subst hbar
        simp only [beq_self_eq_true, if_true]
        rw [ih f (p + 1) _ hs.2 (fun x hx => hc x (List.mem_cons_of_mem _ hx)) hend' hf']
        simp; omega
      · have hb : (c == '|') = false := by simpa using hbar
        simp only [hb, Bool.false_eq_true, if_false, h1.2]
        rw [ih f (p + 1) _ hs.2 (fun x hx => hc x (List.mem_cons_of_mem _ hx)) hend' hf']
        simp [List.count_cons, hbar]

/-- The scan for the `,` that ends the slider length over a field `fld`
followed by `,`. -/
theorem findComma_segment (buf : Buf) :
    ∀ (fld : List Char) (fuel p : Nat), startsWith buf p fld →
      (∀ c ∈ fld, c ≠ ',' ∧ osup_is_line_terminator c = false) →
      charAt buf (p + fld.length) = ',' →
      fld.length < fuel → findComma buf fuel p = some (p + fld.length) := by
  intro fld
  induction fld with
  | nil =>
    intro fuel p _ _ hend hf
    cases fuel with
    | zero => simp at hf
    | succ f =>
      have hend' : charAt buf p = ',' := by simpa using hend
      simp [findComma, hend']
  | cons c cs ih =>
    intro fuel p hs hc hend hf
    rw [startsWith_cons] at hs
    cases fuel with
    | zero => simp at hf
    | succ f =>
      have h1 := hc c (List.mem_cons_self _ _)
      have hne : (c != ',') = true := by simpa using h1.1
      have hend' : charAt buf (p + 1 + cs.length) = ',' := by
        rw [show p + 1 + cs.length = p + (c :: cs).length by simp; omega]; exact hend
      have hf' : cs.length < f := by simpa using hf
      simp only [findComma, hs.1, hne, if_true, h1.2, Bool.false_eq_true, if_false]
      rw [ih f (p + 1) hs.2 (fun x hx => hc x (List.mem_cons_of_mem _ hx)) hend' hf']
      simp; omega

theorem fld_in_bounds (buf : Buf) (fld : List Char) (p : Nat) (hs : startsWith buf p fld)
    (hc : ∀ c ∈ fld, c ≠ ',' ∧ osup_is_line_terminator c = false) :
    fld.length ≤ buf.length - p := by
  by_cases hne : fld = []
  · simp [hne]
  · have hn : ∀ c ∈ fld, c ≠ NUL := by
      intro c hcm h
      have := (hc c hcm).2
      rw [h] at this
      exact absurd this (by decide)
    have := segment_in_bounds buf fld p hs hn hne
    omega

/-- The curve-point count at offset `i` of a known text `S`. -/
theorem countCurvePoints_seg (buf : Buf) (p : Nat) (S : List Char) (i : Nat) (fld : List Char)
    (n pos : Nat) (hS : startsWith buf p S) (hpos : pos = p + i)
    (hsub : (S.drop i).take (fld.length + 1) = fld ++ [','])
    (hfld : (fld.all fun c => c != ',' && !osup_is_line_terminator c) = true)
    (hn : 1 + fld.count '|' = n) :
    countCurvePoints buf (buf.length - pos) pos 1 = n := by
  have hs := startsWith_drop_take buf p S i (fld.length + 1) hS
  rw [hsub, startsWith_append] at hs
  have hc : ∀ c ∈ fld, c ≠ ',' ∧ osup_is_line_terminator c = false := by
    intro c hcm
    have := List.all_eq_true.1 hfld c hcm
    simpa using this
  subst hpos hn
  exact countCurvePoints_segment buf fld _ (p + i) 1 hs.1 hc
    (Or.inl (by simpa using hs.2 0 (by simp))) (fld_in_bounds buf fld _ hs.1 hc)

/-- The edge count at offset `i` of a known text `S`. -/
theorem countEdges_seg (buf : Buf) (p : Nat) (S : List Char) (i : Nat) (fld : List Char)
    (n pos : Nat) (hS : startsWith buf p S) (hpos : pos = p + i)
    (hsub : (S.drop i).take (fld.length + 1) = fld ++ [','])
    (hfld : (fld.all fun c => c != ',' && !osup_is_line_terminator c) = true)
    (hn : 1 + fld.count '|' = n) :
    countEdges buf (buf.length - pos + 1) pos 1 = some n := by
  have hs := startsWith_drop_take buf p S i (fld.length + 1) hS
  rw [hsub, startsWith_append] at hs
  have hc : ∀ c ∈ fld, c ≠ ',' ∧ osup_is_line_terminator c = false := by
    intro c hcm
    have := List.all_eq_true.1 hfld c hcm
    simpa using this
  have hb := fld_in_bounds buf fld _ hs.1 hc
  subst hpos hn
  exact countEdges_segment buf fld _ (p + i) 1 hs.1 hc (by simpa using hs.2 0 (by simp))
    (by omega)

/-- The scan for the end of the slider length at offset `i` of a known text
`S`. -/
theorem findComma_seg (buf : Buf) (p : Nat) (S : List Char) (i : Nat) (fld : List Char)
    (j pos : Nat) (hS : startsWith buf p S) (hpos : pos = p + i)
    (hsub : (S.drop i).take (fld.length + 1) = fld ++ [','])
    (hfld : (fld.all fun c => c != ',' && !osup_is_line_terminator c) = true)
    (hj : i + fld.length = j) :
    findComma buf (buf.length - pos + 1) pos = some (p + j) ∧
    slice buf pos (p + j) = fld := by
  have hs := startsWith_drop_take buf p S i (fld.length + 1) hS
  rw [hsub, startsWith_append] at hs
  have hc : ∀ c ∈ fld, c ≠ ',' ∧ osup_is_line_terminator c = false := by
    intro c hcm
    have := List.all_eq_true.1 hfld c hcm
    simpa using this
  have hn : ∀ c ∈ fld, c ≠ NUL := by
    intro c hcm h
    have := (hc c hcm).2
    rw [h] at this
    exact absurd this (by decide)
  have hb := fld_in_bounds buf fld _ hs.1 hc
  subst hpos hj
  constructor
  · rw [findComma_segment buf fld _ (p + i) hs.1 hc (by simpa using hs.2 0 (by simp))
      (by omega), Nat.add_assoc]
  · rw [← Nat.add_assoc]
    exact slice_segment buf fld (p + i) hs.1 hn

/-- The slider branch on the example parameters
`B|100:100|200:50,1,150.0,0|0,0:0|0:0,` in the concrete environment. -/
theorem sliderParams_example (buf : Buf) (q : Nat) (hS : startsWith buf q sliderExampleParams) :
    sliderParams specEnv buf q =
      { value := some { curveType := OSUP_CURVE_BEZIER,
                        curvePoints := [(100, 100), (200, 50)],
                        slides := 1,
                        length := { mantissa := 1500, scale := 1 },
                        edgeSounds := [0, 0],
                        edgeSets := [(0, 0), (0, 0)] },
        line := q + 37 } := by
  have hB : curveTypeOfChar (charAt buf q) = some OSUP_CURVE_BEZIER := by
    have : charAt buf q = 'B' := by
      simpa using charAt_of_startsWith buf q sliderExampleParams 0 'B' hS rfl
    rw [this]; rfl
  have hcnt1 := countCurvePoints_seg buf q sliderExampleParams 2 "100:100|200:50".toList 2
    (q + 2) hS rfl rfl (by decide) rfl
  have hfc := findComma_seg buf q sliderExampleParams 19 "150.0".toList 24 (q + 19) hS rfl rfl
    (by decide) rfl
  have hdec : specEnv.osup_parse_decimal buf (q + 19) (q + 24)
      = some { mantissa := 1500, scale := 1 } := by
    show specParseDecimal buf (q + 19) (q + 24) = _
    unfold specParseDecimal
    rw [hfc.2]
    rfl
  have hmalloc : ∀ n, specEnv.malloc n = true := fun _ => rfl
  have hcnt2 := countEdges_seg buf q sliderExampleParams 25 "0|0".toList 2 (q + 24 + 1) hS rfl rfl
    (by decide) rfl
  have hcnt3 := countEdges_seg buf q sliderExampleParams 29 "0:0|0:0".toList 2 (q + 29) hS rfl rfl
    (by decide) rfl
  unfold sliderParams
  simp only [hB]
  rw [expectChar_seg buf q _ 1 '|' 2 (q + 1) _ hS rfl rfl rfl]
  simp only [hcnt1, hmalloc, Bool.not_true, Bool.false_eq_true, if_false, pairsLoop]
  rw [intUntil_seg buf q _ 2 "100".toList ':' 100 5 (q + 2) _ hS rfl rfl rfl rfl rfl rfl]
  rw [expectChar_seg buf q _ 5 ':' 6 (q + 5) _ hS rfl rfl rfl]
  rw [intUntil_seg buf q _ 6 "100".toList '|' 100 9 (q + 6) _ hS rfl rfl rfl rfl rfl rfl]
  rw [listSeparator_seg buf q _ 9 '|' 10 (q + 9) _ hS rfl rfl rfl rfl]
  rw [intUntil_seg buf q _ 10 "200".toList ':' 200 13 (q + 10) _ hS rfl rfl rfl rfl rfl rfl]
  rw [expectChar_seg buf q _ 13 ':' 14 (q + 13) _ hS rfl rfl rfl]
  rw [intUntil_seg buf q _ 14 "50".toList ',' 50 16 (q + 14) _ hS rfl rfl rfl rfl rfl rfl]
  rw [listSeparator_seg buf q _ 16 ',' 17 (q + 16) _ hS rfl rfl rfl rfl]
  simp only [RowRes.andThen, Option.map]
  rw [intUntil_seg buf q _ 17 "1".toList ',' 1 18 (q + 17) _ hS rfl rfl rfl rfl rfl rfl]
  rw [expectChar_seg buf q _ 18 ',' 19 (q + 18) _ hS rfl rfl rfl]
  simp only [hfc.1, hdec, hcnt2, hmalloc, Bool.not_true, Bool.false_eq_true, if_false, intsLoop]
  rw [intUntil_seg buf q _ 25 "0".toList '|' 0 26 (q + 24 + 1) _ hS rfl rfl rfl rfl rfl rfl]
  rw [listSeparator_seg buf q _ 26 '|' 27 (q + 26) _ hS rfl rfl rfl rfl]
  rw [intUntil_seg buf q _ 27 "0".toList ',' 0 28 (q + 27) _ hS rfl rfl rfl rfl rfl rfl]
  rw [listSeparator_seg buf q _ 28 ',' 29 (q + 28) _ hS rfl rfl rfl rfl]
  simp only [RowRes.andThen, Option.map, hcnt3, hmalloc, Bool.not_true, Bool.false_eq_true,
    if_false, pairsLoop]
  rw [intUntil_seg buf q _ 29 "0".toList ':' 0 30 (q + 29) _ hS rfl rfl rfl rfl rfl rfl]
  rw [expectChar_seg buf q _ 30 ':' 31 (q + 30) _ hS rfl rfl rfl]
  rw [intUntil_seg buf q _ 31 "0".toList '|' 0 32 (q + 31) _ hS rfl rfl rfl rfl rfl rfl]
  rw [listSeparator_seg buf q _ 32 '|' 33 (q + 32) _ hS rfl rfl rfl rfl]
  rw [intUntil_seg buf q _ 33 "0".toList ':' 0 34 (q + 33) _ hS rfl rfl rfl rfl rfl rfl]
  rw [expectChar_seg buf q _ 34 ':' 35 (q + 34) _ hS rfl rfl rfl]
  rw [intUntil_seg buf q _ 35 "0".toList ',' 0 36 (q + 35) _ hS rfl rfl rfl rfl rfl rfl]
  rw [listSeparator_seg buf q _ 36 ',' 37 (q + 36) _ hS rfl rfl rfl rfl]

/-- C13: for all integers `x`, `y`, `t`, wherever the text
`x,y,t,2,0,B|100:100|200:50,1,150.0,0|0,0:0|0:0,0:0:0:0:` (decimal renderings)
stands in the buffer followed by a line terminator,
`osup_bm_parse_hit_objects_line` accepts it in the concrete environment with
curve type Bezier, the control points `[(100,100),(200,50)]` in order, slide
count 1, path length 150.0 (mantissa 1500, one fractional digit), the
edge-hitsound list `[0,0]` and the edge-set list `[(0,0),(0,0)]`. -/
theorem C13_slider_row (buf : Buf) (line : Nat) (x y t : Int)
    (hs : startsWith buf line (sliderLine x y t))
    (ht : osup_is_line_terminator (charAt buf (line + (sliderLine x y t).length)) = true) :
    osup_bm_parse_hit_objects_line specEnv buf line =
      { value := some { x := x, y := y, time := t, type := 2, hitSound := 0,
                        params := .slider
                          { curveType := OSUP_CURVE_BEZIER,
                            curvePoints := [(100, 100), (200, 50)],
                            slides := 1,
                            length := { mantissa := 1500, scale := 1 },
                            edgeSounds := [0, 0],
                            edgeSets := [(0, 0), (0, 0)] },
                        hitSample := { normalSet := 0, additionSet := 0, index := 0,
                                       volume := 0, filename := [] } },
        line := line + (sliderLine x y t).length } ∧
    decimalValue { mantissa := 1500, scale := 1 } = 150 := by
  refine ⟨?_, by norm_num [decimalValue]⟩
  have hsplit : sliderLine x y t =
      (showInt x ++ ',' :: (showInt y ++ ',' :: (showInt t ++ ',' ::
        ("2".toList ++ ',' :: ("0".toList ++ [',']))))) ++
        (sliderExampleParams ++ "0:0:0:0:".toList) := by
    simp [sliderLine, List.append_assoc]
  have l1 : "2".toList.length = 1 := rfl
  have l0 : "0".toList.length = 1 := rfl
  have l8 : "0:0:0:0:".toList.length = 8 := rfl
  have l37 : sliderExampleParams.length = 37 := rfl
  have hlenF : (showInt x ++ ',' :: (showInt y ++ ',' :: (showInt t ++ ',' ::
        ("2".toList ++ ',' :: ("0".toList ++ [',']))))).length =
      (showInt x).length + 1 + (showInt y).length + 1 + (showInt t).length + 1 + 1 + 1 + 1
        + 1 := by
    simp only [List.length_append, List.length_cons, List.length_nil, l1, l0]
    omega
  have hlen : (sliderLine x y t).length =
      (showInt x).length + 1 + (showInt y).length + 1 + (showInt t).length + 1 + 1 + 1 + 1 + 1
        + 37 + 8 := by
    rw [hsplit, List.length_append, hlenF, List.length_append, l37, l8]
  rw [hlen] at ht ⊢
  rw [hsplit, startsWith_append, hlenF] at hs
  obtain ⟨hfix, hrest⟩ := hs
  rw [startsWith_append, l37] at hrest
  obtain ⟨hslider, hsample⟩ := hrest
  have hF := hitObjectFixedFields_spec buf line x y t "2".toList "0".toList hfix
    (by decide) (by decide) (by decide) (by decide)
  have hcomma := hitObjectFixedFields_comma buf line x y t "2".toList "0".toList hfix
  rw [l1, l0] at hF hcomma
  have hq : line + (showInt x).length + 1 + (showInt y).length + 1 + (showInt t).length + 1
      + 1 + 1 + 1 + 1
      = line + ((showInt x).length + 1 + (showInt y).length + 1 + (showInt t).length + 1
        + 1 + 1 + 1 + 1) := by omega
  have hq8 : line + ((showInt x).length + 1 + (showInt y).length + 1 + (showInt t).length + 1
      + 1 + 1 + 1 + 1) + 37 + 8
      = line + ((showInt x).length + 1 + (showInt y).length + 1 + (showInt t).length + 1
        + 1 + 1 + 1 + 1 + 37 + 8) := by omega
  rw [← hq8] at ht
  rw [hit_objects_line_after_fixed specEnv buf line _ hF hcomma
    (by show countTypeBits (digitsValue "2".toList) = 1; decide)]
  have hslider' := sliderParams_example buf _ hslider
  have hparams : objectParams specEnv buf (digitsValue "2".toList)
      (line + (showInt x).length + 1 + (showInt y).length + 1 + (showInt t).length + 1
        + 1 + 1 + 1 + 1)
      = (sliderParams specEnv buf (line + ((showInt x).length + 1 + (showInt y).length + 1
            + (showInt t).length + 1 + 1 + 1 + 1 + 1))).andThen fun s line =>
          { value := some (.slider s), line := line } := by
    rw [hq]; rfl
  simp only [hparams, hslider', RowRes.andThen, hitSampleFields_default buf _ hsample ht, hq8]
  rfl

/-- C13 witness: the slider row
`10,20,30,2,0,B|100:100|200:50,1,150.0,0|0,0:0|0:0,0:0:0:0:` is accepted with
two control points, slide count 1 and path length 150.0. -/
theorem C13_slider_row_witness :
    (osup_bm_parse_hit_objects_line specEnv
      "10,20,30,2,0,B|100:100|200:50,1,150.0,0|0,0:0|0:0,0:0:0:0:\n".toList 0).value =
      some { x := 10, y := 20, time := 30, type := 2, hitSound := 0,
             params := .slider
               { curveType := OSUP_CURVE_BEZIER,
                 curvePoints := [(100, 100), (200, 50)],
                 slides := 1,
                 length := { mantissa := 1500, scale := 1 },
                 edgeSounds := [0, 0],
                 edgeSets := [(0, 0), (0, 0)] },
             hitSample := { normalSet := 0, additionSet := 0, index := 0,
                            volume := 0, filename := [] } } := by
  rw [(C13_slider_row
    "10,20,30,2,0,B|100:100|200:50,1,150.0,0|0,0:0|0:0,0:0:0:0:\n".toList 0 10 20 30
    ((check_prefix_eq_some_iff _ _ _ _).1
      (by decide : osup_check_prefix_and_advance
        "10,20,30,2,0,B|100:100|200:50,1,150.0,0|0,0:0|0:0,0:0:0:0:\n".toList
        (sliderLine 10 20 30) 0 = some 58)).1
    (by decide)).1]

/-! ## Header-only input and the line cursor -/

/-- C21: the buffer that holds only the header line `osu file format v14` is
rejected by `osup_beatmap_load_string` and the result model is left alone;
more generally every buffer whose version token is ended by end-of-input
(nothing follows the header line) is rejected, whatever its first 17
characters are. -/
theorem C21_header_only_rejected (env : Env) (fuel : Nat) (map : osup_bm) :
    osup_beatmap_load_string env fuel map "osu file format v14".toList = some (false, map) ∧
    ∀ (buf : Buf) (i : Nat), versionLoop buf magic.length 16 0 = some i →
      charAt buf (magic.length + i) = NUL →
      osup_beatmap_load_string env fuel map buf = some (false, map) := by
  refine ⟨load_string_of_magic env fuel map _ (by decide), fun buf i hv hn => ?_⟩
  unfold osup_beatmap_load_string
  by_cases hm : strncmp_is_zero buf = true
  · simp [hm]
  · simp only [hm, Bool.false_eq_true, if_false, hv]
    by_cases hc : osup_check_version
        { osup_bm_ctx.init map with version := versionText buf magic.length i } = true
    · simp [hc, hn]
    · simp [hc]

/-- C21 witness: the header-only buffer is rejected, and so is the buffer
`XXXXXXXXXXXXXXXXX14`, which gets past the prefix test and the version check
and is turned down by the end-of-input test after the version token. -/
theorem C21_header_only_rejected_witness :
    osup_beatmap_load_string specEnv 5 {} "osu file format v14".toList = some (false, {}) ∧
    strncmp_is_zero "XXXXXXXXXXXXXXXXX14".toList = false ∧
    osup_beatmap_load_string specEnv 5 {} "XXXXXXXXXXXXXXXXX14".toList = some (false, {}) :=
  ⟨(C21_header_only_rejected specEnv 5 {}).1, by decide,
   (C21_header_only_rejected specEnv 5 {}).2 "XXXXXXXXXXXXXXXXX14".toList 2 (by decide)
     (by decide)⟩

theorem advance_loop_first_terminator (buf : Buf) (check : Bool) :
    ∀ (fuel line p : Nat), buf.length - line ≤ fuel → line ≤ p →
      osup_is_line_terminator (charAt buf p) = true →
      (∀ j, line ≤ j → j < p → osup_is_line_terminator (charAt buf j) = false) →
      (check = false ∨ ∀ j, line ≤ j → j < p → isblank (charAt buf j) = true) →
      osup_advance_to_next_line_loop buf check fuel line
        = (true, if charAt buf p = NUL then p else p + 1) := by
  intro fuel
  induction fuel with
  | zero =>
    intro line p h hle ht hn _
    have hc := charAt_of_length_le buf line (by omega)
    have hp : p = line := by
      by_contra hne
      have := hn line (le_refl _) (by omega)
      rw [hc] at this
      exact absurd this (by decide)
    subst hp
    simp [osup_advance_to_next_line_loop, hc]
  | succ n ih =>
    intro line p h hle ht hn hb
    unfold osup_advance_to_next_line_loop
    by_cases hterm : osup_is_line_terminator (charAt buf line) = true
    · have hp : p = line := by
        by_contra hne
        have := hn line (le_refl _) (by omega)
        rw [hterm] at this
        exact absurd this (by decide)
      subst hp
      rcases (terminator_iff _).1 hterm with h0 | h1 | h1
      · simp [h0]
      · have : ¬ ('\r' = NUL) := by decide
        simp [h1, this]
      · have : ¬ ('\n' = NUL) := by decide
        simp [h1, this]
    · have hterm' : osup_is_line_terminator (charAt buf line) = false := by simpa using hterm
      have hlt : line < p := by
        rcases Nat.lt_or_ge line p with h1 | h1
        · exact h1
        · have : p = line := by omega
          subst this
          rw [ht] at hterm'
          exact absurd hterm' (by decide)
      have h0 : ¬ charAt buf line = NUL := fun h0 =>
        hterm ((terminator_iff _).2 (Or.inl h0))
      have h1 : (charAt buf line == '\r' || charAt buf line == '\n') = false := by
        rw [Bool.eq_false_iff]
        intro h1
        simp only [Bool.or_eq_true, beq_iff_eq] at h1
        exact hterm ((terminator_iff _).2 (Or.inr h1))
      have h2 : (check && !isblank (charAt buf line)) = false := by
        rcases hb with hb | hb
        · simp [hb]
        · simp [hb line (le_refl _) hlt]
      simp only [beq_iff_eq, h0, if_false, h1, h2, Bool.false_eq_true]
      exact ih (line + 1) p (by omega) hlt ht (fun j hj1 hj2 => hn j (by omega) hj2)
        (hb.imp id (fun hb j hj1 hj2 => hb j (by omega) hj2))

theorem advance_loop_first_nonblank (buf : Buf) :
    ∀ (fuel line q : Nat), buf.length - line ≤ fuel → line ≤ q →
      isblank (charAt buf q) = false → osup_is_line_terminator (charAt buf q) = false →
      (∀ j, line ≤ j → j < q → isblank (charAt buf j) = true) →
      osup_advance_to_next_line_loop buf true fuel line = (false, q) := by
  intro fuel
  induction fuel with
  | zero =>
    intro line q h hle hb ht hbl
    have hc := charAt_of_length_le buf line (by omega)
    rcases Nat.eq_or_lt_of_le hle with h1 | h1
    · subst h1
      rw [hc] at ht
      exact absurd ht (by decide)
    · have := hbl line (le_refl _) h1
      rw [hc] at this
      exact absurd this (by decide)
  | succ n ih =>
    intro line q h hle hb ht hbl
    unfold osup_advance_to_next_line_loop
    rcases Nat.eq_or_lt_of_le hle with h1 | h1
    · subst h1
      have h0 : ¬ charAt buf line = NUL := fun h0 => by
        rw [h0] at ht; exact absurd ht (by decide)
      have h2 : (charAt buf line == '\r' || charAt buf line == '\n') = false := by
        rw [Bool.eq_false_iff]
        intro h2
        simp only [Bool.or_eq_true, beq_iff_eq] at h2
        have := (terminator_iff _).2 (Or.inr h2)
        rw [ht] at this
        exact absurd this (by decide)
      simp [h0, h2, hb]
    · have hbk := hbl line (le_refl _) h1
      have hnt := not_terminator_of_isblank _ hbk
      have h0 : ¬ charAt buf line = NUL := fun h0 => by
        rw [h0] at hnt; exact absurd hnt (by decide)
      have h2 : (charAt buf line == '\r' || charAt buf line == '\n') = false := by
        rw [Bool.eq_false_iff]
        intro h2
        simp only [Bool.or_eq_true, beq_iff_eq] at h2
        have := (terminator_iff _).2 (Or.inr h2)
        rw [hnt] at this
        exact absurd this (by decide)
      simp only [beq_iff_eq, h0, if_false, h2, hbk, Bool.not_true, Bool.and_false,
        Bool.false_eq_true]
      exact ih (line + 1) q (by omega) h1 hb ht (fun j hj1 hj2 => hbl j (by omega) hj2)

/-- C23: let `p` be the position of the first line terminator (`\r`, `\n` or
the NUL that ends the input) at or after `line`.  With the non-blank check off
`osup_advance_to_next_line` succeeds and leaves the cursor just past `p` when
`p` holds `\r` or `\n`, and on `p` at end-of-input.  With the check on it
succeeds if and only if every character of `[line, p)` is a blank, and then it
returns the same cursor; otherwise it fails with the cursor on the first
non-blank character. -/
theorem C23_advance_to_next_line (buf : Buf) (line : Nat) :
    ∃ p, line ≤ p ∧ osup_is_line_terminator (charAt buf p) = true ∧
      (∀ j, line ≤ j → j < p → osup_is_line_terminator (charAt buf j) = false) ∧
      osup_advance_to_next_line buf line false
        = (true, if charAt buf p = NUL then p else p + 1) ∧
      ((osup_advance_to_next_line buf line true).1 = true ↔
        ∀ j, line ≤ j → j < p → isblank (charAt buf j) = true) ∧
      ((osup_advance_to_next_line buf line true).1 = true →
        osup_advance_to_next_line buf line true
          = (true, if charAt buf p = NUL then p else p + 1)) ∧
      (∀ q, line ≤ q → q < p → isblank (charAt buf q) = false →
        (∀ j, line ≤ j → j < q → isblank (charAt buf j) = true) →
        osup_advance_to_next_line buf line true = (false, q)) := by
  obtain ⟨a1, a2, a3, a4, _, _⟩ := last_nonblank_spec buf line
  have hfail : ∀ q, line ≤ q → q < (osup_advance_to_last_nonblank_char buf line).1 →
      isblank (charAt buf q) = false →
      (∀ j, line ≤ j → j < q → isblank (charAt buf j) = true) →
      osup_advance_to_next_line buf line true = (false, q) := fun q h1 h2 hb hbl =>
    advance_loop_first_nonblank buf _ line q (le_refl _) h1 hb (a4 q h1 h2) hbl
  have hok : (∀ j, line ≤ j → j < (osup_advance_to_last_nonblank_char buf line).1 →
        isblank (charAt buf j) = true) →
      osup_advance_to_next_line buf line true
        = (true, if charAt buf (osup_advance_to_last_nonblank_char buf line).1 = NUL
            then (osup_advance_to_last_nonblank_char buf line).1
            else (osup_advance_to_last_nonblank_char buf line).1 + 1) := fun hb =>
    advance_loop_first_terminator buf true _ line _ (le_refl _) (by omega) a3 a4 (Or.inr hb)
  have hiff : (osup_advance_to_next_line buf line true).1 = true ↔
      ∀ j, line ≤ j → j < (osup_advance_to_last_nonblank_char buf line).1 →
        isblank (charAt buf j) = true := by
    constructor
    · intro hs
      by_contra hne
      have hex : ∃ q, line ≤ q ∧ q < (osup_advance_to_last_nonblank_char buf line).1 ∧
          isblank (charAt buf q) = false := by
        by_contra hno
        apply hne
        intro j h1 h2
        by_contra hj
        exact hno ⟨j, h1, h2, by simpa using hj⟩
      have hmin : ∀ m, m < Nat.find hex → ¬ (line ≤ m ∧
          m < (osup_advance_to_last_nonblank_char buf line).1 ∧
          isblank (charAt buf m) = false) := fun m hm => Nat.find_min hex hm
      obtain ⟨h1, h2, h3⟩ := Nat.find_spec hex
      have := hfail (Nat.find hex) h1 h2 h3 (fun j hj1 hj2 => by
        by_contra hj
        exact hmin j hj2 ⟨hj1, by omega, by simpa using hj⟩)
      rw [this] at hs
      exact Bool.noConfusion hs
    · intro hb
      rw [hok hb]
  refine ⟨_, by omega, a3, a4, ?_, hiff, fun hs => hok (hiff.1 hs), hfail⟩
  exact advance_loop_first_terminator buf false _ line _ (le_refl _) (by omega) a3 a4
    (Or.inl rfl)

/-- C23 on concrete lines: without the check the cursor ends just past the
`\n` or on the end of the input; with the check a blank remainder is accepted
with the same cursor and `x` stops the scan at its own position. -/
theorem C23_advance_to_next_line_witness :
    osup_advance_to_next_line "ab\ncd".toList 0 false = (true, 3) ∧
    osup_advance_to_next_line "ab".toList 0 false = (true, 2) ∧
    osup_advance_to_next_line "] \t\r\nx".toList 1 true = (true, 4) ∧
    osup_advance_to_next_line "] \t\r\nx".toList 1 false = (true, 4) ∧
    osup_advance_to_next_line "]  x \n".toList 1 true = (false, 3) := by
  decide

/-- C24: `osup_advance_to_last_nonblank_char` right-trims a value.  For every
start `line` it returns the position `p` of the first line terminator at or
after `line` and sets the value end `e` with `line ≤ e ≤ p`, every character
of `[e, p)` blank and, when `e > line`, a non-blank character at `e - 1`; on a
line of blanks only, `e = line`.  The macro `OSUP_BM_KV_GET_VALUE` hands these
out as the value range `[line, e)` and the new cursor `p`. -/
theorem C24_right_trim (buf : Buf) (line : Nat) :
    line ≤ (osup_advance_to_last_nonblank_char buf line).1 ∧
    osup_is_line_terminator
      (charAt buf (osup_advance_to_last_nonblank_char buf line).1) = true ∧
    (∀ j, line ≤ j → j < (osup_advance_to_last_nonblank_char buf line).1 →
      osup_is_line_terminator (charAt buf j) = false) ∧
    line ≤ (osup_advance_to_last_nonblank_char buf line).2 ∧
    (osup_advance_to_last_nonblank_char buf line).2
      ≤ (osup_advance_to_last_nonblank_char buf line).1 ∧
    (∀ j, (osup_advance_to_last_nonblank_char buf line).2 ≤ j →
      j < (osup_advance_to_last_nonblank_char buf line).1 → isblank (charAt buf j) = true) ∧
    (line < (osup_advance_to_last_nonblank_char buf line).2 →
      isblank (charAt buf ((osup_advance_to_last_nonblank_char buf line).2 - 1)) = false) ∧
    ((∀ j, line ≤ j → j < (osup_advance_to_last_nonblank_char buf line).1 →
        isblank (charAt buf j) = true) →
      (osup_advance_to_last_nonblank_char buf line).2 = line) ∧
    OSUP_BM_KV_GET_VALUE buf line =
      { valueBegin := line, valueEnd := (osup_advance_to_last_nonblank_char buf line).2,
        line := (osup_advance_to_last_nonblank_char buf line).1 } := by
  obtain ⟨a1, a2, a3, a4, a5, a6⟩ := last_nonblank_spec buf line
  refine ⟨by omega, a3, a4, a1, a2, a5, fun hlt => ?_, fun hb => ?_, rfl⟩
  · rcases a6 with h | h
    · omega
    · exact h.2
  · rcases a6 with h | h
    · exact h
    · have := hb ((osup_advance_to_last_nonblank_char buf line).2 - 1) (by omega) (by omega)
      rw [h.2] at this
      exact absurd this (by decide)

/-- C24 on concrete lines: `ab  ` is trimmed to `ab`, a line of blanks gives
the empty value, and without a terminator the scan stops at the end of the
input. -/
theorem C24_right_trim_witness :
    osup_advance_to_last_nonblank_char "k:ab c \t\r\n".toList 2 = (8, 6) ∧
    osup_advance_to_last_nonblank_char "k:  \n".toList 2 = (4, 2) ∧
    osup_advance_to_last_nonblank_char "k:ab".toList 2 = (4, 4) ∧
    OSUP_BM_KV_GET_VALUE "k:ab c \t\r\n".toList 2 = { valueBegin := 2, valueEnd := 6, line := 8 } := by
  decide

/-! ## Stream reader -/

/-- C22 (the defect): the status returned by `osup_beatmap_load_stream` is
decided by the header alone.  It is success exactly when the stream begins
with the 17 characters of the magic prefix and the version token is `14`;
what `osup_bm_nextline` returns for the lines that follow has no part in
it. -/
theorem C22_stream_status_ignores_lines (env : Env) (map : osup_bm) (file : List Char) :
    (osup_beatmap_load_stream env map file).1 = true ↔
      (magic.length ≤ file.length ∧ memeq file 0 magic = true ∧
        ∃ i, versionLoop file magic.length 16 0 = some i ∧
          versionText file magic.length i = "14".toList) := by
  unfold osup_beatmap_load_stream
  by_cases h1 : file.length < magic.length
  · simp only [h1, decide_True, Bool.true_or, if_true]
    constructor
    · intro h; exact Bool.noConfusion h
    · rintro ⟨h, _⟩; omega
  · by_cases h2 : memeq file 0 magic = true
    · simp only [h1, decide_False, h2, Bool.not_true, Bool.or_self, Bool.false_eq_true,
        if_false, true_and]
      cases hv : versionLoop file magic.length 16 0 with
      | none =>
        constructor
        · intro h; exact Bool.noConfusion h
        · rintro ⟨_, i, hi, _⟩; exact Option.noConfusion hi
      | some i =>
        by_cases hc : versionText file magic.length i = "14".toList
        · have hc' : osup_check_version
              { osup_bm_ctx.init map with version := versionText file magic.length i }
              = true := beq_iff_eq.2 hc
          simp only [hc', Bool.not_true, Bool.false_eq_true, if_false, true_iff]
          exact ⟨by omega, i, rfl, hc⟩
        · have hc' : osup_check_version
              { osup_bm_ctx.init map with version := versionText file magic.length i }
              = false := beq_false_of_ne hc
          simp only [hc', Bool.not_false, if_true]
          constructor
          · intro h; exact Bool.noConfusion h
          · rintro ⟨_, j, hj, hj2⟩
            cases hj
            exact absurd hj2 hc
    · simp only [h2, Bool.not_false, Bool.or_true, if_true]
      constructor
      · intro h; exact Bool.noConfusion h
      · rintro ⟨_, h, _⟩; exact Bool.noConfusion h

/-- C22 at the failing inputs: the stream `osu file format v14`, `[Bogus]` is
reported as a success although its one line is rejected by `osup_bm_nextline`
(and ends the line loop of the buffer decoder with failure); likewise for the
HitObjects row `bad`. -/
theorem C22_stream_status_ignores_lines_witness :
    (osup_beatmap_load_stream specEnv {} "osu file format v14\n[Bogus]\n".toList).1 = true ∧
    getlines ("osu file format v14\n[Bogus]\n".toList.drop 20) = ["[Bogus]\n".toList] ∧
    (osup_bm_nextline specEnv "[Bogus]\n".toList
      { osup_bm_ctx.init {} with version := "14".toList } 0).ok = false ∧
    linesAccepted specEnv { osup_bm_ctx.init {} with version := "14".toList }
      (getlines ("osu file format v14\n[Bogus]\n".toList.drop 20)) = false ∧
    lineLoop specEnv "[Bogus]\n".toList 3
      { osup_bm_ctx.init {} with version := "14".toList } 0 = some (false, {}) ∧
    (osup_beatmap_load_stream specEnv {}
      "osu file format v14\n[HitObjects]\nbad\n".toList).1 = true ∧
    linesAccepted specEnv { osup_bm_ctx.init {} with version := "14".toList }
      (getlines ("osu file format v14\n[HitObjects]\nbad\n".toList.drop 20)) = false :=
  ⟨(C22_stream_status_ignores_lines specEnv {} "osu file format v14\n[Bogus]\n".toList).2
      ⟨by decide, by decide, 2, by decide, by decide⟩,
   by decide, by decide, by decide, by decide,
   (C22_stream_status_ignores_lines specEnv {}
      "osu file format v14\n[HitObjects]\nbad\n".toList).2
      ⟨by decide, by decide, 2, by decide, by decide⟩,
   by decide⟩

/-! ## Growable record lists -/

theorem kvParse_records {α : Type} (parse : Buf → Nat → Nat → Option α) (buf : Buf)
    (map : osup_bm) (line : Nat) (pfx : String) (set : osup_bm → α → osup_bm) (next : Res)
    (hset : ∀ m a, recordLists (set m a) = recordLists m)
    (hnext : recordLists next.map = recordLists map) :
    recordLists (kvParse parse buf map line pfx set next).map = recordLists map := by
  unfold kvParse
  split
  · dsimp only
    split
    · exact hset _ _
    · rfl
  · exact hnext

theorem intEnum_records (env : Env) (buf : Buf) (map : osup_bm) (line : Nat) (pfx : String)
    (set : osup_bm → Int → osup_bm) (lo hi : Int) (next : Res)
    (hset : ∀ m a, recordLists (set m a) = recordLists m)
    (hnext : recordLists next.map = recordLists map) :
    recordLists (OSUP_BM_KV_PARSE_INT_ENUM env buf map line pfx set lo hi next).map
      = recordLists map := by
  unfold OSUP_BM_KV_PARSE_INT_ENUM
  split
  · dsimp only
    split
    · split
      · rfl
      · exact hset _ _
    · rfl
  · exact hnext

theorem stringEnum_records (buf : Buf) (map : osup_bm) (v : KvValue)
    (set : osup_bm → Int → osup_bm) (s : String) (value : Int) (next : Res)
    (hset : ∀ m a, recordLists (set m a) = recordLists m)
    (hnext : recordLists next.map = recordLists map) :
    recordLists (OSUP_BM_KV_CHECK_STRING_ENUM buf map v set s value next).map
      = recordLists map := by
  unfold OSUP_BM_KV_CHECK_STRING_ENUM
  split
  · exact hset _ _
  · exact hnext

theorem general_line_records (env : Env) (buf : Buf) (map : osup_bm) (line : Nat) :
    recordLists (osup_bm_parse_general_line env buf map line).map = recordLists map := by
  unfold osup_bm_parse_general_line
  simp only [OSUP_BM_KV_PARSE_STRING, OSUP_BM_KV_PARSE_INT, OSUP_BM_KV_PARSE_BOOL,
    OSUP_BM_KV_PARSE_DECIMAL]
  repeat' first
    | exact rfl
    | (intro _ _; rfl)
    | apply kvParse_records
    | apply intEnum_records
    | apply stringEnum_records
    | split

theorem editor_line_records (env : Env) (buf : Buf) (map : osup_bm) (line : Nat) :
    recordLists (osup_bm_parse_editor_line env buf map line).map = recordLists map := by
  unfold osup_bm_parse_editor_line
  simp only [OSUP_BM_KV_PARSE_INT, OSUP_BM_KV_PARSE_DECIMAL]
  repeat' first
    | exact rfl
    | (intro _ _; rfl)
    | apply kvParse_records
    | split

theorem metadata_line_records (env : Env) (buf : Buf) (map : osup_bm) (line : Nat) :
    recordLists (osup_bm_parse_metadata_line env buf map line).map = recordLists map := by
  unfold osup_bm_parse_metadata_line
  simp only [OSUP_BM_KV_PARSE_STRING, OSUP_BM_KV_PARSE_INT]
  repeat' first
    | exact rfl
    | (intro _ _; rfl)
    | apply kvParse_records
    | split

theorem difficulty_line_records (env : Env) (buf : Buf) (map : osup_bm) (line : Nat) :
    recordLists (osup_bm_parse_difficulty_line env buf map line).map = recordLists map := by
  unfold osup_bm_parse_difficulty_line
  simp only [OSUP_BM_KV_PARSE_DECIMAL]
  repeat' first
    | exact rfl
    | (intro _ _; rfl)
    | apply kvParse_records

theorem colors_line_records (env : Env) (buf : Buf) (map : osup_bm) (line : Nat) :
    recordLists (osup_bm_parse_colors_line env buf map line).map = recordLists map := by
  unfold osup_bm_parse_colors_line
  simp only [OSUP_BM_KV_PARSE_RGB]
  repeat' first
    | exact rfl
    | (intro _ _; rfl)
    | apply kvParse_records
    | split

theorem grownCapacity_gt (n : Nat) : n < grownCapacity n := by
  unfold grownCapacity
  omega

theorem grownCapacity_floor (n : Nat) :
    grownCapacity n = ⌊(3 / 2 : ℚ) * ((n : ℚ) + 1)⌋₊ := by
  unfold grownCapacity
  have h : (3 / 2 : ℚ) * ((n : ℚ) + 1) = (((n + 1) * 3 : ℕ) : ℚ) / ((2 : ℕ) : ℚ) := by
    push_cast
    ring
  rw [h, Nat.floor_div_eq_div]

theorem ofRes_capacityInv (ctx : osup_bm_ctx) (r : Res) (h : capacityInv ctx)
    (hr : recordLists r.map = recordLists ctx.map) : capacityInv (NextRes.ofRes ctx r).ctx := by
  simp only [recordLists, Prod.mk.injEq] at hr
  obtain ⟨e1, e2, e3⟩ := hr
  unfold capacityInv at h ⊢
  simp only [NextRes.ofRes, e1, e2, e3]
  exact h

theorem sectionHeader_capacityInv (buf : Buf) (ctx : osup_bm_ctx) (line : Nat) (header : String)
    (sec : osup_bm_section) (next : NextRes) (h : capacityInv ctx)
    (hnext : capacityInv next.ctx) :
    capacityInv (sectionHeader buf ctx line header sec next).ctx := by
  unfold sectionHeader
  split
  · exact h
  · exact hnext

/-- What the Events branch of the dispatcher does to the capacity: it is raised
to `grownCapacity count` when the list is full and kept otherwise, so the slot
at index `count` lies below it; at most one record is appended. -/
theorem nextlineDefault_events_capacity (env : Env) (buf : Buf) (ctx : osup_bm_ctx)
    (line : Nat) (hs : ctx.«section» = OSUP_BM_SECTION_EVENTS) :
    (nextlineDefault env buf ctx line).ctx.eventCapacity
      = (if ctx.map.events.length ≥ ctx.eventCapacity
          then grownCapacity ctx.map.events.length else ctx.eventCapacity) ∧
    (nextlineDefault env buf ctx line).ctx.map.events.length ≤ ctx.map.events.length + 1 ∧
    (nextlineDefault env buf ctx line).ctx.timingpointCapacity = ctx.timingpointCapacity ∧
    (nextlineDefault env buf ctx line).ctx.hitObjectCapacity = ctx.hitObjectCapacity ∧
    (nextlineDefault env buf ctx line).ctx.map.timingPoints = ctx.map.timingPoints ∧
    (nextlineDefault env buf ctx line).ctx.map.hitObjects = ctx.map.hitObjects ∧
    (ctx.map.events.length ≥ ctx.eventCapacity →
      env.realloc (grownCapacity ctx.map.events.length) = false →
      nextlineDefault env buf ctx line
        = { ok := false,
            ctx := { ctx with eventCapacity := grownCapacity ctx.map.events.length },
            line := line }) := by
  unfold nextlineDefault
  rw [hs]
  by_cases hcap : ctx.map.events.length ≥ ctx.eventCapacity
  · cases hr : env.realloc (grownCapacity ctx.map.events.length)
    · simp [hcap, hr]
    · cases hv : (osup_bm_parse_events_line env buf line).value <;> simp [hcap, hr, hv]
  · cases hv : (osup_bm_parse_events_line env buf line).value <;> simp [hcap, hv]

theorem nextlineDefault_timing_points_capacity (env : Env) (buf : Buf) (ctx : osup_bm_ctx)
    (line : Nat) (hs : ctx.«section» = OSUP_BM_SECTION_TIMING_POINTS) :
    (nextlineDefault env buf ctx line).ctx.timingpointCapacity
      = (if ctx.map.timingPoints.length ≥ ctx.timingpointCapacity
          then grownCapacity ctx.map.timingPoints.length else ctx.timingpointCapacity) ∧
    (nextlineDefault env buf ctx line).ctx.map.timingPoints.length
      ≤ ctx.map.timingPoints.length + 1 ∧
    (nextlineDefault env buf ctx line).ctx.eventCapacity = ctx.eventCapacity ∧
    (nextlineDefault env buf ctx line).ctx.hitObjectCapacity = ctx.hitObjectCapacity ∧
    (nextlineDefault env buf ctx line).ctx.map.events = ctx.map.events ∧
    (nextlineDefault env buf ctx line).ctx.map.hitObjects = ctx.map.hitObjects ∧
    (ctx.map.timingPoints.length ≥ ctx.timingpointCapacity →
      env.realloc (grownCapacity ctx.map.timingPoints.length) = false →
      nextlineDefault env buf ctx line
        = { ok := false,
            ctx := { ctx with
              timingpointCapacity := grownCapacity ctx.map.timingPoints.length },
            line := line }) := by
  unfold nextlineDefault
  rw [hs]
  by_cases hcap : ctx.map.timingPoints.length ≥ ctx.timingpointCapacity
  · cases hr : env.realloc (grownCapacity ctx.map.timingPoints.length)
    · simp [hcap, hr]
    · cases hv : (osup_bm_parse_timing_points_line env buf line).value <;>
        simp [hcap, hr, hv]
  · cases hv : (osup_bm_parse_timing_points_line env buf line).value <;> simp [hcap, hv]

theorem nextlineDefault_hit_objects_capacity (env : Env) (buf : Buf) (ctx : osup_bm_ctx)
    (line : Nat) (hs : ctx.«section» = OSUP_BM_SECTION_HIT_OBJECTS) :
    (nextlineDefault env buf ctx line).ctx.hitObjectCapacity
      = (if ctx.map.hitObjects.length ≥ ctx.hitObjectCapacity
          then grownCapacity ctx.map.hitObjects.length else ctx.hitObjectCapacity) ∧
    (nextlineDefault env buf ctx line).ctx.map.hitObjects.length
      ≤ ctx.map.hitObjects.length + 1 ∧
    (nextlineDefault env buf ctx line).ctx.eventCapacity = ctx.eventCapacity ∧
    (nextlineDefault env buf ctx line).ctx.timingpointCapacity = ctx.timingpointCapacity ∧
    (nextlineDefault env buf ctx line).ctx.map.events = ctx.map.events ∧
    (nextlineDefault env buf ctx line).ctx.map.timingPoints = ctx.map.timingPoints ∧
    (ctx.map.hitObjects.length ≥ ctx.hitObjectCapacity →
      env.realloc (grownCapacity ctx.map.hitObjects.length) = false →
      nextlineDefault env buf ctx line
        = { ok := false,
            ctx := { ctx with hitObjectCapacity := grownCapacity ctx.map.hitObjects.length },
            line := line }) := by
  unfold nextlineDefault
  rw [hs]
  by_cases hcap : ctx.map.hitObjects.length ≥ ctx.hitObjectCapacity
  · cases hr : env.realloc (grownCapacity ctx.map.hitObjects.length)
    · simp [hcap, hr]
    · cases hv : (osup_bm_parse_hit_objects_line env buf line).value <;>
        simp [hcap, hr, hv]
  · cases hv : (osup_bm_parse_hit_objects_line env buf line).value <;> simp [hcap, hv]

theorem nextlineDefault_capacityInv (env : Env) (buf : Buf) (ctx : osup_bm_ctx) (line : Nat)
    (h : capacityInv ctx) : capacityInv (nextlineDefault env buf ctx line).ctx := by
  cases hs : ctx.«section» with
  | OSUP_BM_SECTION_GENERAL =>
    unfold nextlineDefault; rw [hs]
    exact ofRes_capacityInv ctx _ h (general_line_records env buf ctx.map line)
  | OSUP_BM_SECTION_EDITOR =>
    unfold nextlineDefault; rw [hs]
    exact ofRes_capacityInv ctx _ h (editor_line_records env buf ctx.map line)
  | OSUP_BM_SECTION_METADATA =>
    unfold nextlineDefault; rw [hs]
    exact ofRes_capacityInv ctx _ h (metadata_line_records env buf ctx.map line)
  | OSUP_BM_SECTION_DIFFICULTY =>
    unfold nextlineDefault; rw [hs]
    exact ofRes_capacityInv ctx _ h (difficulty_line_records env buf ctx.map line)
  | OSUP_BM_SECTION_COLORS =>
    unfold nextlineDefault; rw [hs]
    exact ofRes_capacityInv ctx _ h (colors_line_records env buf ctx.map line)
  | OSUP_BM_SECTION_EVENTS =>
    obtain ⟨c1, c2, c3, c4, c5, c6, _⟩ := nextlineDefault_events_capacity env buf ctx line hs
    have hg := grownCapacity_gt ctx.map.events.length
    unfold capacityInv at h ⊢
    rw [c1, c3, c4, c5, c6]
    refine ⟨?_, h.2.1, h.2.2⟩
    split <;> omega
  | OSUP_BM_SECTION_TIMING_POINTS =>
    obtain ⟨c1, c2, c3, c4, c5, c6, _⟩ :=
      nextlineDefault_timing_points_capacity env buf ctx line hs
    have hg := grownCapacity_gt ctx.map.timingPoints.length
    unfold capacityInv at h ⊢
    rw [c1, c3, c4, c5, c6]
    refine ⟨h.1, ?_, h.2.2⟩
    split <;> omega
  | OSUP_BM_SECTION_HIT_OBJECTS =>
    obtain ⟨c1, c2, c3, c4, c5, c6, _⟩ :=
      nextlineDefault_hit_objects_capacity env buf ctx line hs
    have hg := grownCapacity_gt ctx.map.hitObjects.length
    unfold capacityInv at h ⊢
    rw [c1, c3, c4, c5, c6]
    refine ⟨h.1, h.2.1, ?_⟩
    split <;> omega

theorem nextline_capacityInv (env : Env) (buf : Buf) (ctx : osup_bm_ctx) (line : Nat)
    (h : capacityInv ctx) : capacityInv (osup_bm_nextline env buf ctx line).ctx := by
  unfold osup_bm_nextline
  dsimp only
  split
  · split
    · exact h
    · exact h
  · split
    · exact h
    · split
      · repeat' first
          | exact h
          | apply sectionHeader_capacityInv
      · exact nextlineDefault_capacityInv env buf ctx line h

/-- C25: the growable lists keep `count ≤ capacity`.  The invariant holds for
the freshly initialised context over a result model with empty lists
(`count = capacity = 0`), and every call of `osup_bm_nextline` preserves it.
On a content line of the Events, TimingPoints or HitObjects section the
capacity in force when the row decoder gets the slot at index `count` is
`grownCapacity count` if the list was full and the old capacity otherwise, and
it is strictly greater than `count`; when the list is full and `realloc`
refuses, the call fails without running the row decoder.  The grown capacity
is `floor(1.5 * (count + 1))`, which exceeds `count`. -/
theorem C25_growable_list_invariant (env : Env) (buf : Buf) (ctx : osup_bm_ctx) (line : Nat) :
    (∀ map : osup_bm, map.events = [] → map.timingPoints = [] → map.hitObjects = [] →
      capacityInv (osup_bm_ctx.init map)) ∧
    (capacityInv ctx → capacityInv (osup_bm_nextline env buf ctx line).ctx) ∧
    (isContentChar (charAt buf line) = true →
      (ctx.«section» = OSUP_BM_SECTION_EVENTS →
        ctx.map.events.length < (osup_bm_nextline env buf ctx line).ctx.eventCapacity ∧
        (osup_bm_nextline env buf ctx line).ctx.eventCapacity
          = (if ctx.map.events.length ≥ ctx.eventCapacity
              then grownCapacity ctx.map.events.length else ctx.eventCapacity) ∧
        (ctx.map.events.length ≥ ctx.eventCapacity →
          env.realloc (grownCapacity ctx.map.events.length) = false →
          osup_bm_nextline env buf ctx line
            = { ok := false,
                ctx := { ctx with eventCapacity := grownCapacity ctx.map.events.length },
                line := line })) ∧
      (ctx.«section» = OSUP_BM_SECTION_TIMING_POINTS →
        ctx.map.timingPoints.length
          < (osup_bm_nextline env buf ctx line).ctx.timingpointCapacity ∧
        (osup_bm_nextline env buf ctx line).ctx.timingpointCapacity
          = (if ctx.map.timingPoints.length ≥ ctx.timingpointCapacity
              then grownCapacity ctx.map.timingPoints.length
              else ctx.timingpointCapacity) ∧
        (ctx.map.timingPoints.length ≥ ctx.timingpointCapacity →
          env.realloc (grownCapacity ctx.map.timingPoints.length) = false →
          osup_bm_nextline env buf ctx line
            = { ok := false,
                ctx := { ctx with
                  timingpointCapacity := grownCapacity ctx.map.timingPoints.length },
                line := line })) ∧
      (ctx.«section» = OSUP_BM_SECTION_HIT_OBJECTS →
        ctx.map.hitObjects.length < (osup_bm_nextline env buf ctx line).ctx.hitObjectCapacity ∧
        (osup_bm_nextline env buf ctx line).ctx.hitObjectCapacity
          = (if ctx.map.hitObjects.length ≥ ctx.hitObjectCapacity
              then grownCapacity ctx.map.hitObjects.length else ctx.hitObjectCapacity) ∧
        (ctx.map.hitObjects.length ≥ ctx.hitObjectCapacity →
          env.realloc (grownCapacity ctx.map.hitObjects.length) = false →
          osup_bm_nextline env buf ctx line
            = { ok := false,
                ctx := { ctx with
                  hitObjectCapacity := grownCapacity ctx.map.hitObjects.length },
                line := line }))) ∧
    (∀ n : Nat, grownCapacity n = ⌊(3 / 2 : ℚ) * ((n : ℚ) + 1)⌋₊ ∧ n < grownCapacity n) := by
  refine ⟨fun map h1 h2 h3 => ?_, nextline_capacityInv env buf ctx line, fun hc => ?_,
    fun n => ⟨grownCapacity_floor n, grownCapacity_gt n⟩⟩
  · unfold capacityInv
    simp [osup_bm_ctx.init, h1, h2, h3]
  · rw [nextline_content env buf ctx line hc]
    refine ⟨fun hs => ?_, fun hs => ?_, fun hs => ?_⟩
    · obtain ⟨c1, _, _, _, _, _, c7⟩ := nextlineDefault_events_capacity env buf ctx line hs
      have hg := grownCapacity_gt ctx.map.events.length
      refine ⟨?_, c1, c7⟩
      rw [c1]
      split <;> omega
    · obtain ⟨c1, _, _, _, _, _, c7⟩ :=
        nextlineDefault_timing_points_capacity env buf ctx line hs
      have hg := grownCapacity_gt ctx.map.timingPoints.length
      refine ⟨?_, c1, c7⟩
      rw [c1]
      split <;> omega
    · obtain ⟨c1, _, _, _, _, _, c7⟩ :=
        nextlineDefault_hit_objects_capacity env buf ctx line hs
      have hg := grownCapacity_gt ctx.map.hitObjects.length
      refine ⟨?_, c1, c7⟩
      rw [c1]
      split <;> omega

/-- C25 on two circle rows decoded one after the other in the HitObjects
section, starting from an empty list: the capacity goes 0, 1, 3 while the
count goes 0, 1, 2, and the invariant holds after the second call. -/
theorem C25_growable_list_invariant_witness :
    (osup_bm_nextline specEnv "256,192,350,1,0,0:0:0:0:\n".toList
      { osup_bm_ctx.init {} with «section» := OSUP_BM_SECTION_HIT_OBJECTS } 0).ctx.hitObjectCapacity
      = 1 ∧
    (osup_bm_nextline specEnv "256,192,350,1,0,0:0:0:0:\n".toList
      (osup_bm_nextline specEnv "256,192,350,1,0,0:0:0:0:\n".toList
        { osup_bm_ctx.init {} with «section» := OSUP_BM_SECTION_HIT_OBJECTS } 0).ctx
      0).ctx.hitObjectCapacity = 3 ∧
    (osup_bm_nextline specEnv "256,192,350,1,0,0:0:0:0:\n".toList
      (osup_bm_nextline specEnv "256,192,350,1,0,0:0:0:0:\n".toList
        { osup_bm_ctx.init {} with «section» := OSUP_BM_SECTION_HIT_OBJECTS } 0).ctx
      0).ctx.map.hitObjects.length = 2 ∧
    capacityInv
      (osup_bm_nextline specEnv "256,192,350,1,0,0:0:0:0:\n".toList
        (osup_bm_nextline specEnv "256,192,350,1,0,0:0:0:0:\n".toList
          { osup_bm_ctx.init {} with «section» := OSUP_BM_SECTION_HIT_OBJECTS } 0).ctx
        0).ctx :=
  ⟨by decide, by decide, by decide,
   (C25_growable_list_invariant specEnv "256,192,350,1,0,0:0:0:0:\n".toList _ 0).2.1
     ((C25_growable_list_invariant specEnv "256,192,350,1,0,0:0:0:0:\n".toList _ 0).2.1
       ((C25_growable_list_invariant specEnv [] (osup_bm_ctx.init {}) 0).1 {} rfl rfl rfl))⟩

/-! ## Keys of the key-value sections -/

theorem no_key_of_check (buf : Buf) (line : Nat) (keys : List String)
    (h : keys.all (fun k => (osup_check_prefix_and_advance buf k.toList line).isNone) = true) :
    ∀ k ∈ keys, ¬ startsWith buf line k.toList := by
  intro k hk
  rw [List.all_eq_true] at h
  have := h k hk
  rw [Option.isNone_iff_eq_none] at this
  exact (check_prefix_eq_none_iff buf _ _).1 this

/-- C27: in each of the five key-value decoders a line that begins with none
of the decoder's key prefixes is rejected, and the result model and the cursor
are left as they were.  The prefixes are compared character by character, so a
key in another case or spelling is no key. -/
theorem C27_no_key_line_fails (env : Env) (buf : Buf) (map : osup_bm) (line : Nat) :
    ((∀ k ∈ generalKeys, ¬ startsWith buf line k.toList) →
      osup_bm_parse_general_line env buf map line
        = { ok := false, map := map, line := line }) ∧
    ((∀ k ∈ editorKeys, ¬ startsWith buf line k.toList) →
      osup_bm_parse_editor_line env buf map line
        = { ok := false, map := map, line := line }) ∧
    ((∀ k ∈ metadataKeys, ¬ startsWith buf line k.toList) →
      osup_bm_parse_metadata_line env buf map line
        = { ok := false, map := map, line := line }) ∧
    ((∀ k ∈ difficultyKeys, ¬ startsWith buf line k.toList) →
      osup_bm_parse_difficulty_line env buf map line
        = { ok := false, map := map, line := line }) ∧
    ((∀ k ∈ colorsKeys, ¬ startsWith buf line k.toList) →
      osup_bm_parse_colors_line env buf map line
        = { ok := false, map := map, line := line }) := by
  refine ⟨general_line_no_key env buf map line, fun h => ?_, fun h => ?_, fun h => ?_,
    fun h => ?_⟩
  · have hk : ∀ k ∈ editorKeys, osup_check_prefix_and_advance buf k.toList line = none :=
      fun k hm => (check_prefix_eq_none_iff buf _ _).2 (h k hm)
    simp only [osup_bm_parse_editor_line, OSUP_BM_KV_PARSE_INT, OSUP_BM_KV_PARSE_DECIMAL,
      kvParse,
      hk "DistanceSpacing: " (by decide),
      hk "BeatDivisor: " (by decide),
      hk "TimelineZoom: " (by decide),
      hk "GridSize: " (by decide),
      hk "Bookmarks: " (by decide)]
  · have hk : ∀ k ∈ metadataKeys, osup_check_prefix_and_advance buf k.toList line = none :=
      fun k hm => (check_prefix_eq_none_iff buf _ _).2 (h k hm)
    simp only [osup_bm_parse_metadata_line, OSUP_BM_KV_PARSE_STRING, OSUP_BM_KV_PARSE_INT,
      kvParse,
      hk "Title:" (by decide),
      hk "TitleUnicode:" (by decide),
      hk "Artist:" (by decide),
      hk "ArtistUnicode:" (by decide),
      hk "Creator:" (by decide),
      hk "Version:" (by decide),
      hk "Source:" (by decide),
      hk "BeatmapID:" (by decide),
      hk "BeatmapSetID:" (by decide),
      hk "Tags:" (by decide)]
  · have hk : ∀ k ∈ difficultyKeys, osup_check_prefix_and_advance buf k.toList line = none :=
      fun k hm => (check_prefix_eq_none_iff buf _ _).2 (h k hm)
    simp only [osup_bm_parse_difficulty_line, OSUP_BM_KV_PARSE_DECIMAL, kvParse,
      hk "HPDrainRate:" (by decide),
      hk "CircleSize:" (by decide),
      hk "OverallDifficulty:" (by decide),
      hk "ApproachRate:" (by decide),
      hk "SliderMultiplier:" (by decide),
      hk "SliderTickRate:" (by decide)]
  · have hk : ∀ k ∈ colorsKeys, osup_check_prefix_and_advance buf k.toList line = none :=
      fun k hm => (check_prefix_eq_none_iff buf _ _).2 (h k hm)
    simp only [osup_bm_parse_colors_line, OSUP_BM_KV_PARSE_RGB, kvParse,
      hk "SliderTrackOverride : " (by decide),
      hk "SliderBorder : " (by decide),
      hk "Combo" (by decide)]

/-- C27 on concrete lines: a key in lower case, a key with a space before the
colon, a key of another section and an unknown key are all rejected, with the
result model and the cursor unchanged. -/
theorem C27_no_key_line_fails_witness :
    osup_bm_parse_difficulty_line specEnv "hpdrainrate:5\n".toList {} 0
      = { ok := false, map := {}, line := 0 } ∧
    osup_bm_parse_difficulty_line specEnv "HPDrainRate :5\n".toList {} 0
      = { ok := false, map := {}, line := 0 } ∧
    osup_bm_parse_general_line specEnv "audioleadin: 0\n".toList {} 0
      = { ok := false, map := {}, line := 0 } ∧
    osup_bm_parse_editor_line specEnv "GridSize:4\n".toList {} 0
      = { ok := false, map := {}, line := 0 } ∧
    osup_bm_parse_metadata_line specEnv "Titel:x\n".toList {} 0
      = { ok := false, map := {}, line := 0 } ∧
    osup_bm_parse_colors_line specEnv "combo1 : 1,2,3\n".toList {} 0
      = { ok := false, map := {}, line := 0 } :=
  ⟨(C27_no_key_line_fails specEnv "hpdrainrate:5\n".toList {} 0).2.2.2.1
      (no_key_of_check _ _ _ (by decide)),
   (C27_no_key_line_fails specEnv "HPDrainRate :5\n".toList {} 0).2.2.2.1
      (no_key_of_check _ _ _ (by decide)),
   (C27_no_key_line_fails specEnv "audioleadin: 0\n".toList {} 0).1
      (no_key_of_check _ _ _ (by decide)),
   (C27_no_key_line_fails specEnv "GridSize:4\n".toList {} 0).2.1
      (no_key_of_check _ _ _ (by decide)),
   (C27_no_key_line_fails specEnv "Titel:x\n".toList {} 0).2.2.1
      (no_key_of_check _ _ _ (by decide)),
   (C27_no_key_line_fails specEnv "combo1 : 1,2,3\n".toList {} 0).2.2.2.2
      (no_key_of_check _ _ _ (by decide))⟩

theorem slice_head (buf : Buf) (b e : Nat) :
    slice buf b e = [] ∨ ∃ rest, slice buf b e = charAt buf b :: rest := by
  unfold slice
  cases hd : buf.drop b with
  | nil => left; simp
  | cons c cs =>
    cases he : e - b with
    | zero => left; simp
    | succ n =>
      right
      refine ⟨cs.take n, ?_⟩
      have hb : b < buf.length := by
        by_contra hge
        rw [List.drop_eq_nil_of_le (by omega)] at hd
        exact List.noConfusion hd
      have hc : charAt buf b = c := by
        rw [charAt_eq_getElem buf b hb]
        have := List.drop_eq_getElem_cons hb
        rw [hd] at this
        exact ((List.cons.inj this).1).symm
      rw [hc, List.take_succ_cons]

theorem specParseInt_nondigit (buf : Buf) (b e : Nat) (hd : isdigit (charAt buf b) = false)
    (hm : charAt buf b ≠ '-') : specParseInt buf b e = none := by
  unfold specParseInt
  rcases slice_head buf b e with h | ⟨rest, h⟩
  · rw [h]; rfl
  · rw [h]
    split
    · rename_i ds heq
      exact absurd (List.cons.inj heq).1 hm
    · simp [isNumeral, hd]

/-- On a line that begins with `Countdown` the General decoder takes the rule
of the key `Countdown`: the integer is decoded from the text right after these
nine characters. -/
theorem general_line_countdown (env : Env) (buf : Buf) (map : osup_bm) (line : Nat)
    (h : startsWith buf line "Countdown".toList) :
    osup_bm_parse_general_line env buf map line
      = (match env.osup_parse_int buf (line + 9)
            (OSUP_BM_KV_GET_VALUE buf (line + 9)).valueEnd with
          | some k =>
            if k < OSUP_COUNTDOWN_SPEED_NONE || k > OSUP_COUNTDOWN_SPEED_DOUBLE then
              { ok := false, map := map, line := (OSUP_BM_KV_GET_VALUE buf (line + 9)).line }
            else
              { ok := true,
                map := { map with general := { map.general with countdown := k } },
                line := (OSUP_BM_KV_GET_VALUE buf (line + 9)).line }
          | none =>
            { ok := false, map := map, line := (OSUP_BM_KV_GET_VALUE buf (line + 9)).line }) := by
  have c1 := check_prefix_of_conflict buf _ "AudioFilename: ".toList line h (by decide)
  have c2 := check_prefix_of_conflict buf _ "AudioLeadIn: ".toList line h (by decide)
  have c3 := check_prefix_of_conflict buf _ "AudioHash: ".toList line h (by decide)
  have c4 := check_prefix_of_conflict buf _ "PreviewTime: ".toList line h (by decide)
  have c5 := check_prefix_of_startsWith buf _ line h
  have c5' : osup_check_prefix_and_advance buf "Countdown".toList line = some (line + 9) := c5
  simp only [osup_bm_parse_general_line, OSUP_BM_KV_PARSE_STRING, OSUP_BM_KV_PARSE_INT,
    OSUP_BM_KV_PARSE_INT_ENUM, kvParse, c1, c2, c3, c4, c5']
  rfl

/-- C28 (the defect): the key `Countdown` is written without `: `, so on every
line that begins with `Countdown` (`CountdownOffset: n` and `Countdown: k`
included) the General decoder applies the countdown rule to the text that
follows these nine characters, `Offset: n` or `: k`.  The rule of
`CountdownOffset: ` is never reached: `countdownOffset` keeps its value; and
when the integer decoder turns down a text that begins neither with a digit
nor with `-`, both lines are rejected. -/
theorem C28_countdown_prefix_shadows_offset (env : Env) (buf : Buf) (map : osup_bm)
    (line : Nat) (h : startsWith buf line "Countdown".toList) :
    osup_bm_parse_general_line env buf map line
      = (match env.osup_parse_int buf (line + 9)
            (OSUP_BM_KV_GET_VALUE buf (line + 9)).valueEnd with
          | some k =>
            if k < OSUP_COUNTDOWN_SPEED_NONE || k > OSUP_COUNTDOWN_SPEED_DOUBLE then
              { ok := false, map := map, line := (OSUP_BM_KV_GET_VALUE buf (line + 9)).line }
            else
              { ok := true,
                map := { map with general := { map.general with countdown := k } },
                line := (OSUP_BM_KV_GET_VALUE buf (line + 9)).line }
          | none =>
            { ok := false, map := map, line := (OSUP_BM_KV_GET_VALUE buf (line + 9)).line }) ∧
    (osup_bm_parse_general_line env buf map line).map.general.countdownOffset
      = map.general.countdownOffset ∧
    (isdigit (charAt buf (line + 9)) = false → charAt buf (line + 9) ≠ '-' →
      osup_bm_parse_general_line specEnv buf map line
        = { ok := false, map := map, line := (OSUP_BM_KV_GET_VALUE buf (line + 9)).line }) := by
  refine ⟨general_line_countdown env buf map line h, ?_, fun hd hm => ?_⟩
  · rw [general_line_countdown env buf map line h]
    split
    · split <;> rfl
    · rfl
  · rw [general_line_countdown specEnv buf map line h]
    have : specEnv.osup_parse_int buf (line + 9) (OSUP_BM_KV_GET_VALUE buf (line + 9)).valueEnd
        = none := specParseInt_nondigit buf _ _ hd hm
    rw [this]

/-- C28 at the failing inputs: the General lines `CountdownOffset: 5` and
`Countdown: 1` are both rejected and nothing is stored. -/
theorem C28_countdown_prefix_shadows_offset_witness :
    osup_bm_parse_general_line specEnv "CountdownOffset: 5\n".toList {} 0
      = { ok := false, map := {}, line := 18 } ∧
    osup_bm_parse_general_line specEnv "Countdown: 1\n".toList {} 0
      = { ok := false, map := {}, line := 12 } :=
  ⟨(C28_countdown_prefix_shadows_offset specEnv "CountdownOffset: 5\n".toList {} 0
      ((check_prefix_eq_some_iff _ _ _ _).1 (by decide : _ = some 9)).1).2.2
      (by decide) (by decide),
   (C28_countdown_prefix_shadows_offset specEnv "Countdown: 1\n".toList {} 0
      ((check_prefix_eq_some_iff _ _ _ _).1 (by decide : _ = some 9)).1).2.2
      (by decide) (by decide)⟩

/-! ## Slider lists -/

theorem countBars_add (buf : Buf) :
    ∀ (m n p : Nat), countBars buf (m + n) p = countBars buf m p + countBars buf n (p + m) := by
  intro m
  induction m with
  | zero => intro n p; simp [countBars]
  | succ m ih =>
    intro n p
    rw [show m + 1 + n = (m + n) + 1 by omega]
    simp only [countBars]
    rw [ih n (p + 1), show p + 1 + m = p + (m + 1) by omega]
    omega

theorem countBars_eq_zero (buf : Buf) :
    ∀ (n p : Nat), (∀ j, p ≤ j → j < p + n → charAt buf j ≠ '|') → countBars buf n p = 0 := by
  intro n
  induction n with
  | zero => intro p _; rfl
  | succ n ih =>
    intro p h
    have h0 : (charAt buf p == '|') = false := by
      simpa using h p (le_refl _) (by omega)
    simp only [countBars, h0, Bool.false_eq_true, if_false, Nat.zero_add]
    exact ih (p + 1) (fun j h1 h2 => h j (by omega) (by omega))

theorem no_bar_of_countBars (buf : Buf) :
    ∀ (n p : Nat), countBars buf n p = 0 → ∀ j, p ≤ j → j < p + n → charAt buf j ≠ '|' := by
  intro n
  induction n with
  | zero => intro p _ j h1 h2; omega
  | succ n ih =>
    intro p h j h1 h2
    simp only [countBars] at h
    by_cases hp : charAt buf p = '|'
    · simp [hp] at h
    · rcases Nat.eq_or_lt_of_le h1 with h3 | h3
      · subst h3; exact hp
      · have h0 : (charAt buf p == '|') = false := by simpa using hp
        simp only [h0, Bool.false_eq_true, if_false, Nat.zero_add] at h
        exact ih (p + 1) h j (by omega) (by omega)

theorem elemChar_iff (c : Char) :
    elemChar c = true ↔ c ≠ '|' ∧ c ≠ ',' ∧ osup_is_line_terminator c = false := by
  simp [elemChar, and_assoc]

theorem exists_fieldEnd (buf : Buf) (p : Nat) :
    ∃ c, fieldEnd buf p c ∧ c - p ≤ buf.length - p := by
  have hex : ∃ c, p ≤ c ∧
      (charAt buf c = ',' ∨ osup_is_line_terminator (charAt buf c) = true) := by
    refine ⟨max p buf.length, le_max_left _ _, Or.inr ?_⟩
    rw [charAt_of_length_le buf _ (le_max_right _ _)]
    decide
  have hmin : ∀ m, m < Nat.find hex → ¬ (p ≤ m ∧
      (charAt buf m = ',' ∨ osup_is_line_terminator (charAt buf m) = true)) :=
    fun m hm => Nat.find_min hex hm
  obtain ⟨h1, h2⟩ := Nat.find_spec hex
  refine ⟨Nat.find hex, ⟨h1, h2, fun j hj1 hj2 => ?_⟩, ?_⟩
  · have := hmin j hj2
    constructor
    · intro hc; exact this ⟨hj1, Or.inl hc⟩
    · by_contra ht
      exact this ⟨hj1, Or.inr (by simpa using ht)⟩
  · have hle : Nat.find hex ≤ max p buf.length := by
      by_contra hgt
      exact hmin (max p buf.length) (by omega) ⟨le_max_left _ _, Or.inr (by
        rw [charAt_of_length_le buf _ (le_max_right _ _)]; decide)⟩
    rcases Nat.le_total p buf.length with h | h
    · rw [max_eq_right h] at hle; omega
    · rw [max_eq_left h] at hle; omega

theorem fieldEnd_unique (buf : Buf) (p c c' : Nat) (h : fieldEnd buf p c)
    (h' : fieldEnd buf p c') : c = c' := by
  obtain ⟨a1, a2, a3⟩ := h
  obtain ⟨b1, b2, b3⟩ := h'
  rcases Nat.lt_trichotomy c c' with hlt | heq | hgt
  · have := b3 c a1 hlt
    rcases a2 with a2 | a2
    · exact absurd a2 this.1
    · rw [a2] at this; exact absurd this.2 (by decide)
  · exact heq
  · have := a3 c' b1 hgt
    rcases b2 with b2 | b2
    · exact absurd b2 this.1
    · rw [b2] at this; exact absurd this.2 (by decide)

/-- One element of a list field: after an element that starts at `p` and runs
over element characters up to a separator at `s`, either the field held no
`|` and `s` is the `,` that ends it, or `s` is a `|` inside the field and the
rest of the field holds one `|` less. -/
theorem field_step (buf : Buf) (p c s n : Nat) (hf : fieldEnd buf p c) (hs : p ≤ s)
    (hns : ∀ j, p ≤ j → j < s → elemChar (charAt buf j) = true)
    (hsep : charAt buf s = ',' ∨ charAt buf s = '|') (hn : n = countBars buf (c - p) p) :
    (n = 0 → s = c ∧ charAt buf c = ',') ∧
    (∀ m, n = m + 1 → s < c ∧ charAt buf s = '|' ∧ fieldEnd buf (s + 1) c ∧
      m = countBars buf (c - (s + 1)) (s + 1)) := by
  obtain ⟨a1, a2, a3⟩ := hf
  have hsc : s ≤ c := by
    by_contra hgt
    have := (elemChar_iff _).1 (hns c a1 (by omega))
    rcases a2 with a2 | a2
    · exact this.2.1 a2
    · rw [a2] at this; exact absurd this.2.2 (by decide)
  have hbar_nt : osup_is_line_terminator '|' = false := by decide
  constructor
  · intro h0
    have hnb := no_bar_of_countBars buf (c - p) p (by omega)
    have hsc' : s = c := by
      by_contra hne
      have hlt : s < c := by omega
      rcases hsep with h | h
      · exact (a3 s hs hlt).1 h
      · exact hnb s hs (by omega) h
    subst hsc'
    refine ⟨rfl, ?_⟩
    rcases a2 with a2 | a2
    · exact a2
    · rcases hsep with h | h
      · exact h
      · rw [h] at a2; exact absurd a2 (by decide)
  · intro m hm
    have hlt : s < c := by
      by_contra hge
      have hsc' : s = c := by omega
      subst hsc'
      have := countBars_eq_zero buf (s - p) p (fun j h1 h2 =>
        ((elemChar_iff _).1 (hns j h1 (by omega))).1)
      omega
    have hbar : charAt buf s = '|' := by
      rcases hsep with h | h
      · exact absurd h (a3 s hs hlt).1
      · exact h
    refine ⟨hlt, hbar, ⟨by omega, a2, fun j h1 h2 => a3 j (by omega) h2⟩, ?_⟩
    have e1 : c - p = (s - p) + ((c - (s + 1)) + 1) := by omega
    have z := countBars_eq_zero buf (s - p) p (fun j h1 h2 =>
      ((elemChar_iff _).1 (hns j h1 (by omega))).1)
    rw [e1, countBars_add, z, show p + (s - p) = s by omega] at hn
    simp only [countBars, hbar, beq_self_eq_true, if_true] at hn
    omega

theorem pairsLoop_succ_inv (env : Env) (buf : Buf) (n p : Nat) (l : List (Int × Int))
    (q : Nat) (h : pairsLoop env buf (n + 1) p = { value := some l, line := q }) :
    ∃ x q1 y q3 l', env.osup_parse_int_until_nondigit_char buf p = some (x, q1) ∧
      charAt buf q1 = ':' ∧
      env.osup_parse_int_until_nondigit_char buf (q1 + 1) = some (y, q3) ∧
      (charAt buf q3 = ',' ∨ charAt buf q3 = '|') ∧
      pairsLoop env buf n (q3 + 1) = { value := some l', line := q } ∧ l = (x, y) :: l' := by
  unfold pairsLoop at h
  cases hi1 : env.osup_parse_int_until_nondigit_char buf p with
  | none => simp [intUntil, hi1] at h
  | some r1 =>
    obtain ⟨x, q1⟩ := r1
    simp only [intUntil, hi1] at h
    by_cases hc : charAt buf q1 = ':'
    · simp only [expectChar, hc, bne_self_eq_false, Bool.false_eq_true, if_false] at h
      cases hi2 : env.osup_parse_int_until_nondigit_char buf (q1 + 1) with
      | none => simp [hi2] at h
      | some r2 =>
        obtain ⟨y, q3⟩ := r2
        simp only [hi2] at h
        by_cases hsep : charAt buf q3 = ',' ∨ charAt buf q3 = '|'
        · have hsep' : (charAt buf q3 != ',' && charAt buf q3 != '|') = false := by
            rcases hsep with h1 | h1 <;> simp [h1]
          simp only [listSeparator, hsep', Bool.false_eq_true, if_false,
            RowRes.mk.injEq] at h
          obtain ⟨hv, hl⟩ := h
          cases hr : (pairsLoop env buf n (q3 + 1)).value with
          | none => rw [hr] at hv; simp at hv
          | some l' =>
            rw [hr] at hv
            simp only [Option.map_some', Option.some.injEq] at hv
            refine ⟨x, q1, y, q3, l', rfl, hc, hi2, hsep, ?_, hv.symm⟩
            cases hp : pairsLoop env buf n (q3 + 1) with
            | mk v ln =>
              rw [hp] at hr hl
              simp only at hr hl
              rw [hr, hl]
        · have hsep' : (charAt buf q3 != ',' && charAt buf q3 != '|') = true := by
            simp only [not_or] at hsep
            simp [hsep.1, hsep.2]
          simp [listSeparator, hsep'] at h
    · have hc' : (charAt buf q1 != ':') = true := by simpa using hc
      simp [expectChar, hc'] at h

theorem intsLoop_succ_inv (env : Env) (buf : Buf) (n p : Nat) (l : List Int)
    (q : Nat) (h : intsLoop env buf (n + 1) p = { value := some l, line := q }) :
    ∃ x q1 l', env.osup_parse_int_until_nondigit_char buf p = some (x, q1) ∧
      (charAt buf q1 = ',' ∨ charAt buf q1 = '|') ∧
      intsLoop env buf n (q1 + 1) = { value := some l', line := q } ∧ l = x :: l' := by
  unfold intsLoop at h
  cases hi1 : env.osup_parse_int_until_nondigit_char buf p with
  | none => simp [intUntil, hi1] at h
  | some r1 =>
    obtain ⟨x, q1⟩ := r1
    simp only [intUntil, hi1] at h
    by_cases hsep : charAt buf q1 = ',' ∨ charAt buf q1 = '|'
    · have hsep' : (charAt buf q1 != ',' && charAt buf q1 != '|') = false := by
        rcases hsep with h1 | h1 <;> simp [h1]
      simp only [listSeparator, hsep', Bool.false_eq_true, if_false, RowRes.mk.injEq] at h
      obtain ⟨hv, hl⟩ := h
      cases hr : (intsLoop env buf n (q1 + 1)).value with
      | none => rw [hr] at hv; simp at hv
      | some l' =>
        rw [hr] at hv
        simp only [Option.map_some', Option.some.injEq] at hv
        refine ⟨x, q1, l', rfl, hsep, ?_, hv.symm⟩
        cases hp : intsLoop env buf n (q1 + 1) with
        | mk v ln =>
          rw [hp] at hr hl
          simp only at hr hl
          rw [hr, hl]
    · have hsep' : (charAt buf q1 != ',' && charAt buf q1 != '|') = true := by
        simp only [not_or] at hsep
        simp [hsep.1, hsep.2]
      simp [listSeparator, hsep'] at h

/-- The loop that fills a list of `x:y` pairs, run for the pre-computed count
over the field `[p, c)`: when it succeeds it has read exactly that many
elements, consumed the field with the `,` that ends it, and met `|` after
every element but the last. -/
theorem pairsLoop_field (env : Env) (buf : Buf) (hfoot : intFootprint env buf) :
    ∀ (n p c : Nat) (l : List (Int × Int)) (q : Nat), fieldEnd buf p c →
      n = countBars buf (c - p) p →
      pairsLoop env buf (n + 1) p = { value := some l, line := q } →
      l.length = n + 1 ∧ q = c + 1 ∧ charAt buf c = ',' ∧ listText buf (n + 1) p (c + 1) := by
  intro n
  induction n with
  | zero =>
    intro p c l q hf hn h
    obtain ⟨x, q1, y, q3, l', h1, h2, h3, h4, h5, h6⟩ := pairsLoop_succ_inv env buf 0 p l q h
    obtain ⟨f1, f2⟩ := hfoot p x q1 h1
    obtain ⟨g1, g2⟩ := hfoot (q1 + 1) y q3 h3
    have hns : ∀ j, p ≤ j → j < q3 → elemChar (charAt buf j) = true := by
      intro j hj1 hj2
      rcases Nat.lt_trichotomy j q1 with hlt | heq | hgt
      · exact f2 j hj1 hlt
      · subst heq; rw [h2]; decide
      · exact g2 j (by omega) hj2
    obtain ⟨s1, _⟩ := field_step buf p c q3 0 hf (by omega) hns h4 hn
    obtain ⟨e1, e2⟩ := s1 rfl
    subst e1
    simp only [pairsLoop, RowRes.mk.injEq, Option.some.injEq] at h5
    obtain ⟨h5a, h5b⟩ := h5
    subst h6
    refine ⟨by rw [← h5a]; rfl, h5b.symm, e2, q3, by omega, hns, by simpa using e2, rfl⟩
  | succ n ih =>
    intro p c l q hf hn h
    obtain ⟨x, q1, y, q3, l', h1, h2, h3, h4, h5, h6⟩ :=
      pairsLoop_succ_inv env buf (n + 1) p l q h
    obtain ⟨f1, f2⟩ := hfoot p x q1 h1
    obtain ⟨g1, g2⟩ := hfoot (q1 + 1) y q3 h3
    have hns : ∀ j, p ≤ j → j < q3 → elemChar (charAt buf j) = true := by
      intro j hj1 hj2
      rcases Nat.lt_trichotomy j q1 with hlt | heq | hgt
      · exact f2 j hj1 hlt
      · subst heq; rw [h2]; decide
      · exact g2 j (by omega) hj2
    obtain ⟨_, s2⟩ := field_step buf p c q3 (n + 1) hf (by omega) hns h4 hn
    obtain ⟨e1, e2, e3, e4⟩ := s2 n rfl
    obtain ⟨i1, i2, i3, i4⟩ := ih (q3 + 1) c l' q e3 e4 h5
    subst h6
    refine ⟨by simp [i1], i2, i3, q3, by omega, hns, by simpa using e2, i4⟩

/-- The loop that fills the edge-sound list, run for the pre-computed count
over the field `[p, c)`: same as `pairsLoop_field`. -/
theorem intsLoop_field (env : Env) (buf : Buf) (hfoot : intFootprint env buf) :
    ∀ (n p c : Nat) (l : List Int) (q : Nat), fieldEnd buf p c →
      n = countBars buf (c - p) p →
      intsLoop env buf (n + 1) p = { value := some l, line := q } →
      l.length = n + 1 ∧ q = c + 1 ∧ charAt buf c = ',' ∧ listText buf (n + 1) p (c + 1) := by
  intro n
  induction n with
  | zero =>
    intro p c l q hf hn h
    obtain ⟨x, q1, l', h1, h4, h5, h6⟩ := intsLoop_succ_inv env buf 0 p l q h
    obtain ⟨f1, f2⟩ := hfoot p x q1 h1
    obtain ⟨s1, _⟩ := field_step buf p c q1 0 hf f1 f2 h4 hn
    obtain ⟨e1, e2⟩ := s1 rfl
    subst e1
    simp only [intsLoop, RowRes.mk.injEq, Option.some.injEq] at h5
    obtain ⟨h5a, h5b⟩ := h5
    subst h6
    refine ⟨by rw [← h5a]; rfl, h5b.symm, e2, q1, f1, f2, by simpa using e2, rfl⟩
  | succ n ih =>
    intro p c l q hf hn h
    obtain ⟨x, q1, l', h1, h4, h5, h6⟩ := intsLoop_succ_inv env buf (n + 1) p l q h
    obtain ⟨f1, f2⟩ := hfoot p x q1 h1
    obtain ⟨_, s2⟩ := field_step buf p c q1 (n + 1) hf f1 f2 h4 hn
    obtain ⟨e1, e2, e3, e4⟩ := s2 n rfl
    obtain ⟨i1, i2, i3, i4⟩ := ih (q1 + 1) c l' q e3 e4 h5
    subst h6
    refine ⟨by simp [i1], i2, i3, q1, f1, f2, by simpa using e2, i4⟩

theorem fieldEnd_succ (buf : Buf) (p c : Nat) (h : fieldEnd buf p c) (hlt : p < c) :
    fieldEnd buf (p + 1) c :=
  ⟨hlt, h.2.1, fun j h1 h2 => h.2.2 j (by omega) h2⟩

theorem countCurvePoints_field (buf : Buf) :
    ∀ (fuel p c n : Nat), fieldEnd buf p c → c - p ≤ fuel →
      countCurvePoints buf fuel p n = n + countBars buf (c - p) p := by
  intro fuel
  induction fuel with
  | zero =>
    intro p c n hf hle
    have : c - p = 0 := by omega
    rw [this]
    rfl
  | succ fuel ih =>
    intro p c n hf hle
    obtain ⟨a1, a2, a3⟩ := hf
    rcases Nat.eq_or_lt_of_le a1 with heq | hlt
    · subst heq
      have hcond : (charAt buf p != ',' && !osup_is_line_terminator (charAt buf p)) = false := by
        rcases a2 with h | h <;> simp [h]
      simp [countCurvePoints, hcond, countBars]
    · have hj := a3 p (le_refl _) hlt
      have hcond : (charAt buf p != ',' && !osup_is_line_terminator (charAt buf p)) = true := by
        simp [hj.1, hj.2]
      simp only [countCurvePoints, hcond, if_true]
      rw [ih (p + 1) c _ (fieldEnd_succ buf p c ⟨a1, a2, a3⟩ hlt) (by omega),
        show c - p = (c - (p + 1)) + 1 by omega]
      simp only [countBars]
      split <;> omega

theorem countEdges_field (buf : Buf) :
    ∀ (fuel p n k : Nat), countEdges buf fuel p n = some k →
      ∃ c, fieldEnd buf p c ∧ charAt buf c = ',' ∧ k = n + countBars buf (c - p) p := by
  intro fuel
  induction fuel with
  | zero => intro p n k h; simp [countEdges] at h
  | succ fuel ih =>
    intro p n k h
    unfold countEdges at h
    by_cases hc : charAt buf p = ','
    · simp only [hc, bne_self_eq_false, Bool.false_eq_true, if_false, Option.some.injEq] at h
      refine ⟨p, ⟨le_refl _, Or.inl hc, fun j h1 h2 => by omega⟩, hc, ?_⟩
      simp [countBars, h]
    · have hc' : (charAt buf p != ',') = true := by simpa using hc
      simp only [hc', if_true] at h
      by_cases hb : charAt buf p = '|'
      · simp only [hb, beq_self_eq_true, if_true] at h
        obtain ⟨c, f1, f2, f3⟩ := ih (p + 1) (n + 1) k h
        refine ⟨c, ⟨by have := f1.1; omega, f1.2.1, fun j h1 h2 => ?_⟩, f2, ?_⟩
        · rcases Nat.eq_or_lt_of_le h1 with heq | hlt
          · subst heq; exact ⟨hc, by rw [hb]; decide⟩
          · exact f1.2.2 j (by omega) h2
        · have := f1.1
          rw [show c - p = (c - (p + 1)) + 1 by omega]
          simp only [countBars, hb, beq_self_eq_true, if_true]
          omega
      · have hb' : (charAt buf p == '|') = false := by simpa using hb
        simp only [hb', Bool.false_eq_true, if_false] at h
        by_cases ht : osup_is_line_terminator (charAt buf p) = true
        · simp [ht] at h
        · have ht' : osup_is_line_terminator (charAt buf p) = false := by simpa using ht
          simp only [ht', Bool.false_eq_true, if_false] at h
          obtain ⟨c, f1, f2, f3⟩ := ih (p + 1) n k h
          refine ⟨c, ⟨by have := f1.1; omega, f1.2.1, fun j h1 h2 => ?_⟩, f2, ?_⟩
          · rcases Nat.eq_or_lt_of_le h1 with heq | hlt
            · subst heq; exact ⟨hc, ht'⟩
            · exact f1.2.2 j (by omega) h2
          · have := f1.1
            rw [show c - p = (c - (p + 1)) + 1 by omega]
            simp only [countBars, hb', Bool.false_eq_true, if_false]
            omega

theorem andThen_inv {α β : Type} (r : RowRes α) (k : α → Nat → RowRes β) (b : β)
    (h : (r.andThen k).value = some b) :
    ∃ a, r.value = some a ∧ r.andThen k = k a r.line := by
  unfold RowRes.andThen at h ⊢
  cases hr : r.value with
  | none => rw [hr] at h; simp at h
  | some a => exact ⟨a, rfl, rfl⟩

theorem rowRes_eta {α : Type} (r : RowRes α) (a : α) (h : r.value = some a) :
    r = { value := some a, line := r.line } := by
  cases r with
  | mk v l => simp only at h; rw [h]

theorem sliderParams_inv (env : Env) (buf : Buf) (line : Nat) (s : osup_slider) (l' : Nat)
    (h : sliderParams env buf line = { value := some s, line := l' }) :
    ∃ l3 l4 vEnd n2 l7 n3,
      charAt buf (line + 1) = '|' ∧
      pairsLoop env buf (countCurvePoints buf (buf.length - (line + 2)) (line + 2) 1) (line + 2)
        = { value := some s.curvePoints, line := l3 } ∧
      env.osup_parse_int_until_nondigit_char buf l3 = some (s.slides, l4) ∧
      charAt buf l4 = ',' ∧
      findComma buf (buf.length - (l4 + 1) + 1) (l4 + 1) = some vEnd ∧
      env.osup_parse_decimal buf (l4 + 1) vEnd = some s.length ∧
      countEdges buf (buf.length - (vEnd + 1) + 1) (vEnd + 1) 1 = some n2 ∧
      intsLoop env buf n2 (vEnd + 1) = { value := some s.edgeSounds, line := l7 } ∧
      countEdges buf (buf.length - l7 + 1) l7 1 = some n3 ∧
      pairsLoop env buf n3 l7 = { value := some s.edgeSets, line := l' } := by
  unfold sliderParams at h
  cases hct : curveTypeOfChar (charAt buf line) with
  | none => simp [hct] at h
  | some ct =>
    simp only [hct] at h
    by_cases hbar : charAt buf (line + 1) = '|'
    · simp only [expectChar, hbar, bne_self_eq_false, Bool.false_eq_true, if_false] at h
      by_cases hm1 : env.malloc
          (countCurvePoints buf (buf.length - (line + 1 + 1)) (line + 1 + 1) 1) = true
      · simp only [hm1, Bool.not_true, Bool.false_eq_true, if_false] at h
        cases hp1 : pairsLoop env buf
            (countCurvePoints buf (buf.length - (line + 1 + 1)) (line + 1 + 1) 1)
            (line + 1 + 1) with
        | mk v1 l3 =>
        rw [hp1] at h
        cases v1 with
        | none => simp [RowRes.andThen] at h
        | some cps =>
        simp only [RowRes.andThen] at h
        cases hi : env.osup_parse_int_until_nondigit_char buf l3 with
        | none => simp [intUntil, hi] at h
        | some r =>
        obtain ⟨slides, l4⟩ := r
        simp only [intUntil, hi] at h
        by_cases hcomma : charAt buf l4 = ','
        · simp only [hcomma, bne_self_eq_false, Bool.false_eq_true, if_false] at h
          cases hfc : findComma buf (buf.length - (l4 + 1) + 1) (l4 + 1) with
          | none => simp [hfc] at h
          | some vEnd =>
          simp only [hfc] at h
          cases hdec : env.osup_parse_decimal buf (l4 + 1) vEnd with
          | none => simp [hdec] at h
          | some len =>
          simp only [hdec] at h
          cases hce : countEdges buf (buf.length - (vEnd + 1) + 1) (vEnd + 1) 1 with
          | none => simp [hce] at h
          | some n2 =>
          simp only [hce] at h
          by_cases hm2 : env.malloc n2 = true
          · simp only [hm2, Bool.not_true, Bool.false_eq_true, if_false] at h
            cases hp2 : intsLoop env buf n2 (vEnd + 1) with
            | mk v2 l7 =>
            rw [hp2] at h
            cases v2 with
            | none => simp at h
            | some es =>
            simp only at h
            cases hce2 : countEdges buf (buf.length - l7 + 1) l7 1 with
            | none => simp [hce2] at h
            | some n3 =>
            simp only [hce2] at h
            by_cases hm3 : env.malloc n3 = true
            · simp only [hm3, Bool.not_true, Bool.false_eq_true, if_false] at h
              cases hp3 : pairsLoop env buf n3 l7 with
              | mk v3 l8 =>
              rw [hp3] at h
              cases v3 with
              | none => simp at h
              | some ess =>
              simp only [RowRes.mk.injEq, Option.some.injEq] at h
              obtain ⟨hs, hl⟩ := h
              subst hs
              subst hl
              refine ⟨l3, l4, vEnd, n2, l7, n3, hbar, ?_, ?_, hcomma, ?_, ?_, ?_, ?_, ?_, ?_⟩ <;>
                first
                  | rfl
                  | assumption
            · simp [hm3] at h
          · simp [hm2] at h
        · have hcomma' : (charAt buf l4 != ',') = true := by simpa using hcomma
          simp [hcomma'] at h
      · simp [hm1] at h
    · have hbar' : (charAt buf (line + 1) != '|') = true := by simpa using hbar
      simp [expectChar, hbar'] at h

theorem objectParams_slider_inv (env : Env) (buf : Buf) (type p : Nat) (s : osup_slider)
    (h : (objectParams env buf type p).value = some (.slider s)) :
    (sliderParams env buf p).value = some s := by
  unfold objectParams at h
  by_cases hsl : OSUP_IS_SLIDER type = true
  · simp only [hsl, if_true] at h
    obtain ⟨s', hs', hk3⟩ := andThen_inv _ _ _ h
    rw [hk3] at h
    simp only [Option.some.injEq, osup_hitobject_params.slider.injEq] at h
    rw [← h]
    exact hs'
  · simp only [hsl, Bool.false_eq_true, if_false] at h
    by_cases hsp : (OSUP_IS_SPINNER type || OSUP_IS_MANIA_HOLD type) = true
    · simp only [hsp, if_true, intUntil] at h
      cases hi : env.osup_parse_int_until_nondigit_char buf p with
      | none => simp [hi] at h
      | some r =>
        simp only [hi] at h
        by_cases hsp2 : OSUP_IS_SPINNER type = true
        · simp only [hsp2, if_true] at h
          by_cases hc : charAt buf r.2 = ',' <;> simp [hc] at h
        · simp only [hsp2, Bool.false_eq_true, if_false] at h
          by_cases hc : charAt buf r.2 = ':' <;> simp [hc] at h
    · simp [hsp] at h

theorem hit_objects_line_slider_inv (env : Env) (buf : Buf) (line : Nat) (h : osup_hitobject)
    (l' : Nat) (s : osup_slider)
    (hrow : osup_bm_parse_hit_objects_line env buf line = { value := some h, line := l' })
    (hs : h.params = .slider s) :
    ∃ f l1, hitObjectFixedFields env buf line = some f ∧ charAt buf f.elementEnd = ',' ∧
      sliderParams env buf (f.elementEnd + 1) = { value := some s, line := l1 } := by
  unfold osup_bm_parse_hit_objects_line at hrow
  cases hf : hitObjectFixedFields env buf line with
  | none => simp [hf] at hrow
  | some f =>
    simp only [hf] at hrow
    by_cases hcomma : charAt buf f.elementEnd = ','
    · simp only [expectChar, hcomma, bne_self_eq_false, Bool.false_eq_true, if_false] at hrow
      by_cases hbits : typeBitSum f.type = 1
      · simp only [hbits, bne_self_eq_false, Bool.false_eq_true, if_false] at hrow
        have hv := congrArg RowRes.value hrow
        simp only at hv
        obtain ⟨params, hp, hk⟩ := andThen_inv _ _ _ hv
        rw [hk] at hv
        obtain ⟨hsm, _, hk2⟩ := andThen_inv _ _ _ hv
        rw [hk2] at hv
        simp only [Option.some.injEq] at hv
        have hpar : params = .slider s := by rw [← hs, ← hv]
        subst hpar
        exact ⟨f, _, rfl, hcomma,
          rowRes_eta _ _ (objectParams_slider_inv env buf f.type _ s hp)⟩
      · have hbits' : (typeBitSum f.type != 1) = true := by simpa using hbits
        simp [hbits'] at hrow
    · have hcomma' : (charAt buf f.elementEnd != ',') = true := by simpa using hcomma
      simp [expectChar, hcomma'] at hrow

theorem skipDigits_spec (buf : Buf) :
    ∀ (fuel p : Nat), p ≤ skipDigits buf fuel p ∧
      ∀ j, p ≤ j → j < skipDigits buf fuel p → isdigit (charAt buf j) = true := by
  intro fuel
  induction fuel with
  | zero => intro p; exact ⟨le_refl _, fun j h1 h2 => by simp only [skipDigits] at h2; omega⟩
  | succ fuel ih =>
    intro p
    unfold skipDigits
    by_cases hd : isdigit (charAt buf p) = true
    · simp only [hd, if_true]
      obtain ⟨i1, i2⟩ := ih (p + 1)
      refine ⟨by omega, fun j h1 h2 => ?_⟩
      rcases Nat.eq_or_lt_of_le h1 with heq | hlt
      · subst heq; exact hd
      · exact i2 j (by omega) h2
    · simp only [hd, Bool.false_eq_true, if_false]
      exact ⟨le_refl _, fun j h1 h2 => by omega⟩

/-- The integer reader of the concrete environment moves over a sign and
digits only. -/
theorem specEnv_intFootprint (buf : Buf) : intFootprint specEnv buf := by
  intro p v q h
  have h' : specParseIntUntil buf p = some (v, q) := h
  unfold specParseIntUntil at h'
  by_cases hm : charAt buf p = '-'
  · simp only [hm, beq_self_eq_true, if_true] at h'
    split at h'
    · exact Option.noConfusion h'
    · simp only [Option.some.injEq, Prod.mk.injEq] at h'
      obtain ⟨_, hq⟩ := h'
      subst hq
      obtain ⟨i1, i2⟩ := skipDigits_spec buf (buf.length - (p + 1)) (p + 1)
      refine ⟨by omega, fun j h1 h2 => ?_⟩
      rcases Nat.eq_or_lt_of_le h1 with heq | hlt
      · subst heq; rw [hm]; decide
      · have hd := isdigit_props _ (i2 j (by omega) h2)
        exact (elemChar_iff _).2 ⟨hd.2.2.2.1, hd.1, hd.2.2.2.2.2⟩
  · have hm' : (charAt buf p == '-') = false := by simpa using hm
    simp only [hm', Bool.false_eq_true, if_false] at h'
    split at h'
    · exact Option.noConfusion h'
    · simp only [Option.some.injEq, Prod.mk.injEq] at h'
      obtain ⟨_, hq⟩ := h'
      subst hq
      obtain ⟨i1, i2⟩ := skipDigits_spec buf (buf.length - p) p
      refine ⟨i1, fun j h1 h2 => ?_⟩
      have hd := isdigit_props _ (i2 j h1 h2)
      exact (elemChar_iff _).2 ⟨hd.2.2.2.1, hd.1, hd.2.2.2.2.2⟩

/-- The three lists of an accepted slider payload that starts at `line` (the
curve letter): each list has one element more than its field has `|`, and the
loop that filled it consumed exactly the field and the `,` after it, with `|`
between the elements. -/
theorem sliderParams_lists (env : Env) (buf : Buf) (line : Nat) (s : osup_slider) (l' : Nat)
    (hfoot : intFootprint env buf)
    (h : sliderParams env buf line = { value := some s, line := l' }) :
    ∃ c1 l4 vEnd c2 c3,
      fieldEnd buf (line + 2) c1 ∧ charAt buf c1 = ',' ∧
      s.curvePoints.length = 1 + countBars buf (c1 - (line + 2)) (line + 2) ∧
      listText buf s.curvePoints.length (line + 2) (c1 + 1) ∧
      env.osup_parse_int_until_nondigit_char buf (c1 + 1) = some (s.slides, l4) ∧
      charAt buf l4 = ',' ∧
      findComma buf (buf.length - (l4 + 1) + 1) (l4 + 1) = some vEnd ∧
      fieldEnd buf (vEnd + 1) c2 ∧ charAt buf c2 = ',' ∧
      s.edgeSounds.length = 1 + countBars buf (c2 - (vEnd + 1)) (vEnd + 1) ∧
      listText buf s.edgeSounds.length (vEnd + 1) (c2 + 1) ∧
      fieldEnd buf (c2 + 1) c3 ∧ charAt buf c3 = ',' ∧
      s.edgeSets.length = 1 + countBars buf (c3 - (c2 + 1)) (c2 + 1) ∧
      listText buf s.edgeSets.length (c2 + 1) (c3 + 1) ∧ l' = c3 + 1 := by
  obtain ⟨l3, l4, vEnd, n2, l7, n3, _, hp1, hi, hcomma, hfc, _, hce, hp2, hce2, hp3⟩ :=
    sliderParams_inv env buf line s l' h
  obtain ⟨c1, hf1, hb1⟩ := exists_fieldEnd buf (line + 2)
  rw [countCurvePoints_field buf _ (line + 2) c1 1 hf1 hb1, Nat.add_comm] at hp1
  obtain ⟨a1, a2, a3, a4⟩ := pairsLoop_field env buf hfoot _ (line + 2) c1 _ l3 hf1 rfl hp1
  subst a2
  obtain ⟨c2, hf2, hc2, hn2⟩ := countEdges_field buf _ _ _ _ hce
  rw [hn2, Nat.add_comm] at hp2
  obtain ⟨b1, b2, b3, b4⟩ := intsLoop_field env buf hfoot _ (vEnd + 1) c2 _ l7 hf2 rfl hp2
  subst b2
  obtain ⟨c3, hf3, hc3, hn3⟩ := countEdges_field buf _ _ _ _ hce2
  rw [hn3, Nat.add_comm] at hp3
  obtain ⟨d1, d2, d3, d4⟩ := pairsLoop_field env buf hfoot _ (c2 + 1) c3 _ l' hf3 rfl hp3
  refine ⟨c1, l4, vEnd, c2, c3, hf1, a3, by omega, by rw [a1]; exact a4, hi, hcomma, hfc,
    hf2, hc2, by omega, by rw [b1]; exact b4, hf3, hc3, by omega, by rw [d1]; exact d4, d2⟩

/-- C26: let `osup_bm_parse_hit_objects_line` accept a row as a slider `s`,
the integer reader consuming only characters of the number.  With `e` the end
of the five fixed fields, the control points start at `e + 3` (after the `,`,
the curve letter and the `|`), the edge sounds after the `,` that ends the path
length, and the edge sets after the `,` that ends the edge sounds.  Each of
the three lists has one element more than its field (the text up to the first
`,`) has `|` characters, so at least one; the text from the start of the field
to just after that `,` is made of exactly that many elements, each followed by
`|` except the last, which is followed by the `,`. -/
theorem C26_slider_lists (env : Env) (buf : Buf) (line : Nat) (h : osup_hitobject) (l' : Nat)
    (s : osup_slider) (hfoot : intFootprint env buf)
    (hrow : osup_bm_parse_hit_objects_line env buf line = { value := some h, line := l' })
    (hs : h.params = .slider s) :
    ∃ f c1 l4 vEnd c2 c3,
      hitObjectFixedFields env buf line = some f ∧
      fieldEnd buf (f.elementEnd + 3) c1 ∧ charAt buf c1 = ',' ∧
      s.curvePoints.length = 1 + countBars buf (c1 - (f.elementEnd + 3)) (f.elementEnd + 3) ∧
      listText buf s.curvePoints.length (f.elementEnd + 3) (c1 + 1) ∧
      env.osup_parse_int_until_nondigit_char buf (c1 + 1) = some (s.slides, l4) ∧
      charAt buf l4 = ',' ∧
      findComma buf (buf.length - (l4 + 1) + 1) (l4 + 1) = some vEnd ∧
      fieldEnd buf (vEnd + 1) c2 ∧ charAt buf c2 = ',' ∧
      s.edgeSounds.length = 1 + countBars buf (c2 - (vEnd + 1)) (vEnd + 1) ∧
      listText buf s.edgeSounds.length (vEnd + 1) (c2 + 1) ∧
      fieldEnd buf (c2 + 1) c3 ∧ charAt buf c3 = ',' ∧
      s.edgeSets.length = 1 + countBars buf (c3 - (c2 + 1)) (c2 + 1) ∧
      listText buf s.edgeSets.length (c2 + 1) (c3 + 1) := by
  obtain ⟨f, l1, hf, _, hsp⟩ := hit_objects_line_slider_inv env buf line h l' s hrow hs
  obtain ⟨c1, l4, vEnd, c2, c3, a1, a2, a3, a4, a5, a6, a7, a8, a9, a10, a11, a12, a13, a14,
    a15, _⟩ := sliderParams_lists env buf (f.elementEnd + 1) s l1 hfoot hsp
  exact ⟨f, c1, l4, vEnd, c2, c3, hf, a1, a2, a3, a4, a5, a6, a7, a8, a9, a10, a11, a12, a13,
    a14, a15⟩

/-- C26 witness: the example row is accepted with two control points, two edge
sounds and two edge sets; each of the three fields `100:100|200:50`, `0|0` and
`0:0|0:0` holds one `|`. -/
theorem C26_slider_lists_witness :
    (countBars sliderRowExample 14 15 = 1 ∧ countBars sliderRowExample 3 38 = 1 ∧
      countBars sliderRowExample 7 42 = 1) ∧
    ∃ f c1 l4 vEnd c2 c3,
      hitObjectFixedFields specEnv sliderRowExample 0 = some f ∧
      fieldEnd sliderRowExample (f.elementEnd + 3) c1 ∧ charAt sliderRowExample c1 = ',' ∧
      [((100 : Int), (100 : Int)), (200, 50)].length
        = 1 + countBars sliderRowExample (c1 - (f.elementEnd + 3)) (f.elementEnd + 3) ∧
      listText sliderRowExample [((100 : Int), (100 : Int)), (200, 50)].length
        (f.elementEnd + 3) (c1 + 1) ∧
      specEnv.osup_parse_int_until_nondigit_char sliderRowExample (c1 + 1) = some (1, l4) ∧
      charAt sliderRowExample l4 = ',' ∧
      findComma sliderRowExample (sliderRowExample.length - (l4 + 1) + 1) (l4 + 1)
        = some vEnd ∧
      fieldEnd sliderRowExample (vEnd + 1) c2 ∧ charAt sliderRowExample c2 = ',' ∧
      [(0 : Int), 0].length = 1 + countBars sliderRowExample (c2 - (vEnd + 1)) (vEnd + 1) ∧
      listText sliderRowExample [(0 : Int), 0].length (vEnd + 1) (c2 + 1) ∧
      fieldEnd sliderRowExample (c2 + 1) c3 ∧ charAt sliderRowExample c3 = ',' ∧
      [((0 : Int), (0 : Int)), (0, 0)].length
        = 1 + countBars sliderRowExample (c3 - (c2 + 1)) (c2 + 1) ∧
      listText sliderRowExample [((0 : Int), (0 : Int)), (0, 0)].length (c2 + 1) (c3 + 1) :=
  ⟨by decide,
   C26_slider_lists specEnv sliderRowExample 0
    { x := 10, y := 20, time := 30, type := 2, hitSound := 0,
      params := .slider
        { curveType := OSUP_CURVE_BEZIER,
          curvePoints := [(100, 100), (200, 50)],
          slides := 1,
          length := { mantissa := 1500, scale := 1 },
          edgeSounds := [0, 0],
          edgeSets := [(0, 0), (0, 0)] },
      hitSample := { normalSet := 0, additionSet := 0, index := 0,
                     volume := 0, filename := [] } }
    58
    { curveType := OSUP_CURVE_BEZIER,
      curvePoints := [(100, 100), (200, 50)],
      slides := 1,
      length := { mantissa := 1500, scale := 1 },
      edgeSounds := [0, 0],
      edgeSets := [(0, 0), (0, 0)] }
    (specEnv_intFootprint sliderRowExample) (by decide) rfl⟩

end Osup
